import Mathlib

/-!
BPMNSemantics: the execution engine of `src/main/model/model.go`

A shallow embedding of the Go package `model` and theorems about it.

* Go strings are `String`; the type tags are the string constants of the source.
* A node (`Simulator` in the source, an interface implemented by pointer types) is a value of
  the inductive type `Simulator`; a method that mutates its receiver returns the receiver's
  new state, and `BusinessProcess.Simulate` hands the new state of child `i-1` to child `i`,
  which is what the shared pointer does in Go. Every node of a graph is held in one place.
* The closure stored in an `ActiveActivityElement` may read and write variables it captured:
  it is a function on an environment `σ` that is threaded through the execution.
* `sync.WaitGroup` is its counter. `Done` on a zero counter is a run-time panic, `Wait` on a
  counter that can no longer reach zero never returns.
* `go f(...)` is recorded at the place of the statement; the goroutines started by a gateway
  run one after another, in the order of their start, when the gateway reaches `Wait`.
* `time.Sleep` and the random source only stretch time and are left out.
* What an execution did is recorded as a list of `Action`s (one list per call of `Simulate`,
  nested calls inside the `Action.call` of the caller).
-/

namespace Model

/-! ## Constants -/

def STRING : String := "STRING"
def INT : String := "INT"
def FLOAT : String := "FLOAT"
def BOOL : String := "BOOL"
def NONE : String := "NONE"

/-! ## The functions of the Go standard library that the package calls -/

/-- The two errors `strconv.ParseInt` reports (Go standard library): `ErrSyntax`, a text that
is no number, and `ErrRange`, a number outside the requested width. -/
inductive NumError where
  | ErrSyntax
  | ErrRange
  deriving DecidableEq, Repr

/-- The digit loop of `strconv.ParseUint(s, 10, 32)` (Go standard library), which
`strconv.ParseInt` calls. `n` is the number read so far, a `uint64`. A decimal digit is
accumulated; the first character that is no decimal digit is a syntax error (a letter is a
digit of a larger base, any other byte is no digit at all; underscores are accepted for base 0
only); a value above `2^32 - 1` is a range error, reported at once. -/
def parseUintLoop : List Char → Nat → Nat × Option NumError
  | [], n => (n, none)
  | c :: cs, n =>
    if '0' ≤ c ∧ c ≤ '9' then
      let d := c.toNat - '0'.toNat
      if n ≥ (2 ^ 64 - 1) / 10 + 1 then
        (2 ^ 32 - 1, some NumError.ErrRange)
      else
        let n10 := n * 10
        let n1 := (n10 + d) % 2 ^ 64
        if n1 < n10 ∨ n1 > 2 ^ 32 - 1 then
          (2 ^ 32 - 1, some NumError.ErrRange)
        else
          parseUintLoop cs n1
    else
      (0, some NumError.ErrSyntax)

/-- The function `strconv.ParseUint(s, 10, 32)` (Go standard library): the empty text is a
syntax error, otherwise the digit loop from zero. -/
def ParseUint (s : List Char) : Nat × Option NumError :=
  match s with
  | [] => (0, some NumError.ErrSyntax)
  | _ :: _ => parseUintLoop s 0

/-- The function `strconv.ParseInt(s, 10, 32)` (Go standard library), the only parser the
package calls, always with base 10 and bit size 32: an optional sign, then `ParseUint`; the
magnitude must fit a signed 32-bit integer. Returns the pair `(i, err)` of the Go function,
`err = none` standing for `nil`. -/
def ParseInt (s : String) : Int × Option NumError :=
  match s.data with
  | [] => (0, some NumError.ErrSyntax)
  | c :: cs =>
    let neg := decide (c = '-')
    let digits := if c = '+' ∨ c = '-' then cs else c :: cs
    let r := ParseUint digits
    if r.2 = some NumError.ErrSyntax then
      (0, r.2)
    else if neg = false ∧ r.1 ≥ 2 ^ 31 then
      (2 ^ 31 - 1, some NumError.ErrRange)
    else if neg = true ∧ r.1 > 2 ^ 31 then
      (-(2 ^ 31), some NumError.ErrRange)
    else
      (if neg then -(r.1 : Int) else (r.1 : Int), none)

/-- The fields of a text between the separators `;`, on characters. There is always at least
one field. -/
def splitChars : List Char → List (List Char)
  | [] => [[]]
  | c :: cs =>
    if c = ';' then
      [] :: splitChars cs
    else
      match splitChars cs with
      | [] => [[c]]
      | f :: fs => (c :: f) :: fs

/-- The function `strings.Split(s, ";")` (Go standard library), called by the package with
this separator only: the texts between the separators; a text without separator is the only
field. -/
def Split (s : String) : List String :=
  (splitChars s.data).map String.mk

/-- The type `sync.WaitGroup` (Go standard library), the barrier of the specification: its
counter, the number of completions still expected. -/
structure WaitGroup where
  counter : Nat
  deriving DecidableEq, Repr

/-- `wg.Add(delta)` for a positive `delta`: that many more completions are expected. -/
def WaitGroup.Add (wg : WaitGroup) (delta : Nat) : WaitGroup :=
  { counter := wg.counter + delta }

/-- `wg.Done()`: one completion is reported. `none` is the run-time panic
"sync: negative WaitGroup counter". -/
def WaitGroup.Done (wg : WaitGroup) : Option WaitGroup :=
  if wg.counter = 0 then none else some { counter := wg.counter - 1 }

/-! ## The data model -/

/-- The struct `Element`: the fields every node has. `Activity`, `Event` and `Gateway` embed
it; their other fields are the time stamps, which nothing reads, and the two lists of a
gateway, which are arguments of the gateway constructors below. -/
structure Element where
  id : Int
  description : String
  deriving DecidableEq, Repr

/-- The implementations of the interface `Simulator`, one constructor per Go type. `σ` is the
type of the variables captured by the closures of the active activities. -/
inductive Simulator (σ : Type) where
  | DefaultActivityElement (element : Element)
  | ActiveActivityElement (element : Element) (result dataType : String)
      (function : σ → (String × String) × σ)
  | StartEventElement (element : Element)
  | EndEventElement (element : Element)
  | BusinessProcess (element : Element) (processElements : List (Simulator σ))
  | ParallelGateway (element : Element) (conditions : List String)
      (subProcesses : List (Simulator σ))
  | InclusiveGateway (element : Element) (conditions : List String)
      (subProcesses : List (Simulator σ))

/-- What the variables `result` and `conditionResult` of `InclusiveGateway.Simulate`, of type
`interface{}`, can hold once assigned: an `int64` or a `string`. -/
inductive Value where
  | int64 (n : Int)
  | string (s : String)
  deriving DecidableEq, Repr

/-- The run-time panics the package can raise. -/
inductive Panic where
  | indexOutOfRange
  | interfaceConversion
  | negativeCounter
  deriving DecidableEq, Repr

/-- How a call ends: it returns, the program dies of a run-time panic, or the call waits on
a barrier for ever. -/
inductive Status where
  | ok
  | panic (reason : Panic)
  | blocked
  deriving DecidableEq, Repr

/-- One thing a call of `Simulate` did, in the order of the source text. `done` is
`waitGroup.Done()` on the barrier of the caller; `add` is `subWaitGroup.Add(1)` on the barrier
the call declared itself and `wait` the return of `subWaitGroup.Wait()`; `call` is a call of
`Simulate` on `callee` with the argument `previousElement` and holds what that call did;
`go i` is the `go` statement of branch `i`. -/
inductive Action (σ : Type) where
  | print (text : String)
  | add
  | call (callee previousElement : Simulator σ) (inner : List (Action σ))
  | go (i : Nat)
  | wait
  | done

/-- What a call of `Simulate` leaves behind: how it ended, the returned text, the receiver
after the call, the barrier of the caller after the call, the captured variables, and what
the call did. -/
structure Outcome (σ : Type) where
  status : Status
  text : String
  self : Simulator σ
  waitGroup : WaitGroup
  env : σ
  actions : List (Action σ)

/-- The state of a loop over nodes: how it ended, the nodes after the loop, the barrier
`subWaitGroup`, the captured variables, and what the loop did. -/
structure Run (σ : Type) where
  status : Status
  nodes : List (Simulator σ)
  subWaitGroup : WaitGroup
  env : σ
  actions : List (Action σ)

variable {σ : Type}

/-! ## Constructors -/

def InitDefaultActivityElement (text : String) : Simulator σ :=
  .DefaultActivityElement { id := 0, description := text }

def InitActiveActivityElement (text : String) (function : σ → (String × String) × σ) :
    Simulator σ :=
  .ActiveActivityElement { id := 0, description := text } "" "" function

def InitStartEventElement : Simulator σ :=
  .StartEventElement { id := 0, description := "Start Event" }

def InitEndEventElement : Simulator σ :=
  .EndEventElement { id := 0, description := "End Event" }

/-- `InitBusinessProcess` does not store its argument `id`. -/
def InitBusinessProcess (_id : Int) (description : String) : Simulator σ :=
  .BusinessProcess { id := 0, description := description } []

def InitParallelGateway (id : Int) (description : String) : Simulator σ :=
  .ParallelGateway { id := id, description := description } [] []

def InitInclusiveGateway (id : Int) (description : String) : Simulator σ :=
  .InclusiveGateway { id := id, description := description } [] []

/-! ## `Result` -/

/-- The method `Result` of each of the seven types. -/
def Simulator.Result : Simulator σ → String × String
  | .DefaultActivityElement _ => (NONE, STRING)
  | .ActiveActivityElement _ result dataType _ => (result, dataType)
  | .StartEventElement _ => (NONE, STRING)
  | .EndEventElement _ => (NONE, STRING)
  | .BusinessProcess _ _ => (NONE, STRING)
  | .ParallelGateway _ _ _ => (NONE, STRING)
  | .InclusiveGateway _ _ _ => (NONE, STRING)

/-! ## Reading what an execution did -/

/-- The number of completions a call reported on the barrier of its caller: the `done`
actions of the call itself (those of nested calls are inside their `call` action). -/
def signals (actions : List (Action σ)) : Nat :=
  actions.countP fun a => match a with
    | .done => true
    | _ => false

/-- The branches a gateway started, in order: the indices of its `go` statements. -/
def launchedBranches (actions : List (Action σ)) : List Nat :=
  actions.filterMap fun a => match a with
    | .go i => some i
    | _ => none

/-- The calls of `Simulate` a call made itself, in order: the receiver (as it was when
called) and the argument `previousElement`. -/
def calls (actions : List (Action σ)) : List (Simulator σ × Simulator σ) :=
  actions.filterMap fun a => match a with
    | .call callee previousElement _ => some (callee, previousElement)
    | _ => none

/-! ## The inclusive gateway: reading the predecessor and the conditions -/

/-- The `switch dataType` of `InclusiveGateway.Simulate`: the values of `result` and `err`
after it (`none` is `nil`). -/
def parsePrevious (previousResult dataType : String) : Option Value × Option NumError :=
  if dataType = INT then
    (some (Value.int64 (ParseInt previousResult).1), (ParseInt previousResult).2)
  else if dataType = BOOL then
    (some (Value.int64 (ParseInt previousResult).1), (ParseInt previousResult).2)
  else if dataType = FLOAT then
    (some (Value.int64 (ParseInt previousResult).1), (ParseInt previousResult).2)
  else if dataType = STRING then
    (some (Value.string previousResult), none)
  else
    (some (Value.string ""), none)

/-- The type assertion `v.(int64)`. -/
def Value.assertInt64 : Value → Except Panic Int
  | .int64 n => .ok n
  | .string _ => .error Panic.interfaceConversion

/-- The body of the loop over the conditions up to the `go` statement: whether the branch of
this condition is started, or the panic raised on the way. `condition[1]` needs a second
field; the left operand of a comparison is asserted to be an `int64` first; `=` compares the
two interface values. -/
def evalCondition (result : Value) (condition : String) : Except Panic Bool :=
  match Split condition with
  | operator :: threshold :: _ =>
    if (ParseInt threshold).2 = none then
      if operator = "<" then
        match result.assertInt64 with
        | .ok n => .ok (decide (n < (ParseInt threshold).1))
        | .error p => .error p
      else if operator = ">" then
        match result.assertInt64 with
        | .ok n => .ok (decide (n > (ParseInt threshold).1))
        | .error p => .error p
      else if operator = "=" then
        .ok (decide (result = Value.int64 (ParseInt threshold).1))
      else
        .ok false
    else
      .ok false
  | _ => .error Panic.indexOutOfRange

/-- The state of the loop in which a gateway starts its branches: the panic that ended
it if any, the barrier `subWaitGroup`, and what the gateway did so far. -/
structure Launch (σ : Type) where
  panic : Option Panic
  subWaitGroup : WaitGroup
  actions : List (Action σ)

/-- The branches started so far, in order. -/
def Launch.launched (l : Launch σ) : List Nat :=
  launchedBranches l.actions

/-- A gateway before its loop: it has printed the indentation and declared its barrier
`subWaitGroup`. -/
def Launch.start : Launch σ :=
  { panic := none, subWaitGroup := { counter := 0 }, actions := [Action.print "\n\n\t\t\t\t"] }

/-- The loop `for i := range inclusiveGateway.conditions`, from index `i` on, for a gateway
with `n` sub-processes: a branch whose condition holds is registered on `subWaitGroup` and
started; `subProcesses[i]` must exist then. -/
def evalConditions (result : Value) (n : Nat) : Nat → List String → Launch σ → Launch σ
  | _, [], l => l
  | i, condition :: rest, l =>
    match evalCondition result condition with
    | .error p => { l with panic := some p }
    | .ok false => evalConditions result n (i + 1) rest l
    | .ok true =>
      if i < n then
        evalConditions result n (i + 1) rest
          { l with
            subWaitGroup := l.subWaitGroup.Add 1
            actions := l.actions ++ [Action.add, Action.go i] }
      else
        { panic := some Panic.indexOutOfRange
          subWaitGroup := l.subWaitGroup.Add 1
          actions := l.actions ++ [Action.add] }

/-- The loop `for i := range parallelGateway.subProcesses`, from index `i` on: every branch
is registered on `subWaitGroup` and started. -/
def launchAll : Nat → List (Simulator σ) → Launch σ → Launch σ
  | _, [], l => l
  | i, _ :: rest, l =>
    launchAll (i + 1) rest
      { l with
        subWaitGroup := l.subWaitGroup.Add 1
        actions := l.actions ++ [Action.add, Action.go i] }

/-- The actions of a loop that started the branches `launched` and nothing else. -/
def launchActions (launched : List Nat) : List (Action σ) :=
  launched.flatMap fun i => [Action.add, Action.go i]

/-! ## `Simulate` -/

/-- The end of every `Simulate`: `waitGroup.Done()`, then what follows it, then `return`. -/
def complete (self : Simulator σ) (waitGroup : WaitGroup) (env : σ)
    (before after : List (Action σ)) (text : String) : Outcome σ :=
  match waitGroup.Done with
  | none =>
    { status := .panic .negativeCounter, text := "", self := self, waitGroup := waitGroup,
      env := env, actions := before }
  | some wg =>
    { status := .ok, text := text, self := self, waitGroup := wg, env := env,
      actions := before ++ Action.done :: after }

/-- A call that does not return. -/
def abort (status : Status) (self : Simulator σ) (waitGroup : WaitGroup) (env : σ)
    (actions : List (Action σ)) : Outcome σ :=
  { status := status, text := "", self := self, waitGroup := waitGroup, env := env,
    actions := actions }

/-- `subWaitGroup.Wait()` once the goroutines have run, and what follows it in both
gateways: `waitGroup.Done()`, the print of two line ends, `return ""`. -/
def waitAndComplete (self : Simulator σ) (waitGroup : WaitGroup) (before : List (Action σ))
    (r : Run σ) : Outcome σ :=
  match r.status with
  | .ok =>
    if r.subWaitGroup.counter = 0 then
      complete self waitGroup r.env (before ++ r.actions ++ [Action.wait])
        [Action.print "\n\n"] ""
    else
      abort .blocked self waitGroup r.env (before ++ r.actions)
  | s => abort s self waitGroup r.env (before ++ r.actions)

mutual

/-- The method `Simulate` of each of the seven types, called on the first argument with the
arguments `previousElement` and `waitGroup`. -/
def Simulator.Simulate : Simulator σ → Simulator σ → WaitGroup → σ → Outcome σ
  | .DefaultActivityElement e, _, waitGroup, env =>
    complete (.DefaultActivityElement e) waitGroup env [] [] (" ---> " ++ e.description)
  | .ActiveActivityElement e _ _ function, _, waitGroup, env =>
    let r := function env
    complete (.ActiveActivityElement e r.1.1 r.1.2 function) waitGroup r.2 [] []
      (" ---> " ++ e.description ++ " (" ++ r.1.1 ++ ")")
  | .StartEventElement e, _, waitGroup, env =>
    complete (.StartEventElement e) waitGroup env
      [Action.print "Start of business process simulation...\n"] [] e.description
  | .EndEventElement e, _, waitGroup, env =>
    complete (.EndEventElement e) waitGroup env [] [] " ----> End event"
  | .BusinessProcess e processElements, _, waitGroup, env =>
    let r := simulateElements none { counter := 0 } env processElements
    match r.status with
    | .ok => complete (.BusinessProcess e r.nodes) waitGroup r.env r.actions [] ""
    | s => abort s (.BusinessProcess e r.nodes) waitGroup r.env r.actions
  | .ParallelGateway e conditions subProcesses, _, waitGroup, env =>
    let l := launchAll 0 subProcesses Launch.start
    let r := runBranches (.ParallelGateway e conditions subProcesses) l.launched 0
      l.subWaitGroup env subProcesses
    waitAndComplete (.ParallelGateway e conditions r.nodes) waitGroup l.actions r
  | .InclusiveGateway e conditions subProcesses, previousElement, waitGroup, env =>
    match parsePrevious previousElement.Result.1 previousElement.Result.2 with
    | (some result, none) =>
      let l := evalConditions result subProcesses.length 0 conditions Launch.start
      match l.panic with
      | some p =>
        abort (.panic p) (.InclusiveGateway e conditions subProcesses) waitGroup env
          l.actions
      | none =>
        let r := runBranches (.InclusiveGateway e conditions subProcesses) l.launched 0
          l.subWaitGroup env subProcesses
        waitAndComplete (.InclusiveGateway e conditions r.nodes) waitGroup l.actions r
    | _ =>
      { status := .ok, text := "", self := .InclusiveGateway e conditions subProcesses,
        waitGroup := waitGroup, env := env, actions := [] }
termination_by structural s => s

/-- The loop of `BusinessProcess.Simulate` over the elements still to run. `previous` is the
element run just before (`processElements[i-1]`), `none` at the first element (`i = 0`), which
gets itself as its predecessor. Each element is registered on `subWaitGroup`, run to its end,
its returned text printed. -/
def simulateElements (previous : Option (Simulator σ)) (subWaitGroup : WaitGroup) (env : σ) :
    List (Simulator σ) → Run σ
  | [] =>
    { status := .ok, nodes := [], subWaitGroup := subWaitGroup, env := env, actions := [] }
  | element :: rest =>
    let previousElement := previous.getD element
    let r := element.Simulate previousElement (subWaitGroup.Add 1) env
    match r.status with
    | .ok =>
      let next := simulateElements (some r.self) r.waitGroup r.env rest
      { next with
        nodes := r.self :: next.nodes
        actions := Action.add :: Action.call element previousElement r.actions ::
          Action.print r.text :: next.actions }
    | s =>
      { status := s, nodes := r.self :: rest, subWaitGroup := r.waitGroup, env := r.env,
        actions := [Action.add, Action.call element previousElement r.actions] }
termination_by structural l => l

/-- The goroutines a gateway started, run one after the other when the gateway waits: the
sub-process at index `i` runs if `i` is among `launched`, with the gateway as its predecessor
and `subWaitGroup` as its barrier. A goroutine that blocks leaves the others running; a
panic ends the program. -/
def runBranches (gateway : Simulator σ) (launched : List Nat) (i : Nat)
    (subWaitGroup : WaitGroup) (env : σ) : List (Simulator σ) → Run σ
  | [] =>
    { status := .ok, nodes := [], subWaitGroup := subWaitGroup, env := env, actions := [] }
  | subProcess :: rest =>
    if i ∈ launched then
      let r := subProcess.Simulate gateway subWaitGroup env
      match r.status with
      | .panic p =>
        { status := .panic p, nodes := r.self :: rest, subWaitGroup := r.waitGroup,
          env := r.env, actions := [Action.call subProcess gateway r.actions] }
      | _ =>
        let next := runBranches gateway launched (i + 1) r.waitGroup r.env rest
        { next with
          nodes := r.self :: next.nodes
          actions := Action.call subProcess gateway r.actions :: next.actions }
    else
      let next := runBranches gateway launched (i + 1) subWaitGroup env rest
      { next with nodes := subProcess :: next.nodes }
termination_by structural l => l

end

/-! ## Building a graph -/

/-- The assignment `element.id = id` on a node. -/
def Simulator.setId (id : Int) : Simulator σ → Simulator σ
  | .DefaultActivityElement e => .DefaultActivityElement { e with id := id }
  | .ActiveActivityElement e r d f => .ActiveActivityElement { e with id := id } r d f
  | .StartEventElement e => .StartEventElement { e with id := id }
  | .EndEventElement e => .EndEventElement { e with id := id }
  | .BusinessProcess e l => .BusinessProcess { e with id := id } l
  | .ParallelGateway e c l => .ParallelGateway { e with id := id } c l
  | .InclusiveGateway e c l => .InclusiveGateway { e with id := id } c l

/-- The body shared by `AddStartEvent`, `AddDefaultActivity`, `AddActiveActivity`,
`AddEndEvent` and `AddInclusiveGateway`: the node gets the length of the list as its id and
is appended. Go's types make the first argument a `*BusinessProcess`. -/
def addElement (businessProcess element : Simulator σ) : Simulator σ :=
  match businessProcess with
  | .BusinessProcess e processElements =>
    .BusinessProcess e (processElements ++ [element.setId processElements.length])
  | other => other

def AddStartEvent (businessProcess startEventElement : Simulator σ) : Simulator σ :=
  addElement businessProcess startEventElement

def AddDefaultActivity (businessProcess defaultActivity : Simulator σ) : Simulator σ :=
  addElement businessProcess defaultActivity

def AddActiveActivity (businessProcess activeActivity : Simulator σ) : Simulator σ :=
  addElement businessProcess activeActivity

def AddEndEvent (businessProcess endEventElement : Simulator σ) : Simulator σ :=
  addElement businessProcess endEventElement

def AddInclusiveGateway (businessProcess inclusiveGateway : Simulator σ) : Simulator σ :=
  addElement businessProcess inclusiveGateway

/-- `AddSubProcessParallelGateway`: the process is appended to the branches. -/
def AddSubProcessParallelGateway (parallelGateway businessProcess : Simulator σ) :
    Simulator σ :=
  match parallelGateway with
  | .ParallelGateway e conditions subProcesses =>
    .ParallelGateway e conditions (subProcesses ++ [businessProcess])
  | other => other

/-- `AddSubProcessInclusiveGateway`: the condition and the process are appended to their
lists. -/
def AddSubProcessInclusiveGateway (inclusiveGateway : Simulator σ) (condition : String)
    (businessProcess : Simulator σ) : Simulator σ :=
  match inclusiveGateway with
  | .InclusiveGateway e conditions subProcesses =>
    .InclusiveGateway e (conditions ++ [condition]) (subProcesses ++ [businessProcess])
  | other => other

/-! ## Properties of nodes -/

/-- The field `processElements` of a process (no other node has children of this kind). -/
def Simulator.processElements : Simulator σ → List (Simulator σ)
  | .BusinessProcess _ processElements => processElements
  | _ => []

/-- The embedded `Element` of a node: its id and its description. -/
def Simulator.element : Simulator σ → Element
  | .DefaultActivityElement e => e
  | .ActiveActivityElement e _ _ _ => e
  | .StartEventElement e => e
  | .EndEventElement e => e
  | .BusinessProcess e _ => e
  | .ParallelGateway e _ _ => e
  | .InclusiveGateway e _ _ => e

/-- The leaf nodes: the two events and the two activities. -/
def Simulator.isLeaf : Simulator σ → Bool
  | .DefaultActivityElement _ => true
  | .ActiveActivityElement _ _ _ _ => true
  | .StartEventElement _ => true
  | .EndEventElement _ => true
  | _ => false

/-- A node that, called on a barrier on which it is registered, returns and has reported
exactly one completion. -/
def Completes (s : Simulator σ) : Prop :=
  ∀ (previousElement : Simulator σ) (waitGroup : WaitGroup) (env : σ),
    0 < waitGroup.counter →
      (s.Simulate previousElement waitGroup env).status = Status.ok ∧
      (s.Simulate previousElement waitGroup env).waitGroup.counter + 1 = waitGroup.counter

/-- The insertion of a node into a process with the `Add` function of the node's type. The
package has none for a process or a parallel gateway. -/
def addNode (businessProcess node : Simulator σ) : Simulator σ :=
  match node with
  | .StartEventElement _ => AddStartEvent businessProcess node
  | .DefaultActivityElement _ => AddDefaultActivity businessProcess node
  | .ActiveActivityElement _ _ _ _ => AddActiveActivity businessProcess node
  | .EndEventElement _ => AddEndEvent businessProcess node
  | .InclusiveGateway _ _ _ => AddInclusiveGateway businessProcess node
  | _ => businessProcess

/-- The nodes with the ids `start`, `start + 1`, ... in order. -/
def withIds : Nat → List (Simulator σ) → List (Simulator σ)
  | _, [] => []
  | start, node :: rest => node.setId start :: withIds (start + 1) rest

/-! ## The condition language, in the words of the specification -/

/-- Specification (section 4.5, steps 4 and 5): a condition holds for the integer `n` when
it splits on `;` into an operator and a threshold literal, the literal parses as a 32-bit
integer `m`, and the operator is `<` with `n < m`, `>` with `n > m`, or `=` with `n = m`.
Nothing else holds. -/
def conditionHolds (n : Int) (condition : String) : Bool :=
  match Split condition with
  | operator :: threshold :: _ =>
    decide ((ParseInt threshold).2 = none ∧
      ((operator = "<" ∧ n < (ParseInt threshold).1) ∨
       (operator = ">" ∧ n > (ParseInt threshold).1) ∨
       (operator = "=" ∧ n = (ParseInt threshold).1)))
  | _ => false

/-- Specification: the indices, counted from `i`, of the conditions that hold for `n`. -/
def matchingFrom (n : Int) : Nat → List String → List Nat
  | _, [] => []
  | i, condition :: rest =>
    if conditionHolds n condition then i :: matchingFrom n (i + 1) rest
    else matchingFrom n (i + 1) rest

/-! ## The demonstration of `main.go` -/

/-- The process `subProcess1` of `main`: four default activities. -/
def subProcess1 : Simulator σ :=
  AddDefaultActivity (AddDefaultActivity (AddDefaultActivity (AddDefaultActivity
    (InitBusinessProcess 2 "Sub Process 1")
    (InitDefaultActivityElement "Activity 1-1")) (InitDefaultActivityElement "Activity 1-2"))
    (InitDefaultActivityElement "Activity 1-3")) (InitDefaultActivityElement "Activity 1-4")

/-- The process `subProcess2` of `main`: three default activities. -/
def subProcess2 : Simulator σ :=
  AddDefaultActivity (AddDefaultActivity (AddDefaultActivity
    (InitBusinessProcess 3 "Sub Process 2")
    (InitDefaultActivityElement "Activity 2-1")) (InitDefaultActivityElement "Activity 2-2"))
    (InitDefaultActivityElement "Activity 2-3")

/-- The gateway `inclusiveGateway1` of `main` once inserted at position 4 and given its two
branches, `">;30"` to `subProcess1` and `"<;25"` to `subProcess2`. -/
def inclusiveGateway1 : Simulator σ :=
  AddSubProcessInclusiveGateway
    (AddSubProcessInclusiveGateway ((InitInclusiveGateway 1 "Inclusive Gateway").setId 4)
      ">;30" subProcess1)
    "<;25" subProcess2

/-- The activity `activeActivity01` of `main`: its computation returns `("24", INT)`. -/
def activeActivity01 : Simulator σ :=
  InitActiveActivityElement "Active Activity 0-1" (fun env => (("24", INT), env))

/-- The process `businessProcess` of `main`, with its eight children. `main` inserts the
gateway before it gives it its branches, through the pointer; here the gateway is inserted
with its branches. -/
def businessProcess : Simulator σ :=
  AddEndEvent (AddDefaultActivity (AddDefaultActivity (AddInclusiveGateway
    (AddActiveActivity (AddDefaultActivity (AddDefaultActivity (AddStartEvent
      (InitBusinessProcess 1 "Default") InitStartEventElement)
      (InitDefaultActivityElement "Activity 0-1")) (InitDefaultActivityElement "Activity 0-2"))
      activeActivity01)
    inclusiveGateway1) (InitDefaultActivityElement "Activity 0-3"))
    (InitDefaultActivityElement "Activity 0-4")) InitEndEventElement

/-- An active activity that has run and produced the text `value` with the tag `dataType`. -/
def executedActivity (value dataType : String) : Simulator σ :=
  .ActiveActivityElement { id := 3, description := "Active Activity 0-1" } value dataType
    (fun env => ((value, dataType), env))

/-! ## More to read from an execution -/

/-- The number of completions a call registered on the barrier it declared itself: its
`add` actions. -/
def registrations (actions : List (Action σ)) : Nat :=
  actions.countP fun a => match a with
    | .add => true
    | _ => false

/-- What each of the calls a call made itself did, in order. -/
def callTraces (actions : List (Action σ)) : List (List (Action σ)) :=
  actions.filterMap fun a => match a with
    | .call _ _ inner => some inner
    | _ => none

/-- The number of calls a call made itself that reported no completion. -/
def unsignalled (actions : List (Action σ)) : Nat :=
  (callTraces actions).countP fun inner => signals inner = 0

/-- The node types for which the package has an `Add` function into a process. -/
def Simulator.hasAdd : Simulator σ → Bool
  | .BusinessProcess _ _ => false
  | .ParallelGateway _ _ _ => false
  | _ => true

/-- A sequence of calls of `AddSubProcessInclusiveGateway` on a gateway, one per pair of a
condition and a process, in order. -/
def addSubProcesses (inclusiveGateway : Simulator σ) (branches : List (String × Simulator σ)) :
    Simulator σ :=
  branches.foldl (fun g b => AddSubProcessInclusiveGateway g b.1 b.2) inclusiveGateway

/-- The field `conditions` of a gateway. -/
def Simulator.conditions : Simulator σ → List String
  | .ParallelGateway _ conditions _ => conditions
  | .InclusiveGateway _ conditions _ => conditions
  | _ => []

/-- The field `subProcesses` of a gateway. -/
def Simulator.subProcesses : Simulator σ → List (Simulator σ)
  | .ParallelGateway _ _ subProcesses => subProcesses
  | .InclusiveGateway _ _ subProcesses => subProcesses
  | _ => []

/-- Specification: the number a text of decimal digits denotes, read from the left, `acc`
being the number denoted by the digits already read. The digit `0` is the character 48. -/
def digitsValue : List Char → Nat → Nat
  | [], acc => acc
  | c :: cs, acc => digitsValue cs (acc * 10 + (c.toNat - 48))

/-- Specification: whether a text is a non-empty run of decimal digits. -/
def isDigits (cs : List Char) : Bool :=
  decide (cs ≠ []) && cs.all fun c => decide ('0' ≤ c ∧ c ≤ '9')

/-- Specification: the integer a decimal literal denotes: digits, after an optional sign
`+` or `-`. A text that is no such literal denotes nothing. -/
def literalValue (t : String) : Option Int :=
  match t.data with
  | [] => none
  | c :: cs =>
    if c = '-' then
      if isDigits cs then some (-(digitsValue cs 0 : Int)) else none
    else if c = '+' then
      if isDigits cs then some (digitsValue cs 0 : Int) else none
    else
      if isDigits (c :: cs) then some (digitsValue (c :: cs) 0 : Int) else none

/-! ## The parallel gateway over any implementation of the interface -/

/-- The goroutines of a gateway as in `runBranches`, with the call
`subProcesses[i].Simulate(gateway, &subWaitGroup)` made through the interface: `simulate` is
the method `Simulate` that the values of the interface type `Simulator` carry, the one of the
package (`Simulator.Simulate`) or the one of any other type that has the two methods. -/
def runBranchesWith (simulate : Simulator σ → Simulator σ → WaitGroup → σ → Outcome σ)
    (gateway : Simulator σ) (launched : List Nat) :
    List (Simulator σ) → Nat → WaitGroup → σ → Run σ
  | [], _, subWaitGroup, env =>
    { status := .ok, nodes := [], subWaitGroup := subWaitGroup, env := env, actions := [] }
  | subProcess :: rest, i, subWaitGroup, env =>
    if i ∈ launched then
      let r := simulate subProcess gateway subWaitGroup env
      match r.status with
      | .panic p =>
        { status := .panic p, nodes := r.self :: rest, subWaitGroup := r.waitGroup,
          env := r.env, actions := [Action.call subProcess gateway r.actions] }
      | _ =>
        let next := runBranchesWith simulate gateway launched rest (i + 1) r.waitGroup r.env
        { next with
          nodes := r.self :: next.nodes
          actions := Action.call subProcess gateway r.actions :: next.actions }
    else
      let next := runBranchesWith simulate gateway launched rest (i + 1) subWaitGroup env
      { next with nodes := subProcess :: next.nodes }

/-- The method `ParallelGateway.Simulate`, its branches called through the interface with
the method `simulate`: the loop that registers and starts every branch, the goroutines,
`subWaitGroup.Wait()`, `waitGroup.Done()`. -/
def ParallelGateway.Simulate
    (simulate : Simulator σ → Simulator σ → WaitGroup → σ → Outcome σ) (e : Element)
    (conditions : List String) (subProcesses : List (Simulator σ))
    (_previousElement : Simulator σ) (waitGroup : WaitGroup) (env : σ) : Outcome σ :=
  let l := launchAll 0 subProcesses Launch.start
  let r := runBranchesWith simulate (.ParallelGateway e conditions subProcesses) l.launched
    subProcesses 0 l.subWaitGroup env
  waitAndComplete (.ParallelGateway e conditions r.nodes) waitGroup l.actions r

/-- What a call may do to the barrier `w` it was given if it is to count as one branch of a
gateway: it does not panic, and it has called `w.Done()` once, or not at all. -/
def SignalsOrNot (o : Outcome σ) (w : WaitGroup) : Prop :=
  (∀ p, o.status ≠ Status.panic p) ∧
    ((signals o.actions = 1 ∧ o.waitGroup.counter + 1 = w.counter) ∨
      (signals o.actions = 0 ∧ o.waitGroup.counter = w.counter))

/-- A type outside the package that has the two methods, with a `Simulate` that returns
without a call of `waitGroup.Done()`: the method of the interface when the value under the
id `silent` is of that type and every other value is of a type of the package. -/
def simulateWithSilent (silent : Int) (s previousElement : Simulator σ)
    (waitGroup : WaitGroup) (env : σ) : Outcome σ :=
  if s.element.id = silent then
    { status := .ok, text := "", self := s, waitGroup := waitGroup, env := env, actions := [] }
  else
    s.Simulate previousElement waitGroup env

end Model

/-! # Theorems -/

namespace Model

variable {σ : Type}

/-! ## The end of a call -/

theorem done_of_pos (waitGroup : WaitGroup) (h : 0 < waitGroup.counter) :
    waitGroup.Done = some { counter := waitGroup.counter - 1 } := by
  unfold WaitGroup.Done
  rw [if_neg (Nat.pos_iff_ne_zero.mp h)]

theorem complete_of_pos (self : Simulator σ) (waitGroup : WaitGroup) (env : σ)
    (before after : List (Action σ)) (text : String) (h : 0 < waitGroup.counter) :
    complete self waitGroup env before after text =
      { status := .ok, text := text, self := self,
        waitGroup := { counter := waitGroup.counter - 1 }, env := env,
        actions := before ++ Action.done :: after } := by
  unfold complete
  rw [done_of_pos waitGroup h]

theorem complete_self (self : Simulator σ) (waitGroup : WaitGroup) (env : σ)
    (before after : List (Action σ)) (text : String) :
    (complete self waitGroup env before after text).self = self := by
  unfold complete
  cases waitGroup.Done <;> rfl

theorem waitAndComplete_self (self : Simulator σ) (waitGroup : WaitGroup)
    (before : List (Action σ)) (r : Run σ) :
    (waitAndComplete self waitGroup before r).self = self := by
  unfold waitAndComplete
  split
  · split
    · exact complete_self _ _ _ _ _ _
    · rfl
  · rfl

/-! ## Active activities -/

/-- C7. One execution of an active activity, on a barrier on which it is registered, calls
the stored computation once: the captured variables are those left by one call of `function`
on the variables found, `Result` afterwards is the pair that call returned, and the call
returns having reported exactly one completion. -/
theorem activeActivity_simulate (element : Element) (result dataType : String)
    (function : σ → (String × String) × σ) (previousElement : Simulator σ)
    (waitGroup : WaitGroup) (env : σ) (h : 0 < waitGroup.counter) :
    let o := (Simulator.ActiveActivityElement element result dataType function).Simulate
      previousElement waitGroup env
    o.status = Status.ok ∧ o.env = (function env).2 ∧ o.self.Result = (function env).1 ∧
      signals o.actions = 1 ∧ o.waitGroup.counter + 1 = waitGroup.counter := by
  simp only [Simulator.Simulate, complete_of_pos _ _ _ _ _ _ h, Simulator.Result, signals]
  refine ⟨trivial, trivial, trivial, by simp, ?_⟩
  show waitGroup.counter - 1 + 1 = waitGroup.counter
  omega

/-- The computation `() -> ("24", "INT")` of C7, counting its calls in the captured variable:
after one execution `Result` is `("24", "INT")`, the computation was called once, one
completion was reported. -/
theorem activeActivity_simulate_witness :
    0 < (WaitGroup.mk 1).counter ∧
    (let o := (Simulator.ActiveActivityElement ⟨3, "Active Activity 0-1"⟩ "" ""
        (fun (n : Nat) => (("24", "INT"), n + 1))).Simulate
        (InitStartEventElement) ⟨1⟩ 0
     o.status = Status.ok ∧ o.env = 1 ∧ o.self.Result = ("24", "INT") ∧
      signals o.actions = 1 ∧ o.waitGroup.counter + 1 = 1) :=
  ⟨by decide, activeActivity_simulate ⟨3, "Active Activity 0-1"⟩ "" ""
    (fun (n : Nat) => (("24", "INT"), n + 1)) InitStartEventElement ⟨1⟩ 0 (by decide)⟩

/-- C8, as the code has it. An active activity fresh from `InitActiveActivityElement`
returns the pair of empty texts from `Result`: the zero value of its two string fields. -/
theorem initActiveActivity_result (text : String) (function : σ → (String × String) × σ) :
    (InitActiveActivityElement text function).Result = ("", "") := by
  rfl

/-- C8 fails as stated: before its execution the activity of `main` does not return
`(NONE, STRING)`. -/
theorem initActiveActivity_result_ne_none :
    (InitActiveActivityElement "Active Activity 0-1"
      (fun (env : Unit) => (("24", "INT"), env))).Result ≠ (NONE, STRING) := by
  decide

/-! ## `Result` of the other nodes -/

/-- C9. A start event, an end event, a default activity, a process, a parallel gateway and
an inclusive gateway return `(NONE, STRING)` from `Result`, whatever their fields and
children are, and so does each of them after any execution of it, however that execution
ended and whatever its children produced. -/
theorem result_none_string (element : Element) (conditions : List String)
    (children : List (Simulator σ)) (previousElement : Simulator σ) (waitGroup : WaitGroup)
    (env : σ) :
    ((Simulator.StartEventElement element : Simulator σ).Result = (NONE, STRING) ∧
      ((Simulator.StartEventElement element).Simulate previousElement waitGroup
        env).self.Result = (NONE, STRING)) ∧
    ((Simulator.EndEventElement element : Simulator σ).Result = (NONE, STRING) ∧
      ((Simulator.EndEventElement element).Simulate previousElement waitGroup
        env).self.Result = (NONE, STRING)) ∧
    ((Simulator.DefaultActivityElement element : Simulator σ).Result = (NONE, STRING) ∧
      ((Simulator.DefaultActivityElement element).Simulate previousElement waitGroup
        env).self.Result = (NONE, STRING)) ∧
    ((Simulator.BusinessProcess element children).Result = (NONE, STRING) ∧
      ((Simulator.BusinessProcess element children).Simulate previousElement waitGroup
        env).self.Result = (NONE, STRING)) ∧
    ((Simulator.ParallelGateway element conditions children).Result = (NONE, STRING) ∧
      ((Simulator.ParallelGateway element conditions children).Simulate previousElement
        waitGroup env).self.Result = (NONE, STRING)) ∧
    ((Simulator.InclusiveGateway element conditions children).Result = (NONE, STRING) ∧
      ((Simulator.InclusiveGateway element conditions children).Simulate previousElement
        waitGroup env).self.Result = (NONE, STRING)) := by
  refine ⟨⟨rfl, ?_⟩, ⟨rfl, ?_⟩, ⟨rfl, ?_⟩, ⟨rfl, ?_⟩, ⟨rfl, ?_⟩, ⟨rfl, ?_⟩⟩
  · simp only [Simulator.Simulate, complete_self]; rfl
  · simp only [Simulator.Simulate, complete_self]; rfl
  · simp only [Simulator.Simulate, complete_self]; rfl
  · simp only [Simulator.Simulate]
    split
    · simp only [complete_self]; rfl
    · rfl
  · simp only [Simulator.Simulate, waitAndComplete_self]; rfl
  · simp only [Simulator.Simulate]
    split
    · split
      · rfl
      · simp only [waitAndComplete_self]; rfl
    · rfl

/-! ## Processes -/

theorem leaf_completes (s : Simulator σ) (h : s.isLeaf = true) : Completes s := by
  intro previousElement waitGroup env hpos
  cases s <;> try (simp [Simulator.isLeaf] at h; done)
  all_goals
    simp only [Simulator.Simulate, complete_of_pos _ _ _ _ _ _ hpos]
    exact ⟨trivial, by show waitGroup.counter - 1 + 1 = waitGroup.counter; omega⟩

theorem signals_simulateElements (elements : List (Simulator σ)) :
    ∀ (previous : Option (Simulator σ)) (subWaitGroup : WaitGroup) (env : σ),
      signals (simulateElements previous subWaitGroup env elements).actions = 0 := by
  induction elements with
  | nil => intro previous subWaitGroup env; simp [simulateElements, signals]
  | cons element rest ih =>
    intro previous subWaitGroup env
    simp only [simulateElements]
    split
    · have := ih (some (element.Simulate (previous.getD element) (subWaitGroup.Add 1) env).self)
        (element.Simulate (previous.getD element) (subWaitGroup.Add 1) env).waitGroup
        (element.Simulate (previous.getD element) (subWaitGroup.Add 1) env).env
      simpa [signals] using this
    · simp [signals]

theorem simulateElements_completes (elements : List (Simulator σ))
    (h : ∀ c ∈ elements, Completes c) :
    ∀ (previous : Option (Simulator σ)) (subWaitGroup : WaitGroup) (env : σ),
      (simulateElements previous subWaitGroup env elements).status = Status.ok ∧
      (simulateElements previous subWaitGroup env elements).subWaitGroup = subWaitGroup ∧
      (calls (simulateElements previous subWaitGroup env elements).actions).map Prod.fst =
        elements := by
  induction elements with
  | nil => intro previous subWaitGroup env; simp [simulateElements, calls]
  | cons element rest ih =>
    intro previous subWaitGroup env
    have hc := h element (List.mem_cons_self _ _) (previous.getD element) (subWaitGroup.Add 1) env (by simp [WaitGroup.Add])
    have hwg : (element.Simulate (previous.getD element) (subWaitGroup.Add 1) env).waitGroup = subWaitGroup := by
      have h2 := hc.2
      simp only [WaitGroup.Add] at h2
      cases hw : (element.Simulate (previous.getD element) ({ counter := subWaitGroup.counter + 1 }) env).waitGroup
      simp only [WaitGroup.Add, hw]
      rw [hw] at h2
      cases subWaitGroup
      simp only at h2
      simp only [WaitGroup.mk.injEq]
      omega
    have ih' := ih (fun c hc => h c (List.mem_cons_of_mem _ hc))
    simp only [simulateElements, hc.1, hwg]
    refine ⟨(ih' _ _ _).1, (ih' _ _ _).2.1, ?_⟩
    simp only [calls, List.filterMap_cons, List.map_cons]
    have := (ih' (some (element.Simulate (previous.getD element) (subWaitGroup.Add 1) env).self) subWaitGroup
      (element.Simulate (previous.getD element) (subWaitGroup.Add 1) env).env).2.2
    simp only [calls] at this
    rw [this]

theorem isLeaf_setId (id : Int) (s : Simulator σ) : (s.setId id).isLeaf = s.isLeaf := by
  cases s <;> rfl

theorem isLeaf_withIds (nodes : List (Simulator σ)) (h : ∀ c ∈ nodes, c.isLeaf = true) :
    ∀ start : Nat, ∀ c ∈ withIds start nodes, c.isLeaf = true := by
  induction nodes with
  | nil => intro start c hc; simp [withIds] at hc
  | cons node rest ih =>
    intro start c hc
    simp only [withIds, List.mem_cons] at hc
    rcases hc with rfl | hc
    · rw [isLeaf_setId]; exact h node (List.mem_cons_self _ _)
    · exact ih (fun c hc => h c (List.mem_cons_of_mem _ hc)) (start + 1) c hc

theorem length_withIds (nodes : List (Simulator σ)) :
    ∀ start : Nat, (withIds start nodes).length = nodes.length := by
  induction nodes with
  | nil => intro start; rfl
  | cons node rest ih => intro start; simp [withIds, ih]

theorem addNode_leaf (businessProcess node : Simulator σ) (h : node.isLeaf = true) :
    addNode businessProcess node = addElement businessProcess node := by
  cases node <;> try (simp [Simulator.isLeaf] at h; done)
  all_goals rfl

theorem foldl_addNode_leaves (element : Element) (leaves : List (Simulator σ))
    (h : ∀ c ∈ leaves, c.isLeaf = true) :
    ∀ processElements : List (Simulator σ),
      leaves.foldl addNode (Simulator.BusinessProcess element processElements) =
        Simulator.BusinessProcess element
          (processElements ++ withIds processElements.length leaves) := by
  induction leaves with
  | nil => intro processElements; simp [withIds]
  | cons node rest ih =>
    intro processElements
    rw [List.foldl_cons, addNode_leaf _ _ (h node (List.mem_cons_self _ _))]
    simp only [addElement]
    rw [ih (fun c hc => h c (List.mem_cons_of_mem _ hc))]
    simp [withIds]

/-- C2. A process built by `InitBusinessProcess` and the insertion of `K` leaf nodes (start
events, end events, default and active activities in any mix, each with the `Add` function
of its type) has these `K` nodes as its children, in the order of insertion. Executed on a
barrier on which it is registered, it returns, the calls of `Simulate` it made are exactly
one per child in that order, and it reported exactly one completion to its caller. -/
theorem process_of_leaves_simulate (id : Int) (description : String)
    (leaves : List (Simulator σ)) (hleaves : ∀ c ∈ leaves, c.isLeaf = true)
    (previousElement : Simulator σ) (waitGroup : WaitGroup) (env : σ)
    (h : 0 < waitGroup.counter) :
    let p := leaves.foldl addNode (InitBusinessProcess id description)
    let o := p.Simulate previousElement waitGroup env
    p.processElements = withIds 0 leaves ∧ p.processElements.length = leaves.length ∧
      o.status = Status.ok ∧ (calls o.actions).map Prod.fst = p.processElements ∧
      signals o.actions = 1 ∧ o.waitGroup.counter + 1 = waitGroup.counter := by
  have hp : leaves.foldl addNode (InitBusinessProcess id description) =
      Simulator.BusinessProcess { id := 0, description := description }
        (withIds 0 leaves) := by
    have := foldl_addNode_leaves { id := 0, description := description } leaves hleaves []
    simpa [InitBusinessProcess] using this
  have hs := simulateElements_completes (withIds 0 leaves)
    (fun c hc => leaf_completes c (isLeaf_withIds leaves hleaves 0 c hc)) none
    { counter := 0 } env
  have hsig := signals_simulateElements (withIds 0 leaves) none { counter := 0 } env
  simp only [hp, Simulator.processElements, length_withIds, Simulator.Simulate, hs.1,
    complete_of_pos _ _ _ _ _ _ h]
  refine ⟨trivial, trivial, trivial, ?_, ?_, ?_⟩
  · have := hs.2.2
    simp only [calls, List.filterMap_append, List.filterMap_cons, List.filterMap_nil,
      List.append_nil] at this ⊢
    exact this
  · simp only [signals, List.countP_append, List.countP_cons, List.countP_nil] at hsig ⊢
    rw [hsig]; rfl
  · show waitGroup.counter - 1 + 1 = waitGroup.counter
    omega

/-- The process of C2 with one leaf of each kind, on a barrier that expects one completion. -/
theorem process_of_leaves_simulate_witness :
    (∀ c ∈ [(InitStartEventElement : Simulator Nat), InitDefaultActivityElement "Activity 0-1",
        InitActiveActivityElement "Active Activity 0-1" (fun n => (("24", "INT"), n + 1)),
        InitEndEventElement], c.isLeaf = true) ∧
    0 < (WaitGroup.mk 1).counter ∧
    (let p := [(InitStartEventElement : Simulator Nat), InitDefaultActivityElement "Activity 0-1",
        InitActiveActivityElement "Active Activity 0-1" (fun n => (("24", "INT"), n + 1)),
        InitEndEventElement].foldl addNode (InitBusinessProcess 1 "Default")
     let o := p.Simulate p ⟨1⟩ 0
     p.processElements = withIds 0 [(InitStartEventElement : Simulator Nat),
        InitDefaultActivityElement "Activity 0-1",
        InitActiveActivityElement "Active Activity 0-1" (fun n => (("24", "INT"), n + 1)),
        InitEndEventElement] ∧
      p.processElements.length = 4 ∧
      o.status = Status.ok ∧ (calls o.actions).map Prod.fst = p.processElements ∧
      signals o.actions = 1 ∧ o.waitGroup.counter + 1 = 1) :=
  ⟨by simp [InitStartEventElement, InitDefaultActivityElement, InitActiveActivityElement,
      InitEndEventElement, Simulator.isLeaf],
    by decide,
    process_of_leaves_simulate 1 "Default" _
      (by simp [InitStartEventElement, InitDefaultActivityElement, InitActiveActivityElement,
        InitEndEventElement, Simulator.isLeaf])
      (List.foldl addNode (InitBusinessProcess 1 "Default") _) ⟨1⟩ 0 (by decide)⟩

theorem calls_simulateElements (elements : List (Simulator σ)) :
    ∀ (previous : Option (Simulator σ)) (subWaitGroup : WaitGroup) (env : σ) (k : Nat)
      (c p : Simulator σ),
      (calls (simulateElements previous subWaitGroup env elements).actions)[k]? = some (c, p) →
        elements[k]? = some c ∧ (k = 0 → p = previous.getD c) ∧
        (∀ j, k = j + 1 →
          (simulateElements previous subWaitGroup env elements).nodes[j]? = some p) := by
  induction elements with
  | nil =>
    intro previous subWaitGroup env k c p h
    simp [simulateElements, calls] at h
  | cons element rest ih =>
    intro previous subWaitGroup env k c p h
    simp only [simulateElements] at h ⊢
    split at h
    next hst =>
      simp only [hst]
      simp only [calls, List.filterMap_cons] at h
      cases k with
      | zero =>
        simp only [List.getElem?_cons_zero, Option.some.injEq, Prod.mk.injEq] at h
        obtain ⟨rfl, rfl⟩ := h
        exact ⟨by simp, fun _ => rfl, fun j hj => by omega⟩
      | succ k =>
        simp only [List.getElem?_cons_succ] at h
        have := ih _ _ _ k c p h
        refine ⟨by simpa using this.1, fun hk => by omega, ?_⟩
        intro j hj
        have hj' : j = k := by omega
        subst hj'
        cases j with
        | zero => simpa using (this.2.1 rfl).symm
        | succ j => simpa using this.2.2 j rfl
    next s hst =>
      simp only [calls, List.filterMap_cons, List.filterMap_nil] at h
      cases k with
      | zero =>
        simp only [List.getElem?_cons_zero, Option.some.injEq, Prod.mk.injEq] at h
        obtain ⟨rfl, rfl⟩ := h
        exact ⟨by simp, fun _ => rfl, fun j hj => by omega⟩
      | succ k => simp at h

theorem length_calls_simulateElements (elements : List (Simulator σ)) :
    ∀ (previous : Option (Simulator σ)) (subWaitGroup : WaitGroup) (env : σ),
      (simulateElements previous subWaitGroup env elements).status = Status.ok →
        (calls (simulateElements previous subWaitGroup env elements).actions).length =
          elements.length := by
  induction elements with
  | nil => intro previous subWaitGroup env _; simp [simulateElements, calls]
  | cons element rest ih =>
    intro previous subWaitGroup env h
    simp only [simulateElements] at h ⊢
    split at h
    next hst =>
      simp only [hst]
      simp only [calls, List.filterMap_cons, List.length_cons, Nat.add_right_cancel_iff]
      exact ih _ _ _ h
    next s hst => exact absurd h (hst)

theorem simulate_self_element (s previousElement : Simulator σ) (waitGroup : WaitGroup)
    (env : σ) : (s.Simulate previousElement waitGroup env).self.element = s.element := by
  cases s
  all_goals simp only [Simulator.Simulate]
  case BusinessProcess =>
    split
    · simp only [complete_self]; rfl
    · rfl
  case ParallelGateway => simp only [waitAndComplete_self]; rfl
  case InclusiveGateway =>
    split
    · split
      · rfl
      · simp only [waitAndComplete_self]; rfl
    · rfl
  all_goals simp only [complete_self, Simulator.element]

theorem nodes_simulateElements (elements : List (Simulator σ)) :
    ∀ (previous : Option (Simulator σ)) (subWaitGroup : WaitGroup) (env : σ) (j : Nat)
      (node : Simulator σ),
      (simulateElements previous subWaitGroup env elements).nodes[j]? = some node →
        ∃ c, elements[j]? = some c ∧ node.element = c.element := by
  induction elements with
  | nil =>
    intro previous subWaitGroup env j node h
    simp [simulateElements] at h
  | cons element rest ih =>
    intro previous subWaitGroup env j node h
    simp only [simulateElements] at h
    split at h
    next hst =>
      cases j with
      | zero =>
        simp only [List.getElem?_cons_zero, Option.some.injEq] at h
        exact ⟨element, by simp, by rw [← h, simulate_self_element]⟩
      | succ j =>
        simp only [List.getElem?_cons_succ] at h
        obtain ⟨c, hc, he⟩ := ih _ _ _ j node h
        exact ⟨c, by simpa using hc, he⟩
    next s hst =>
      cases j with
      | zero =>
        simp only [List.getElem?_cons_zero, Option.some.injEq] at h
        exact ⟨element, by simp, by rw [← h, simulate_self_element]⟩
      | succ j =>
        simp only [List.getElem?_cons_succ] at h
        exact ⟨node, by simpa using h, rfl⟩

theorem process_simulate_parts (element : Element) (processElements : List (Simulator σ))
    (previousElement : Simulator σ) (waitGroup : WaitGroup) (env : σ) :
    let o := (Simulator.BusinessProcess element processElements).Simulate previousElement
      waitGroup env
    let r := simulateElements none { counter := 0 } env processElements
    calls o.actions = calls r.actions ∧ o.self.processElements = r.nodes ∧
      (o.status = Status.ok → r.status = Status.ok) := by
  simp only [Simulator.Simulate]
  split
  next hst =>
    unfold complete
    cases waitGroup.Done with
    | none => exact ⟨rfl, rfl, fun _ => hst⟩
    | some wg =>
      refine ⟨?_, rfl, fun _ => hst⟩
      simp [calls, List.filterMap_append]
  next s hst => exact ⟨rfl, rfl, fun h => absurd h hst⟩

/-- C10. In an execution of a process, every call of `Simulate` the process makes is on its
children in order: the call number `i` is on child `i`; at `i = 0` the argument
`previousElement` is that child itself, whatever the predecessor of the process is; at
`i = j + 1` it is child `j` as the process holds it after that child's execution, the node
inserted at position `j` (same id and description). An execution that returns has made one
call per child. -/
theorem process_predecessors (element : Element) (processElements : List (Simulator σ))
    (previousElement : Simulator σ) (waitGroup : WaitGroup) (env : σ) :
    let o := (Simulator.BusinessProcess element processElements).Simulate previousElement
      waitGroup env
    (∀ (i : Nat) (child argument : Simulator σ),
      (calls o.actions)[i]? = some (child, argument) →
        processElements[i]? = some child ∧ (i = 0 → argument = child) ∧
        (∀ j, i = j + 1 →
          o.self.processElements[j]? = some argument ∧
          ∃ c, processElements[j]? = some c ∧ argument.element = c.element)) ∧
    (o.status = Status.ok → (calls o.actions).length = processElements.length) := by
  intro o
  have hparts := process_simulate_parts element processElements previousElement waitGroup env
  simp only at hparts
  obtain ⟨hcalls, hnodes, hok⟩ := hparts
  constructor
  · intro i child argument h
    have hc := calls_simulateElements processElements none { counter := 0 } env i child
      argument (by rw [← hcalls]; exact h)
    refine ⟨hc.1, fun hi => by simpa using hc.2.1 hi, fun j hj => ?_⟩
    have hj' := hc.2.2 j hj
    exact ⟨by rw [hnodes]; exact hj', nodes_simulateElements _ _ _ _ _ _ hj'⟩
  · intro h
    show (calls ((Simulator.BusinessProcess element processElements).Simulate previousElement
      waitGroup env).actions).length = processElements.length
    rw [hcalls]
    exact length_calls_simulateElements _ _ _ _ (hok h)

/-- The process of `main`, executed as `main` does: call number 4 is on the inclusive
gateway, and its argument is the active activity inserted at position 3, holding the result
`("24", INT)` of its execution. -/
theorem process_predecessors_witness :
    (calls ((businessProcess : Simulator Unit).Simulate businessProcess ⟨1⟩ ()).actions)[4]? =
        some (inclusiveGateway1, executedActivity "24" INT) ∧
      ((businessProcess : Simulator Unit).processElements[4]? = some inclusiveGateway1 ∧
        (4 = 0 → (executedActivity "24" INT : Simulator Unit) = inclusiveGateway1) ∧
        (∀ j, 4 = j + 1 →
          ((businessProcess : Simulator Unit).Simulate businessProcess ⟨1⟩
              ()).self.processElements[j]? = some (executedActivity "24" INT) ∧
            ∃ c, (businessProcess : Simulator Unit).processElements[j]? = some c ∧
              (executedActivity "24" INT : Simulator Unit).element = c.element)) :=
  ⟨rfl, (process_predecessors ⟨0, "Default"⟩ (businessProcess : Simulator Unit).processElements
    businessProcess ⟨1⟩ ()).1 4 inclusiveGateway1 (executedActivity "24" INT) rfl⟩

/-! ## Texts -/

theorem splitChars_ne_nil (l : List Char) : splitChars l ≠ [] := by
  cases l with
  | nil => simp [splitChars]
  | cons c cs =>
    simp only [splitChars]
    split
    · simp
    · split <;> simp

theorem splitChars_of_not_mem (l : List Char) (h : ';' ∉ l) : splitChars l = [l] := by
  induction l with
  | nil => rfl
  | cons c cs ih =>
    simp only [List.mem_cons, not_or] at h
    simp only [splitChars, if_neg (Ne.symm h.1), ih h.2]

theorem splitChars_append (a t : List Char) (h : ';' ∉ a) :
    splitChars (a ++ ';' :: t) = a :: splitChars t := by
  induction a with
  | nil => simp [splitChars]
  | cons c cs ih =>
    simp only [List.mem_cons, not_or] at h
    show splitChars (c :: (cs ++ ';' :: t)) = (c :: cs) :: splitChars t
    rw [splitChars, if_neg (Ne.symm h.1), ih h.2]

theorem splitChars_of_mem (l : List Char) (h : ';' ∈ l) :
    ∃ a b rest, splitChars l = a :: b :: rest := by
  induction l with
  | nil => simp at h
  | cons c cs ih =>
    by_cases hc : c = ';'
    · simp only [splitChars, if_pos hc]
      cases hs : splitChars cs with
      | nil => exact absurd hs (splitChars_ne_nil cs)
      | cons b rest => exact ⟨[], b, rest, rfl⟩
    · have hcs : ';' ∈ cs := by
        simp only [List.mem_cons] at h
        rcases h with h | h
        · exact absurd h.symm hc
        · exact h
      obtain ⟨a, b, rest, hs⟩ := ih hcs
      exact ⟨c :: a, b, rest, by simp only [splitChars, if_neg hc, hs]⟩

theorem Split_of_mem (condition : String) (h : ';' ∈ condition.data) :
    ∃ operator threshold rest, Split condition = operator :: threshold :: rest := by
  obtain ⟨a, b, rest, hs⟩ := splitChars_of_mem condition.data h
  exact ⟨String.mk a, String.mk b, rest.map String.mk, by simp [Split, hs]⟩

theorem Split_of_not_mem (condition : String) (h : ';' ∉ condition.data) :
    Split condition = [condition] := by
  simp [Split, splitChars_of_not_mem _ h]

theorem Split_form (op t : String) (hop : ';' ∉ op.data) (ht : ';' ∉ t.data) :
    Split (op ++ ";" ++ t) = [op, t] := by
  have h : (op ++ ";" ++ t).data = op.data ++ ';' :: t.data := by
    simp [String.data_append]
  simp [Split, h, splitChars_append _ _ hop, splitChars_of_not_mem _ ht]

theorem parseUintLoop_range (cs : List Char) :
    ∀ n, (parseUintLoop cs n).2 = some NumError.ErrRange → (parseUintLoop cs n).1 = 2 ^ 32 - 1 := by
  induction cs with
  | nil => intro n h; simp [parseUintLoop] at h
  | cons c cs ih =>
    intro n h
    rw [parseUintLoop] at h ⊢
    by_cases h1 : '0' ≤ c ∧ c ≤ '9'
    · rw [if_pos h1] at h ⊢
      by_cases h2 : n ≥ (2 ^ 64 - 1) / 10 + 1
      · rw [if_pos h2]
      · rw [if_neg h2] at h ⊢
        simp only at h ⊢
        by_cases h3 : (n * 10 + (c.toNat - '0'.toNat)) % 2 ^ 64 < n * 10 ∨
            (n * 10 + (c.toNat - '0'.toNat)) % 2 ^ 64 > 2 ^ 32 - 1
        · rw [if_pos h3]
        · rw [if_neg h3] at h ⊢
          exact ih _ h
    · rw [if_neg h1] at h
      simp at h

theorem parseUintLoop_digits (cs : List Char) :
    ∀ n, (parseUintLoop cs n).2 = none → ∀ c ∈ cs, '0' ≤ c ∧ c ≤ '9' := by
  induction cs with
  | nil => intro n _ c hc; simp at hc
  | cons d cs ih =>
    intro n h c hc
    simp only [parseUintLoop] at h
    split at h
    · rename_i hd
      split at h
      · simp at h
      · split at h
        · simp at h
        · simp only [List.mem_cons] at hc
          rcases hc with rfl | hc
          · exact hd
          · exact ih _ h c hc
    · simp at h

theorem not_sep_of_digit (c : Char) (h : '0' ≤ c ∧ c ≤ '9') : c ≠ ';' := by
  rintro rfl
  exact absurd h (by decide)

theorem ParseUint_range (digits : List Char)
    (h : (ParseUint digits).2 = some NumError.ErrRange) : (ParseUint digits).1 = 2 ^ 32 - 1 := by
  cases digits with
  | nil => simp [ParseUint] at h
  | cons c cs => exact parseUintLoop_range _ _ h

theorem ParseUint_digits (digits : List Char) (h : (ParseUint digits).2 = none) :
    ∀ c ∈ digits, '0' ≤ c ∧ c ≤ '9' := by
  cases digits with
  | nil => simp [ParseUint] at h
  | cons c cs => exact parseUintLoop_digits _ _ h

theorem ParseInt_cons (s : String) (c : Char) (cs : List Char) (hs : s.data = c :: cs) :
    ParseInt s =
      if (ParseUint (if c = '+' ∨ c = '-' then cs else c :: cs)).2 =
          some NumError.ErrSyntax then
        (0, (ParseUint (if c = '+' ∨ c = '-' then cs else c :: cs)).2)
      else if decide (c = '-') = false ∧
          (ParseUint (if c = '+' ∨ c = '-' then cs else c :: cs)).1 ≥ 2 ^ 31 then
        (2 ^ 31 - 1, some NumError.ErrRange)
      else if decide (c = '-') = true ∧
          (ParseUint (if c = '+' ∨ c = '-' then cs else c :: cs)).1 > 2 ^ 31 then
        (-(2 ^ 31), some NumError.ErrRange)
      else
        (if decide (c = '-') then
            -((ParseUint (if c = '+' ∨ c = '-' then cs else c :: cs)).1 : Int)
          else ((ParseUint (if c = '+' ∨ c = '-' then cs else c :: cs)).1 : Int), none) := by
  unfold ParseInt
  rw [hs]

theorem ParseInt_digits (s : String) (c : Char) (cs : List Char) (hs : s.data = c :: cs)
    (h : (ParseInt s).2 = none) :
    (ParseUint (if c = '+' ∨ c = '-' then cs else c :: cs)).2 = none := by
  rw [ParseInt_cons s c cs hs] at h
  have hR := ParseUint_range (if c = '+' ∨ c = '-' then cs else c :: cs)
  generalize ParseUint (if c = '+' ∨ c = '-' then cs else c :: cs) = r at h hR ⊢
  by_cases h1 : r.2 = some NumError.ErrSyntax
  · rw [if_pos h1] at h
    exact h
  · rw [if_neg h1] at h
    by_cases h2 : decide (c = '-') = false ∧ r.1 ≥ 2 ^ 31
    · rw [if_pos h2] at h; simp at h
    · rw [if_neg h2] at h
      by_cases h3 : decide (c = '-') = true ∧ r.1 > 2 ^ 31
      · rw [if_pos h3] at h; simp at h
      · cases he : r.2 with
        | none => rfl
        | some e =>
          exfalso
          cases e with
          | ErrSyntax => exact h1 he
          | ErrRange =>
            rw [hR he] at h2 h3
            by_cases hneg : c = '-'
            · exact h3 ⟨by simp [hneg], by decide⟩
            · exact h2 ⟨by simp [hneg], by decide⟩

theorem ParseInt_no_sep (s : String) (h : (ParseInt s).2 = none) : ';' ∉ s.data := by
  cases hs : s.data with
  | nil => unfold ParseInt at h; rw [hs] at h; simp at h
  | cons c cs =>
    have hnone := ParseInt_digits s c cs hs h
    have hdig := ParseUint_digits _ hnone
    intro hmem
    simp only [List.mem_cons] at hmem
    by_cases hsign : c = '+' ∨ c = '-'
    · rw [if_pos hsign] at hdig
      rcases hmem with hm | hm
      · rcases hsign with hp | hp <;> rw [hp] at hm <;> exact absurd hm (by decide)
      · exact not_sep_of_digit _ (hdig _ hm) rfl
    · rw [if_neg hsign] at hdig
      rcases hmem with hm | hm
      · exact not_sep_of_digit _ (hdig c (List.mem_cons_self _ _)) hm.symm
      · exact not_sep_of_digit _ (hdig _ (List.mem_cons_of_mem _ hm)) rfl

/-! ## The loop over the conditions -/

theorem evalCondition_int64_of_split (n : Int) (condition operator threshold : String)
    (rest : List String) (h : Split condition = operator :: threshold :: rest) :
    evalCondition (Value.int64 n) condition = .ok (conditionHolds n condition) := by
  unfold evalCondition conditionHolds
  rw [h]
  simp only [Value.assertInt64]
  by_cases hp : (ParseInt threshold).2 = none
  · rw [if_pos hp]
    by_cases h1 : operator = "<"
    · subst h1
      simp [hp]
    · rw [if_neg h1]
      by_cases h2 : operator = ">"
      · subst h2
        simp [hp]
      · rw [if_neg h2]
        by_cases h3 : operator = "="
        · subst h3
          simp [hp]
        · rw [if_neg h3]
          simp [h1, h2, h3]
  · rw [if_neg hp]
    simp [hp]

theorem evalCondition_int64 (n : Int) (condition : String) (h : ';' ∈ condition.data) :
    evalCondition (Value.int64 n) condition = .ok (conditionHolds n condition) := by
  obtain ⟨operator, threshold, rest, hs⟩ := Split_of_mem condition h
  exact evalCondition_int64_of_split n condition operator threshold rest hs

theorem conditionHolds_form (n m : Int) (op t : String) (hop : ';' ∉ op.data)
    (ht : ParseInt t = (m, none)) :
    conditionHolds n (op ++ ";" ++ t) = true ↔
      (op = "<" ∧ n < m) ∨ (op = ">" ∧ n > m) ∨ (op = "=" ∧ n = m) := by
  have hsep : ';' ∉ t.data := ParseInt_no_sep t (by rw [ht])
  unfold conditionHolds
  rw [Split_form op t hop hsep]
  simp [ht]

theorem launched_add_go (l : Launch σ) (w : WaitGroup) (i : Nat) :
    Launch.launched { l with subWaitGroup := w, actions := l.actions ++ [Action.add, Action.go i] } =
      l.launched ++ [i] := by
  simp [Launch.launched, launchedBranches, List.filterMap_append]

theorem mem_launched_evalConditions (result : Value) (k : Nat) (conditions : List String) :
    ∀ (i : Nat) (l : Launch σ) (x : Nat),
      x ∈ (evalConditions result k i conditions l).launched →
        x ∈ l.launched ∨
        (i ≤ x ∧ ∃ c, conditions[x - i]? = some c ∧ evalCondition result c = .ok true) := by
  induction conditions with
  | nil => intro i l x h; exact Or.inl (by simpa [evalConditions] using h)
  | cons condition rest ih =>
    intro i l x h
    rw [evalConditions] at h
    cases he : evalCondition result condition with
    | error p => rw [he] at h; exact Or.inl h
    | ok b =>
      rw [he] at h
      cases b with
      | false =>
        rcases ih _ _ _ h with h' | ⟨hle, c, hc, hev⟩
        · exact Or.inl h'
        · refine Or.inr ⟨by omega, c, ?_, hev⟩
          have : x - i = (x - (i + 1)) + 1 := by omega
          rw [this, List.getElem?_cons_succ]
          exact hc
      | true =>
        simp only at h
        by_cases hk : i < k
        · rw [if_pos hk] at h
          rcases ih _ _ _ h with h' | ⟨hle, c, hc, hev⟩
          · rw [launched_add_go] at h'
            simp only [List.mem_append, List.mem_singleton] at h'
            rcases h' with h' | rfl
            · exact Or.inl h'
            · exact Or.inr ⟨Nat.le_refl _, condition, by simp, he⟩
          · refine Or.inr ⟨by omega, c, ?_, hev⟩
            have : x - i = (x - (i + 1)) + 1 := by omega
            rw [this, List.getElem?_cons_succ]
            exact hc
        · rw [if_neg hk] at h
          left
          simpa [Launch.launched, launchedBranches, List.filterMap_append] using h

theorem launched_subset_evalConditions (result : Value) (k : Nat) (conditions : List String) :
    ∀ (i : Nat) (l : Launch σ) (x : Nat),
      x ∈ l.launched → x ∈ (evalConditions result k i conditions l).launched := by
  induction conditions with
  | nil => intro i l x h; simpa [evalConditions] using h
  | cons condition rest ih =>
    intro i l x h
    rw [evalConditions]
    cases he : evalCondition result condition with
    | error p => exact h
    | ok b =>
      cases b with
      | false => exact ih _ _ _ h
      | true =>
        simp only
        by_cases hk : i < k
        · rw [if_pos hk]
          exact ih _ _ _ (by rw [launched_add_go]; simp [h])
        · rw [if_neg hk]
          simpa [Launch.launched, launchedBranches, List.filterMap_append] using h

theorem evalConditions_append (result : Value) (k : Nat) (front back : List String) :
    ∀ (i : Nat) (l : Launch σ), (evalConditions result k i front l).panic = none →
      evalConditions result k i (front ++ back) l =
        evalConditions result k (i + front.length) back (evalConditions result k i front l) := by
  induction front with
  | nil => intro i l _; simp [evalConditions]
  | cons condition rest ih =>
    intro i l h
    rw [evalConditions] at h
    rw [List.cons_append, evalConditions, evalConditions]
    cases he : evalCondition result condition with
    | error p => rw [he] at h; simp at h
    | ok b =>
      rw [he] at h
      cases b with
      | false =>
        simp only at h ⊢
        rw [ih _ _ h]
        simp [Nat.add_assoc, Nat.add_comm 1]
      | true =>
        simp only at h ⊢
        by_cases hk : i < k
        · rw [if_pos hk] at h ⊢
          rw [ih _ _ h]
          simp [Nat.add_assoc, Nat.add_comm 1, hk]
        · rw [if_neg hk] at h
          simp at h

theorem mem_matchingFrom (n : Int) (conditions : List String) :
    ∀ (i x : Nat), x ∈ matchingFrom n i conditions → i ≤ x ∧ x < i + conditions.length := by
  induction conditions with
  | nil => intro i x h; simp [matchingFrom] at h
  | cons condition rest ih =>
    intro i x h
    rw [matchingFrom] at h
    split at h
    · simp only [List.mem_cons] at h
      rcases h with rfl | h
      · simp
      · have := ih _ _ h
        simp only [List.length_cons]
        omega
    · have := ih _ _ h
      simp only [List.length_cons]
      omega

theorem evalConditions_int64 (n : Int) (k : Nat) (conditions : List String) :
    ∀ (i : Nat) (l : Launch σ), (∀ c ∈ conditions, ';' ∈ c.data) →
      i + conditions.length ≤ k →
      evalConditions (Value.int64 n) k i conditions l =
        { panic := l.panic,
          subWaitGroup := { counter := l.subWaitGroup.counter +
            (matchingFrom n i conditions).length },
          actions := l.actions ++ launchActions (matchingFrom n i conditions) } := by
  induction conditions with
  | nil => intro i l _ _; simp [evalConditions, matchingFrom, launchActions]
  | cons condition rest ih =>
    intro i l hsep hk
    simp only [List.length_cons] at hk
    rw [evalConditions, evalCondition_int64 n condition (hsep _ (List.mem_cons_self _ _)),
      matchingFrom]
    have ih' := fun l => ih (i + 1) l (fun c hc => hsep c (List.mem_cons_of_mem _ hc))
      (by omega)
    cases hb : conditionHolds n condition with
    | false => simp only [ih']; simp
    | true =>
      simp only [ih']
      rw [if_pos (by omega)]
      simp [WaitGroup.Add, Nat.add_assoc, Nat.add_comm 1, launchActions]

/-! ## The goroutines of a gateway -/

theorem launchedBranches_launchActions (launched : List Nat) :
    launchedBranches (launchActions launched : List (Action σ)) = launched := by
  induction launched with
  | nil => rfl
  | cons i rest ih =>
    simp only [launchActions, launchedBranches, List.flatMap_cons, List.cons_append,
      List.nil_append, List.filterMap_cons] at ih ⊢
    rw [ih]

theorem signals_launchActions (launched : List Nat) :
    signals (launchActions launched : List (Action σ)) = 0 := by
  induction launched with
  | nil => rfl
  | cons i rest ih =>
    simp only [launchActions, signals, List.flatMap_cons, List.cons_append,
      List.nil_append, List.countP_cons] at ih ⊢
    rw [ih]
    rfl

theorem actions_runBranches (gateway : Simulator σ) (launched : List Nat)
    (subProcesses : List (Simulator σ)) :
    ∀ (i : Nat) (subWaitGroup : WaitGroup) (env : σ),
      signals (runBranches gateway launched i subWaitGroup env subProcesses).actions = 0 ∧
      launchedBranches
        (runBranches gateway launched i subWaitGroup env subProcesses).actions = [] := by
  induction subProcesses with
  | nil => intro i subWaitGroup env; simp [runBranches, signals, launchedBranches]
  | cons subProcess rest ih =>
    intro i subWaitGroup env
    rw [runBranches]
    by_cases hi : i ∈ launched
    · rw [if_pos hi]
      simp only
      split
      · simp [signals, launchedBranches]
      · have := ih (i + 1) (subProcess.Simulate gateway subWaitGroup env).waitGroup
          (subProcess.Simulate gateway subWaitGroup env).env
        simpa [signals, launchedBranches] using this
    · rw [if_neg hi]
      exact ih _ _ _

theorem runBranches_completes (n : Int) (gateway : Simulator σ)
    (subProcesses : List (Simulator σ)) (hsub : ∀ p ∈ subProcesses, Completes p) :
    ∀ (conditions : List String) (i : Nat) (front : List Nat) (subWaitGroup : WaitGroup)
      (env : σ), conditions.length = subProcesses.length → (∀ x ∈ front, x < i) →
      subWaitGroup.counter = (matchingFrom n i conditions).length →
      (runBranches gateway (front ++ matchingFrom n i conditions) i subWaitGroup env
        subProcesses).status = Status.ok ∧
      (runBranches gateway (front ++ matchingFrom n i conditions) i subWaitGroup env
        subProcesses).subWaitGroup.counter = 0 := by
  induction subProcesses with
  | nil =>
    intro conditions i front subWaitGroup env hlen _ hc
    cases conditions with
    | nil => simpa [runBranches, matchingFrom] using hc
    | cons c cs => simp at hlen
  | cons subProcess rest ih =>
    intro conditions i front subWaitGroup env hlen hfront hc
    cases conditions with
    | nil => simp at hlen
    | cons condition cs =>
      simp only [List.length_cons, Nat.add_right_cancel_iff] at hlen
      have ih' := ih (fun p hp => hsub p (List.mem_cons_of_mem _ hp)) cs (i + 1)
      rw [runBranches]
      rw [matchingFrom] at hc ⊢
      cases hb : conditionHolds n condition with
      | true =>
        simp only [hb, if_true, List.length_cons] at hc ⊢
        rw [if_pos (by simp)]
        have hs := hsub subProcess (List.mem_cons_self _ _) gateway subWaitGroup env
          (by omega)
        simp only [hs.1]
        have := ih' (front ++ [i]) (subProcess.Simulate gateway subWaitGroup env).waitGroup
          (subProcess.Simulate gateway subWaitGroup env).env hlen
          (by
            intro x hx
            simp only [List.mem_append, List.mem_singleton] at hx
            rcases hx with hx | rfl
            · have := hfront x hx; omega
            · omega)
          (by have := hs.2; omega)
        simpa using this
      | false =>
        simp only [hb, Bool.false_eq_true, if_false] at hc ⊢
        have hni : i ∉ front ++ matchingFrom n (i + 1) cs := by
          intro hx
          simp only [List.mem_append] at hx
          rcases hx with hx | hx
          · have := hfront i hx; omega
          · have := (mem_matchingFrom n cs _ _ hx).1; omega
        rw [if_neg hni]
        have := ih' front subWaitGroup env hlen
          (by intro x hx; have := hfront x hx; omega) hc
        simpa using this

theorem parsePrevious_int (v dataType : String) (n : Int)
    (htype : dataType = INT ∨ dataType = FLOAT ∨ dataType = BOOL)
    (hv : ParseInt v = (n, none)) :
    parsePrevious v dataType = (some (Value.int64 n), none) := by
  unfold parsePrevious
  rcases htype with h | h | h <;> subst h <;> simp [hv, INT, FLOAT, BOOL]

/-- The inclusive gateway on an integer predecessor, when every condition has its
separator, there is a sub-process for each condition, every sub-process runs to completion
and the gateway is registered on the barrier of its caller: the gateway returns, the branches
it started are exactly those whose condition holds, and it reported one completion. -/
theorem inclusiveGateway_simulate_int (element : Element) (conditions : List String)
    (subProcesses : List (Simulator σ)) (previousElement : Simulator σ)
    (waitGroup : WaitGroup) (env : σ) (n : Int)
    (hprev : parsePrevious previousElement.Result.1 previousElement.Result.2 =
      (some (Value.int64 n), none))
    (hsep : ∀ c ∈ conditions, ';' ∈ c.data)
    (hlen : conditions.length = subProcesses.length)
    (hsub : ∀ p ∈ subProcesses, Completes p) (hwg : 0 < waitGroup.counter) :
    ((Simulator.InclusiveGateway element conditions subProcesses).Simulate previousElement
        waitGroup env).status = Status.ok ∧
      launchedBranches ((Simulator.InclusiveGateway element conditions subProcesses).Simulate
        previousElement waitGroup env).actions = matchingFrom n 0 conditions ∧
      signals ((Simulator.InclusiveGateway element conditions subProcesses).Simulate
        previousElement waitGroup env).actions = 1 ∧
      ((Simulator.InclusiveGateway element conditions subProcesses).Simulate previousElement
        waitGroup env).waitGroup.counter + 1 = waitGroup.counter := by
  have hloop := evalConditions_int64 (σ := σ) n subProcesses.length conditions 0
    Launch.start hsep (by omega)
  have hlaunched : Launch.launched (Launch.mk (σ := σ) none
      { counter := (matchingFrom n 0 conditions).length }
      (Action.print "\n\n\t\t\t\t" :: launchActions (matchingFrom n 0 conditions))) =
        matchingFrom n 0 conditions := by
    have := launchedBranches_launchActions (σ := σ) (matchingFrom n 0 conditions)
    simp only [launchedBranches] at this
    simp only [Launch.launched, launchedBranches, List.filterMap_cons, this]
  simp only [Launch.start, Nat.zero_add, List.singleton_append] at hloop
  have hrun := runBranches_completes n (Simulator.InclusiveGateway element conditions
    subProcesses) subProcesses hsub conditions 0 [] { counter :=
      (matchingFrom n 0 conditions).length } env hlen (by simp) rfl
  have hact := actions_runBranches (Simulator.InclusiveGateway element conditions
    subProcesses) (matchingFrom n 0 conditions) subProcesses 0 { counter :=
      (matchingFrom n 0 conditions).length } env
  simp only [List.nil_append] at hrun
  simp only [Simulator.Simulate, hprev, Launch.start, hloop, hlaunched, waitAndComplete,
    hrun.1, hrun.2, if_true, complete_of_pos _ _ _ _ _ _ hwg]
  refine ⟨trivial, ?_, ?_, ?_⟩
  · simp only [launchedBranches, List.filterMap_append, List.filterMap_cons,
      List.filterMap_nil, List.cons_append] at hact ⊢
    rw [hact.2]
    have := launchedBranches_launchActions (σ := σ) (matchingFrom n 0 conditions)
    simp only [launchedBranches] at this
    rw [this]
    simp
  · simp only [signals, List.countP_append, List.countP_cons, List.countP_nil,
      List.cons_append] at hact ⊢
    rw [hact.1]
    have := signals_launchActions (σ := σ) (matchingFrom n 0 conditions)
    simp only [signals] at this
    rw [this]
    rfl
  · show waitGroup.counter - 1 + 1 = waitGroup.counter
    omega

/-! ## The inclusive gateway -/

theorem split_at_index {α : Type} (l : List α) :
    ∀ (i : Nat) (c : α), l[i]? = some c →
      ∃ front back, l = front ++ c :: back ∧ front.length = i ∧
        ∀ x ∈ front, ∃ j, j < i ∧ l[j]? = some x := by
  induction l with
  | nil => intro i c h; simp at h
  | cons a rest ih =>
    intro i c h
    cases i with
    | zero =>
      simp only [List.getElem?_cons_zero, Option.some.injEq] at h
      exact ⟨[], rest, by simp [h], rfl, by simp⟩
    | succ i =>
      simp only [List.getElem?_cons_succ] at h
      obtain ⟨front, back, hl, hlen, hfront⟩ := ih i c h
      refine ⟨a :: front, back, by simp [hl], by simp [hlen], ?_⟩
      intro x hx
      simp only [List.mem_cons] at hx
      rcases hx with rfl | hx
      · exact ⟨0, by omega, by simp⟩
      · obtain ⟨j, hj, hjx⟩ := hfront x hx
        exact ⟨j + 1, by omega, by simpa using hjx⟩

theorem launchedBranches_waitAndComplete (self : Simulator σ) (waitGroup : WaitGroup)
    (before : List (Action σ)) (r : Run σ) :
    launchedBranches (waitAndComplete self waitGroup before r).actions =
      launchedBranches before ++ launchedBranches r.actions := by
  unfold waitAndComplete
  split
  · split
    · unfold complete
      cases waitGroup.Done <;> simp [launchedBranches, List.filterMap_append]
    · simp [abort, launchedBranches, List.filterMap_append]
  · simp [abort, launchedBranches, List.filterMap_append]

theorem launchedBranches_inclusiveGateway (element : Element) (conditions : List String)
    (subProcesses : List (Simulator σ)) (previousElement : Simulator σ)
    (waitGroup : WaitGroup) (env : σ) (result : Value)
    (hprev : parsePrevious previousElement.Result.1 previousElement.Result.2 =
      (some result, none)) :
    launchedBranches ((Simulator.InclusiveGateway element conditions subProcesses).Simulate
      previousElement waitGroup env).actions =
      (evalConditions result subProcesses.length 0 conditions
        (Launch.start : Launch σ)).launched := by
  simp only [Simulator.Simulate, hprev]
  split
  · rfl
  · rw [launchedBranches_waitAndComplete, (actions_runBranches _ _ _ _ _ _).2,
      List.append_nil]
    rfl

theorem process_completes (element : Element) (processElements : List (Simulator σ))
    (h : ∀ c ∈ processElements, Completes c) :
    Completes (Simulator.BusinessProcess element processElements) := by
  intro previousElement waitGroup env hpos
  have hs := simulateElements_completes processElements h none { counter := 0 } env
  simp only [Simulator.Simulate, hs.1, complete_of_pos _ _ _ _ _ _ hpos]
  exact ⟨trivial, by show waitGroup.counter - 1 + 1 = waitGroup.counter; omega⟩

theorem subProcess1_completes : Completes (subProcess1 : Simulator σ) :=
  process_completes _ _ (fun c hc => leaf_completes c (by
    simp only [List.nil_append, List.cons_append, List.mem_cons, List.mem_singleton,
      List.not_mem_nil, or_false] at hc
    rcases hc with rfl | rfl | rfl | rfl <;> rfl))

theorem subProcess2_completes : Completes (subProcess2 : Simulator σ) :=
  process_completes _ _ (fun c hc => leaf_completes c (by
    simp only [List.nil_append, List.cons_append, List.mem_cons, List.mem_singleton,
      List.not_mem_nil, or_false] at hc
    rcases hc with rfl | rfl | rfl <;> rfl))

/-- The gateway of `main` after an active activity that produced the decimal text of `n`
with the tag `INT`: it returns, has started the branches whose condition holds for `n`, and
has reported one completion. -/
theorem inclusiveGateway1_simulate (value : String) (n : Int) (waitGroup : WaitGroup)
    (env : σ) (hv : ParseInt value = (n, none)) (hwg : 0 < waitGroup.counter) :
    ((inclusiveGateway1 : Simulator σ).Simulate (executedActivity value INT) waitGroup
        env).status = Status.ok ∧
      launchedBranches ((inclusiveGateway1 : Simulator σ).Simulate
        (executedActivity value INT) waitGroup env).actions =
          matchingFrom n 0 [">;30", "<;25"] ∧
      signals ((inclusiveGateway1 : Simulator σ).Simulate (executedActivity value INT)
        waitGroup env).actions = 1 ∧
      ((inclusiveGateway1 : Simulator σ).Simulate (executedActivity value INT) waitGroup
        env).waitGroup.counter + 1 = waitGroup.counter :=
  inclusiveGateway_simulate_int ⟨4, "Inclusive Gateway"⟩ [">;30", "<;25"]
    [subProcess1, subProcess2] (executedActivity value INT) waitGroup env n
    (parsePrevious_int value INT n (Or.inl rfl) hv) (by decide) rfl
    (by
      intro p hp
      simp only [List.mem_cons, List.mem_singleton, List.not_mem_nil, or_false] at hp
      rcases hp with rfl | rfl
      · exact subProcess1_completes
      · exact subProcess2_completes)
    hwg

theorem mem_matchingFrom_iff (n : Int) (conditions : List String) :
    ∀ (i x : Nat), x ∈ matchingFrom n i conditions ↔
      i ≤ x ∧ ∃ c, conditions[x - i]? = some c ∧ conditionHolds n c = true := by
  induction conditions with
  | nil => intro i x; simp [matchingFrom]
  | cons condition rest ih =>
    intro i x
    rw [matchingFrom]
    by_cases hx : x = i
    · subst hx
      have hnot : x ∉ matchingFrom n (x + 1) rest := fun h => by
        have := (mem_matchingFrom n rest _ _ h).1
        omega
      by_cases hb : conditionHolds n condition = true
      · simp [hb]
      · simp [hb, hnot]
    · have hiff : x ∈ matchingFrom n (i + 1) rest ↔
          i ≤ x ∧ ∃ c, (condition :: rest)[x - i]? = some c ∧ conditionHolds n c = true := by
        rw [ih]
        constructor
        · rintro ⟨hle, c, hc, hh⟩
          refine ⟨by omega, c, ?_, hh⟩
          have : x - i = (x - (i + 1)) + 1 := by omega
          rw [this, List.getElem?_cons_succ]
          exact hc
        · rintro ⟨hle, c, hc, hh⟩
          refine ⟨by omega, c, ?_, hh⟩
          have : x - i = (x - (i + 1)) + 1 := by omega
          rw [this, List.getElem?_cons_succ] at hc
          exact hc
      by_cases hb : conditionHolds n condition = true
      · rw [if_pos hb, List.mem_cons]
        constructor
        · rintro (h | h)
          · exact absurd h hx
          · exact hiff.mp h
        · intro h
          exact Or.inr (hiff.mpr h)
      · rw [if_neg hb]
        exact hiff

/-- C1, what the code does. For an inclusive gateway with a sub-process for each condition
whose predecessor returns `(v, INT)` with `v` the text of the 32-bit integer `n`, and a
branch `i` whose condition is `op;t` with `t` the text of the 32-bit integer `m`, every
condition before it having its separator: branch `i` is started if and only if `op` is `<`
and `n < m`, or `>` and `n > m`, or `=` and `n = m`; no other operator starts it. And the
gateway of `main`, with the conditions `>;30` and `<;25`, registered on the barrier of its
caller: after the value 30 it starts no branch, after 35 only branch 0, after 10 only
branch 1, after 26 none, and each time it returns having reported one completion. But a
condition without separator before branch `i` ends the program before that branch is
reached: with the conditions `abc` and `<;25` after the value 10, branch 1 is not started
although its condition is `<;25` and 10 < 25; the gateway dies of the run-time panic of an
index out of range, has started nothing and reports no completion. -/
theorem inclusiveGateway_operators :
    (∀ (element : Element) (conditions : List String) (subProcesses : List (Simulator σ))
      (previousElement : Simulator σ) (waitGroup : WaitGroup) (env : σ) (v : String)
      (n m : Int) (i : Nat) (op t : String),
      conditions.length = subProcesses.length →
      previousElement.Result = (v, INT) → ParseInt v = (n, none) →
      conditions[i]? = some (op ++ ";" ++ t) → ';' ∉ op.data → ParseInt t = (m, none) →
      (∀ j c, j < i → conditions[j]? = some c → ';' ∈ c.data) →
      (i ∈ launchedBranches ((Simulator.InclusiveGateway element conditions
          subProcesses).Simulate previousElement waitGroup env).actions ↔
        (op = "<" ∧ n < m) ∨ (op = ">" ∧ n > m) ∨ (op = "=" ∧ n = m))) ∧
    (∀ (waitGroup : WaitGroup) (env : σ), 0 < waitGroup.counter →
      (∀ value branches, (value, branches) ∈
          [("30", ([] : List Nat)), ("35", [0]), ("10", [1]), ("26", [])] →
        ((inclusiveGateway1 : Simulator σ).Simulate (executedActivity value INT) waitGroup
            env).status = Status.ok ∧
          launchedBranches ((inclusiveGateway1 : Simulator σ).Simulate
            (executedActivity value INT) waitGroup env).actions = branches ∧
          signals ((inclusiveGateway1 : Simulator σ).Simulate (executedActivity value INT)
            waitGroup env).actions = 1 ∧
          ((inclusiveGateway1 : Simulator σ).Simulate (executedActivity value INT) waitGroup
            env).waitGroup.counter + 1 = waitGroup.counter)) ∧
    (let o := (Simulator.InclusiveGateway ⟨4, "Inclusive Gateway"⟩ ["abc", "<;25"]
        [subProcess1, subProcess2]).Simulate (executedActivity "10" INT : Simulator Unit)
        ⟨1⟩ ()
     (executedActivity "10" INT : Simulator Unit).Result = ("10", INT) ∧
      ParseInt "10" = (10, none) ∧
      (["abc", "<;25"] : List String)[1]? = some ("<" ++ ";" ++ "25") ∧
      ParseInt "25" = (25, none) ∧ (10 : Int) < 25 ∧
      1 ∉ launchedBranches o.actions ∧ launchedBranches o.actions = [] ∧
      o.status = Status.panic Panic.indexOutOfRange ∧ signals o.actions = 0 ∧
      o.waitGroup.counter = 1) := by
  refine ⟨?_, ?_, ?_⟩
  · intro element conditions subProcesses previousElement waitGroup env v n m i op t hlen
      hprev hv hi hop ht hreach
    have hpp : parsePrevious previousElement.Result.1 previousElement.Result.2 =
        (some (Value.int64 n), none) := by
      rw [hprev]
      exact parsePrevious_int v INT n (Or.inl rfl) hv
    rw [launchedBranches_inclusiveGateway element conditions subProcesses previousElement
      waitGroup env (Value.int64 n) hpp, ← conditionHolds_form n m op t hop ht]
    have hsplit : Split (op ++ ";" ++ t) = [op, t] :=
      Split_form op t hop (ParseInt_no_sep t (by rw [ht]))
    have heval := evalCondition_int64_of_split n (op ++ ";" ++ t) op t [] hsplit
    constructor
    · intro hmem
      rcases mem_launched_evalConditions _ _ _ _ _ _ hmem with h | ⟨_, c, hc, hev⟩
      · simp [Launch.start, Launch.launched, launchedBranches] at h
      · rw [Nat.sub_zero, hi, Option.some.injEq] at hc
        subst hc
        rw [heval] at hev
        simpa using hev
    · intro hholds
      obtain ⟨front, back, hl, hfl, hfront⟩ := split_at_index conditions i _ hi
      have hlt : i < subProcesses.length := by
        rw [← hlen, hl, List.length_append, List.length_cons]
        omega
      have hfrontsep : ∀ c ∈ front, ';' ∈ c.data := by
        intro c hc
        obtain ⟨j, hj, hjc⟩ := hfront c hc
        exact hreach j c hj hjc
      have hfrontloop := evalConditions_int64 (σ := σ) n subProcesses.length front 0
        Launch.start hfrontsep (by omega)
      rw [hl, evalConditions_append (Value.int64 n) subProcesses.length front _ 0
        Launch.start (by rw [hfrontloop]; rfl), hfrontloop,
        Nat.zero_add, hfl, evalConditions, heval, hholds]
      simp only
      rw [if_pos hlt]
      exact launched_subset_evalConditions _ _ _ _ _ _
        (by simp [Launch.launched, launchedBranches, List.filterMap_append])
  · intro waitGroup env hwg value branches hmem
    simp only [List.mem_cons, List.mem_singleton, List.not_mem_nil, or_false,
      Prod.mk.injEq] at hmem
    rcases hmem with ⟨rfl, rfl⟩ | ⟨rfl, rfl⟩ | ⟨rfl, rfl⟩ | ⟨rfl, rfl⟩
    · exact inclusiveGateway1_simulate "30" 30 waitGroup env (by decide) hwg
    · exact inclusiveGateway1_simulate "35" 35 waitGroup env (by decide) hwg
    · exact inclusiveGateway1_simulate "10" 10 waitGroup env (by decide) hwg
    · exact inclusiveGateway1_simulate "26" 26 waitGroup env (by decide) hwg
  · exact ⟨rfl, by decide, rfl, by decide, by decide, by decide, by decide, by decide,
      by decide, by decide⟩

/-- The gateway of `main` after the value 24 that `main` computes: branch 1, with the
condition `<;25`, is started, because 24 < 25. -/
theorem inclusiveGateway_operators_witness :
    ([">;30", "<;25"] : List String).length =
        ([subProcess1, subProcess2] : List (Simulator Unit)).length ∧
      (executedActivity "24" INT : Simulator Unit).Result = ("24", INT) ∧
      ParseInt "24" = (24, none) ∧
      ([">;30", "<;25"] : List String)[1]? = some ("<" ++ ";" ++ "25") ∧
      ';' ∉ "<".data ∧ ParseInt "25" = (25, none) ∧
      (∀ j c, j < 1 → ([">;30", "<;25"] : List String)[j]? = some c → ';' ∈ c.data) ∧
      (1 ∈ launchedBranches ((Simulator.InclusiveGateway ⟨4, "Inclusive Gateway"⟩
          [">;30", "<;25"] [subProcess1, subProcess2]).Simulate
          (executedActivity "24" INT : Simulator Unit) ⟨1⟩ ()).actions ↔
        ("<" = "<" ∧ (24 : Int) < 25) ∨ ("<" = ">" ∧ (24 : Int) > 25) ∨
          ("<" = "=" ∧ (24 : Int) = 25)) ∧
      1 ∈ launchedBranches ((Simulator.InclusiveGateway ⟨4, "Inclusive Gateway"⟩
          [">;30", "<;25"] [subProcess1, subProcess2]).Simulate
          (executedActivity "24" INT : Simulator Unit) ⟨1⟩ ()).actions := by
  have hreach : ∀ j c, j < 1 → ([">;30", "<;25"] : List String)[j]? = some c →
      ';' ∈ c.data := by
    intro j c hj hc
    have hj0 : j = 0 := by omega
    subst hj0
    simp only [List.getElem?_cons_zero, Option.some.injEq] at hc
    subst hc
    decide
  have h := (inclusiveGateway_operators (σ := Unit)).1 ⟨4, "Inclusive Gateway"⟩
    [">;30", "<;25"]
    [subProcess1, subProcess2] (executedActivity "24" INT : Simulator Unit) ⟨1⟩ () "24" 24 25
    1 "<" "25" rfl rfl (by decide) rfl (by decide) (by decide) hreach
  exact ⟨rfl, rfl, by decide, rfl, by decide, by decide, hreach, h,
    h.mpr (Or.inl ⟨rfl, by decide⟩)⟩

/-- C5, what the code does. For an inclusive gateway whose predecessor returns `(v, INT)`
with `v` the text of the 32-bit integer `n`, a branch `i` whose condition splits into an
operator and a threshold part that does not parse as a 32-bit integer is never started, and
evaluating its condition raises nothing: the loop body decides "not started". When
moreover every condition has its separator, there is a sub-process for each condition, the
sub-processes run to completion and the gateway is registered on the barrier of its caller,
the gateway returns, has reported exactly one completion, and every branch `j` is started
exactly when its own condition holds. But next to a condition without separator the gateway
does not return: with the conditions `~;abc` and `abc` after the value 10, branch 0 is
skipped, and then the gateway dies of the run-time panic of an index out of range at the
second condition and reports no completion. -/
theorem inclusiveGateway_unparsable_threshold :
    (∀ (element : Element) (conditions : List String) (subProcesses : List (Simulator σ))
      (previousElement : Simulator σ) (waitGroup : WaitGroup) (env : σ) (v : String)
      (n : Int) (i : Nat) (condition operator threshold : String) (rest : List String),
      previousElement.Result = (v, INT) → ParseInt v = (n, none) →
      conditions[i]? = some condition →
      Split condition = operator :: threshold :: rest →
      (ParseInt threshold).2 ≠ none →
      let o := (Simulator.InclusiveGateway element conditions subProcesses).Simulate
        previousElement waitGroup env
      i ∉ launchedBranches o.actions ∧
        evalCondition (Value.int64 n) condition = .ok false ∧
        ((∀ c ∈ conditions, ';' ∈ c.data) → conditions.length = subProcesses.length →
          (∀ p ∈ subProcesses, Completes p) → 0 < waitGroup.counter →
          o.status = Status.ok ∧ signals o.actions = 1 ∧
            o.waitGroup.counter + 1 = waitGroup.counter ∧
            ∀ j c, conditions[j]? = some c →
              (j ∈ launchedBranches o.actions ↔ conditionHolds n c = true))) ∧
    (let o := (Simulator.InclusiveGateway ⟨4, "Inclusive Gateway"⟩ ["~;abc", "abc"]
        [subProcess1, subProcess2]).Simulate (executedActivity "10" INT : Simulator Unit)
        ⟨1⟩ ()
     (executedActivity "10" INT : Simulator Unit).Result = ("10", INT) ∧
      ParseInt "10" = (10, none) ∧ Split "~;abc" = ["~", "abc"] ∧
      (ParseInt "abc").2 ≠ none ∧
      evalCondition (Value.int64 10) "~;abc" = .ok false ∧
      0 ∉ launchedBranches o.actions ∧ launchedBranches o.actions = [] ∧
      o.status = Status.panic Panic.indexOutOfRange ∧ signals o.actions = 0 ∧
      o.waitGroup.counter = 1) := by
  refine ⟨?_, ?_⟩
  · intro element conditions subProcesses previousElement waitGroup env v n i condition
      operator threshold rest hprev hv hi hsplit hbad o
    have hpp : parsePrevious previousElement.Result.1 previousElement.Result.2 =
        (some (Value.int64 n), none) := by
      rw [hprev]
      exact parsePrevious_int v INT n (Or.inl rfl) hv
    have hfalse : conditionHolds n condition = false := by
      unfold conditionHolds
      rw [hsplit]
      simp [hbad]
    have heval : evalCondition (Value.int64 n) condition = .ok false := by
      rw [evalCondition_int64_of_split n condition operator threshold rest hsplit, hfalse]
    refine ⟨?_, heval, ?_⟩
    · show i ∉ launchedBranches ((Simulator.InclusiveGateway element conditions
        subProcesses).Simulate previousElement waitGroup env).actions
      rw [launchedBranches_inclusiveGateway element conditions subProcesses previousElement
        waitGroup env (Value.int64 n) hpp]
      intro hmem
      rcases mem_launched_evalConditions _ _ _ _ _ _ hmem with h | ⟨_, c, hc, hev⟩
      · simp [Launch.start, Launch.launched, launchedBranches] at h
      · rw [Nat.sub_zero, hi, Option.some.injEq] at hc
        subst hc
        rw [heval] at hev
        simp at hev
    · intro hsep hlen hsub hwg
      have h := inclusiveGateway_simulate_int element conditions subProcesses previousElement
        waitGroup env n hpp hsep hlen hsub hwg
      refine ⟨h.1, h.2.2.1, h.2.2.2, ?_⟩
      intro j c hj
      show j ∈ launchedBranches ((Simulator.InclusiveGateway element conditions
        subProcesses).Simulate previousElement waitGroup env).actions ↔ _
      rw [h.2.1, mem_matchingFrom_iff]
      constructor
      · rintro ⟨_, c', hc', hh⟩
        rw [Nat.sub_zero, hj, Option.some.injEq] at hc'
        subst hc'
        exact hh
      · intro hh
        exact ⟨Nat.zero_le _, c, by rw [Nat.sub_zero]; exact hj, hh⟩
  · exact ⟨rfl, by decide, by decide, by decide, rfl, by decide, by decide, by decide,
      by decide, by decide⟩

/-- The gateway of `main` with a third branch under the condition `~;abc`, placed first,
after the value 10: the branch of `~;abc` is not started, the gateway returns with one
completion reported, and of the other two branches the one under `<;25` is started. -/
theorem inclusiveGateway_unparsable_threshold_witness :
    (executedActivity "10" INT : Simulator Unit).Result = ("10", INT) ∧
      ParseInt "10" = (10, none) ∧
      (["~;abc", ">;30", "<;25"] : List String)[0]? = some "~;abc" ∧
      Split "~;abc" = ["~", "abc"] ∧ (ParseInt "abc").2 ≠ none ∧
      (let o := (Simulator.InclusiveGateway ⟨4, "Inclusive Gateway"⟩
          ["~;abc", ">;30", "<;25"] [subProcess2, subProcess1, subProcess2]).Simulate
          (executedActivity "10" INT : Simulator Unit) ⟨1⟩ ()
       0 ∉ launchedBranches o.actions ∧ o.status = Status.ok ∧ signals o.actions = 1 ∧
        o.waitGroup.counter + 1 = 1 ∧
        (1 ∈ launchedBranches o.actions ↔ conditionHolds 10 ">;30" = true) ∧
        (2 ∈ launchedBranches o.actions ↔ conditionHolds 10 "<;25" = true)) := by
  have h := (inclusiveGateway_unparsable_threshold (σ := Unit)).1 ⟨4, "Inclusive Gateway"⟩
    ["~;abc", ">;30", "<;25"] [subProcess2, subProcess1, subProcess2]
    (executedActivity "10" INT : Simulator Unit) ⟨1⟩ () "10" 10 0 "~;abc" "~" "abc" []
    rfl (by decide) rfl (by decide) (by decide)
  have h' := h.2.2 (by decide) rfl
    (by
      intro p hp
      simp only [List.mem_cons, List.mem_singleton, List.not_mem_nil, or_false] at hp
      rcases hp with rfl | rfl | rfl
      · exact subProcess2_completes
      · exact subProcess1_completes
      · exact subProcess2_completes)
    (by decide)
  exact ⟨rfl, by decide, rfl, by decide, by decide, h.1, h'.1, h'.2.1, h'.2.2.1,
    h'.2.2.2 1 ">;30" rfl, h'.2.2.2 2 "<;25" rfl⟩

/-! ## Where the code leaves the specification -/

/-- C3, what the code does. After a predecessor whose result carries the tag `INT`, `FLOAT`
or `BOOL` and a value that does not parse as a 32-bit integer, every inclusive gateway
returns at once and nothing has happened: no branch is started, but no completion is
reported either, and the barrier of the caller is as it was. So it is for the gateway of
`main` after `("abc", INT)`, `("2.5", FLOAT)` and `("true", BOOL)`, on a barrier that expects
one completion and still expects it afterwards. -/
theorem inclusiveGateway_parse_failure_no_signal :
    (∀ (element : Element) (conditions : List String) (subProcesses : List (Simulator σ))
      (previousElement : Simulator σ) (waitGroup : WaitGroup) (env : σ),
      (previousElement.Result.2 = INT ∨ previousElement.Result.2 = FLOAT ∨
        previousElement.Result.2 = BOOL) →
      (ParseInt previousElement.Result.1).2 ≠ none →
      (Simulator.InclusiveGateway element conditions subProcesses).Simulate previousElement
          waitGroup env =
        { status := Status.ok, text := "",
          self := Simulator.InclusiveGateway element conditions subProcesses,
          waitGroup := waitGroup, env := env, actions := [] }) ∧
    (∀ previous ∈ [(executedActivity "abc" INT : Simulator Unit),
        executedActivity "2.5" FLOAT, executedActivity "true" BOOL],
      (ParseInt previous.Result.1).2 ≠ none ∧
      (inclusiveGateway1.Simulate previous ⟨1⟩ ()).status = Status.ok ∧
      launchedBranches (inclusiveGateway1.Simulate previous ⟨1⟩ ()).actions = [] ∧
      signals (inclusiveGateway1.Simulate previous ⟨1⟩ ()).actions = 0 ∧
      (inclusiveGateway1.Simulate previous ⟨1⟩ ()).waitGroup.counter = 1) := by
  constructor
  · intro element conditions subProcesses previousElement waitGroup env htag hbad
    have hpp : parsePrevious previousElement.Result.1 previousElement.Result.2 =
        (some (Value.int64 (ParseInt previousElement.Result.1).1),
          (ParseInt previousElement.Result.1).2) := by
      unfold parsePrevious
      rcases htag with h | h | h <;> rw [h] <;> simp [INT, FLOAT, BOOL]
    cases herr : (ParseInt previousElement.Result.1).2 with
    | none => exact absurd herr hbad
    | some e =>
      rw [herr] at hpp
      simp only [Simulator.Simulate, hpp]
  · intro previous hmem
    simp only [List.mem_cons, List.mem_singleton, List.not_mem_nil, or_false] at hmem
    rcases hmem with rfl | rfl | rfl <;> exact ⟨by decide, rfl, rfl, rfl, rfl⟩

theorem parsePrevious_string (v dataType : String)
    (htype : dataType ≠ INT ∧ dataType ≠ BOOL ∧ dataType ≠ FLOAT) :
    ∃ text, parsePrevious v dataType = (some (Value.string text), none) := by
  unfold parsePrevious
  rw [if_neg htype.1, if_neg htype.2.1, if_neg htype.2.2]
  split
  · exact ⟨v, rfl⟩
  · exact ⟨"", rfl⟩

/-- C4, what the code does. When the tag of the predecessor's result is none of `INT`,
`BOOL`, `FLOAT` (so for `STRING` and `NONE`), every inclusive gateway whose first condition
is well formed with the operator `<` or `>` dies of the run-time panic of a failed type
assertion and reports no completion. So does the gateway of `main`, with its conditions
`>;30` and `<;25`, after a default activity (which returns `(NONE, STRING)`), after an
activity whose result carries the tag `NONE`, and as its own predecessor, the first child of
a process. With the only condition `=;30` the gateway returns and reports one completion. -/
theorem inclusiveGateway_no_numeric_result_panics :
    (∀ (element : Element) (condition operator threshold : String)
      (rest fields : List String) (subProcesses : List (Simulator σ))
      (previousElement : Simulator σ) (waitGroup : WaitGroup) (env : σ),
      (previousElement.Result.2 ≠ INT ∧ previousElement.Result.2 ≠ BOOL ∧
        previousElement.Result.2 ≠ FLOAT) →
      Split condition = operator :: threshold :: fields →
      (ParseInt threshold).2 = none → (operator = "<" ∨ operator = ">") →
      ((Simulator.InclusiveGateway element (condition :: rest) subProcesses).Simulate
          previousElement waitGroup env).status = Status.panic Panic.interfaceConversion ∧
        signals ((Simulator.InclusiveGateway element (condition :: rest)
          subProcesses).Simulate previousElement waitGroup env).actions = 0) ∧
    (∀ previous ∈ [(InitDefaultActivityElement "Activity 0-2" : Simulator Unit),
        executedActivity "" NONE, inclusiveGateway1],
      (inclusiveGateway1.Simulate previous ⟨1⟩ ()).status =
          Status.panic Panic.interfaceConversion ∧
        signals (inclusiveGateway1.Simulate previous ⟨1⟩ ()).actions = 0) ∧
    ((AddInclusiveGateway (InitBusinessProcess 1 "Default")
        (inclusiveGateway1 : Simulator Unit)).Simulate InitStartEventElement ⟨1⟩ ()).status =
      Status.panic Panic.interfaceConversion ∧
    ((Simulator.InclusiveGateway ⟨4, "Inclusive Gateway"⟩ ["=;30"]
        [subProcess1]).Simulate (InitDefaultActivityElement "Activity 0-2" : Simulator Unit)
        ⟨1⟩ ()).status = Status.ok ∧
    signals ((Simulator.InclusiveGateway ⟨4, "Inclusive Gateway"⟩ ["=;30"]
        [subProcess1]).Simulate (InitDefaultActivityElement "Activity 0-2" : Simulator Unit)
        ⟨1⟩ ()).actions = 1 := by
  refine ⟨?_, ?_, rfl, rfl, rfl⟩
  · intro element condition operator threshold rest fields subProcesses previousElement
      waitGroup env htype hsplit hparse hop
    obtain ⟨text, hpp⟩ := parsePrevious_string previousElement.Result.1
      previousElement.Result.2 htype
    have heval : evalCondition (Value.string text) condition =
        .error Panic.interfaceConversion := by
      unfold evalCondition
      rw [hsplit]
      simp only [hparse, if_true]
      rcases hop with h | h <;> subst h <;> simp [Value.assertInt64]
    simp only [Simulator.Simulate, hpp, evalConditions, heval, abort, Launch.start, signals]
    exact ⟨trivial, rfl⟩
  · intro previous hmem
    simp only [List.mem_cons, List.mem_singleton, List.not_mem_nil, or_false] at hmem
    rcases hmem with rfl | rfl | rfl <;> exact ⟨rfl, rfl⟩

/-- C6, what the code does. After a predecessor whose result is the text of an integer with
the tag `INT`, every inclusive gateway that has a sub-process for each condition and a
condition without separator, the conditions before it having theirs, dies of the run-time
panic of an index out of range and reports no completion. So does, after the value 24 of
`main`, a gateway with the only condition `abc`, `<25` or the empty text; placed after a
well-formed condition that holds, such a condition ends the program after that branch was
started. -/
theorem inclusiveGateway_no_separator_panics :
    (∀ (element : Element) (front back : List String) (condition : String)
      (subProcesses : List (Simulator σ)) (previousElement : Simulator σ)
      (waitGroup : WaitGroup) (env : σ) (v : String) (n : Int),
      previousElement.Result = (v, INT) → ParseInt v = (n, none) →
      (front ++ condition :: back).length = subProcesses.length →
      (∀ c ∈ front, ';' ∈ c.data) → ';' ∉ condition.data →
      ((Simulator.InclusiveGateway element (front ++ condition :: back)
          subProcesses).Simulate previousElement waitGroup env).status =
            Status.panic Panic.indexOutOfRange ∧
        signals ((Simulator.InclusiveGateway element (front ++ condition :: back)
          subProcesses).Simulate previousElement waitGroup env).actions = 0) ∧
    (∀ condition ∈ ["abc", "<25", ""],
      ((Simulator.InclusiveGateway ⟨4, "Inclusive Gateway"⟩ [condition]
          [subProcess1]).Simulate (executedActivity "24" INT : Simulator Unit) ⟨1⟩
          ()).status = Status.panic Panic.indexOutOfRange ∧
        signals ((Simulator.InclusiveGateway ⟨4, "Inclusive Gateway"⟩ [condition]
          [subProcess1]).Simulate (executedActivity "24" INT : Simulator Unit) ⟨1⟩
          ()).actions = 0) ∧
    ((Simulator.InclusiveGateway ⟨4, "Inclusive Gateway"⟩ ["<;25", "abc"]
        [subProcess2, subProcess1]).Simulate (executedActivity "24" INT : Simulator Unit)
        ⟨1⟩ ()).status = Status.panic Panic.indexOutOfRange ∧
    launchedBranches ((Simulator.InclusiveGateway ⟨4, "Inclusive Gateway"⟩ ["<;25", "abc"]
        [subProcess2, subProcess1]).Simulate (executedActivity "24" INT : Simulator Unit)
        ⟨1⟩ ()).actions = [0] := by
  refine ⟨?_, ?_, rfl, rfl⟩
  · intro element front back condition subProcesses previousElement waitGroup env v n hprev
      hv hlen hfront hcond
    have hpp : parsePrevious previousElement.Result.1 previousElement.Result.2 =
        (some (Value.int64 n), none) := by
      rw [hprev]
      exact parsePrevious_int v INT n (Or.inl rfl) hv
    have hk : 0 + front.length ≤ subProcesses.length := by
      rw [← hlen, List.length_append]
      omega
    have hfrontloop := evalConditions_int64 (σ := σ) n subProcesses.length front 0
      Launch.start hfront hk
    have heval : evalCondition (Value.int64 n) condition =
        .error Panic.indexOutOfRange := by
      unfold evalCondition
      rw [Split_of_not_mem condition hcond]
    have hloop : evalConditions (σ := σ) (Value.int64 n) subProcesses.length 0
        (front ++ condition :: back) Launch.start =
        { panic := some Panic.indexOutOfRange,
          subWaitGroup := { counter := (matchingFrom n 0 front).length },
          actions := Action.print "\n\n\t\t\t\t" :: launchActions (matchingFrom n 0 front) } := by
      rw [evalConditions_append (Value.int64 n) subProcesses.length front _ 0
        Launch.start (by rw [hfrontloop]; rfl), hfrontloop, evalConditions, heval]
      simp [Launch.start]
    simp only [Simulator.Simulate, hpp, hloop, abort, signals, List.countP_cons]
    refine ⟨trivial, ?_⟩
    have := signals_launchActions (σ := σ) (matchingFrom n 0 front)
    simp only [signals] at this
    rw [this]
    rfl
  · intro condition hmem
    simp only [List.mem_cons, List.mem_singleton, List.not_mem_nil, or_false] at hmem
    rcases hmem with rfl | rfl | rfl <;> exact ⟨rfl, rfl⟩

/-! ## The branches started depend on the parsed value only -/

/-- C15. For every inclusive gateway and any two predecessors whose results carry a tag among
`INT`, `FLOAT`, `BOOL` (not necessarily the same) and value texts that parse to the same
32-bit integer, the two executions start the same branches in the same order, whatever the
barrier and the captured variables they run on: the branches are those the loop over the
conditions starts for that integer. -/
theorem inclusiveGateway_launch_depends_on_value (element : Element)
    (conditions : List String) (subProcesses : List (Simulator σ))
    (previous other : Simulator σ) (waitGroup waitGroup' : WaitGroup) (env env' : σ) (n : Int)
    (htag : previous.Result.2 = INT ∨ previous.Result.2 = FLOAT ∨ previous.Result.2 = BOOL)
    (htag' : other.Result.2 = INT ∨ other.Result.2 = FLOAT ∨ other.Result.2 = BOOL)
    (hv : ParseInt previous.Result.1 = (n, none))
    (hv' : ParseInt other.Result.1 = (n, none)) :
    launchedBranches ((Simulator.InclusiveGateway element conditions subProcesses).Simulate
        previous waitGroup env).actions =
      launchedBranches ((Simulator.InclusiveGateway element conditions subProcesses).Simulate
        other waitGroup' env').actions ∧
    launchedBranches ((Simulator.InclusiveGateway element conditions subProcesses).Simulate
        previous waitGroup env).actions =
      (evalConditions (Value.int64 n) subProcesses.length 0 conditions
        (Launch.start : Launch σ)).launched := by
  have h := launchedBranches_inclusiveGateway element conditions subProcesses previous
    waitGroup env (Value.int64 n) (parsePrevious_int _ _ n htag hv)
  have h' := launchedBranches_inclusiveGateway element conditions subProcesses other
    waitGroup' env' (Value.int64 n) (parsePrevious_int _ _ n htag' hv')
  exact ⟨h.trans h'.symm, h⟩

/-- The gateway of `main` after `("24", INT)`, `("24", FLOAT)`, `("+24", BOOL)` and
`("024", INT)`, which all parse to 24: the same branch, branch 1, is started each time, also
on different barriers. -/
theorem inclusiveGateway_launch_depends_on_value_witness :
    (∀ value tag, (value, tag) ∈ [("24", FLOAT), ("+24", BOOL), ("024", INT)] →
      launchedBranches ((Simulator.InclusiveGateway ⟨4, "Inclusive Gateway"⟩
          [">;30", "<;25"] [subProcess1, subProcess2]).Simulate
          (executedActivity "24" INT : Simulator Unit) ⟨1⟩ ()).actions =
        launchedBranches ((Simulator.InclusiveGateway ⟨4, "Inclusive Gateway"⟩
          [">;30", "<;25"] [subProcess1, subProcess2]).Simulate
          (executedActivity value tag : Simulator Unit) ⟨2⟩ ()).actions) ∧
    launchedBranches ((Simulator.InclusiveGateway ⟨4, "Inclusive Gateway"⟩
        [">;30", "<;25"] [subProcess1, subProcess2]).Simulate
        (executedActivity "24" INT : Simulator Unit) ⟨1⟩ ()).actions = [1] := by
  refine ⟨?_, rfl⟩
  intro value tag hmem
  simp only [List.mem_cons, List.mem_singleton, List.not_mem_nil, or_false,
    Prod.mk.injEq] at hmem
  rcases hmem with ⟨rfl, rfl⟩ | ⟨rfl, rfl⟩ | ⟨rfl, rfl⟩
  · exact (inclusiveGateway_launch_depends_on_value ⟨4, "Inclusive Gateway"⟩
      [">;30", "<;25"] [subProcess1, subProcess2] (executedActivity "24" INT)
      (executedActivity "24" FLOAT) ⟨1⟩ ⟨2⟩ () () 24 (Or.inl rfl) (Or.inr (Or.inl rfl))
      (by decide) (by decide)).1
  · exact (inclusiveGateway_launch_depends_on_value ⟨4, "Inclusive Gateway"⟩
      [">;30", "<;25"] [subProcess1, subProcess2] (executedActivity "24" INT)
      (executedActivity "+24" BOOL) ⟨1⟩ ⟨2⟩ () () 24 (Or.inl rfl) (Or.inr (Or.inr rfl))
      (by decide) (by decide)).1
  · exact (inclusiveGateway_launch_depends_on_value ⟨4, "Inclusive Gateway"⟩
      [">;30", "<;25"] [subProcess1, subProcess2] (executedActivity "24" INT)
      (executedActivity "024" INT) ⟨1⟩ ⟨2⟩ () () 24 (Or.inl rfl) (Or.inl rfl)
      (by decide) (by decide)).1

/-! ## Building processes and gateways -/

theorem addNode_hasAdd (businessProcess node : Simulator σ) (h : node.hasAdd = true) :
    addNode businessProcess node = addElement businessProcess node := by
  cases node <;> try (simp [Simulator.hasAdd] at h; done)
  all_goals rfl

theorem foldl_addNode (element : Element) (nodes : List (Simulator σ))
    (h : ∀ c ∈ nodes, c.hasAdd = true) :
    ∀ processElements : List (Simulator σ),
      nodes.foldl addNode (Simulator.BusinessProcess element processElements) =
        Simulator.BusinessProcess element
          (processElements ++ withIds processElements.length nodes) := by
  induction nodes with
  | nil => intro processElements; simp [withIds]
  | cons node rest ih =>
    intro processElements
    rw [List.foldl_cons, addNode_hasAdd _ _ (h node (List.mem_cons_self _ _))]
    simp only [addElement]
    rw [ih (fun c hc => h c (List.mem_cons_of_mem _ hc))]
    simp [withIds]

theorem getElem?_withIds (nodes : List (Simulator σ)) :
    ∀ (start i : Nat) (c : Simulator σ), nodes[i]? = some c →
      (withIds start nodes)[i]? = some (c.setId ((start + i : Nat) : Int)) := by
  induction nodes with
  | nil => intro start i c h; simp at h
  | cons node rest ih =>
    intro start i c h
    cases i with
    | zero =>
      simp only [List.getElem?_cons_zero, Option.some.injEq] at h
      subst h
      simp [withIds]
    | succ i =>
      simp only [List.getElem?_cons_succ] at h
      have := ih (start + 1) i c h
      simp only [withIds, List.getElem?_cons_succ]
      rw [this]
      congr 3
      omega

theorem element_setId (id : Int) (s : Simulator σ) :
    (s.setId id).element = { id := id, description := s.element.description } := by
  cases s <;> rfl

theorem setId_setId_element (id : Int) (s : Simulator σ) :
    (s.setId id).setId s.element.id = s := by
  cases s <;> rfl

/-- C16. A process made by `InitBusinessProcess` and then any sequence of insertions through
`AddStartEvent`, `AddDefaultActivity`, `AddActiveActivity`, `AddEndEvent` and
`AddInclusiveGateway` (each node with the function of its type) has exactly the inserted
nodes as its children, in the order of insertion; the child at position `i` is the node
inserted `i`-th with its id set to `i` and nothing else changed, whatever id it had (so for
an inclusive gateway); and one more insertion appends the new node with the next id and
leaves the children already there as they are. -/
theorem process_children_ids (id : Int) (description : String) (nodes : List (Simulator σ))
    (hnodes : ∀ c ∈ nodes, c.hasAdd = true) :
    let p := nodes.foldl addNode (InitBusinessProcess id description)
    p.processElements.length = nodes.length ∧
      (∀ (i : Nat) (c : Simulator σ), nodes[i]? = some c →
        p.processElements[i]? = some (c.setId i) ∧ (c.setId i).element.id = i ∧
          (c.setId i).setId c.element.id = c) ∧
      (∀ node : Simulator σ, node.hasAdd = true →
        (addNode p node).processElements =
          p.processElements ++ [node.setId p.processElements.length]) := by
  have hp : nodes.foldl addNode (InitBusinessProcess id description) =
      Simulator.BusinessProcess { id := 0, description := description }
        (withIds 0 nodes) := by
    have := foldl_addNode { id := 0, description := description } nodes hnodes []
    simpa [InitBusinessProcess] using this
  simp only [hp, Simulator.processElements, length_withIds]
  refine ⟨trivial, ?_, ?_⟩
  · intro i c hc
    have := getElem?_withIds nodes 0 i c hc
    simp only [Nat.zero_add] at this
    exact ⟨this, by rw [element_setId], setId_setId_element _ _⟩
  · intro node hnode
    rw [addNode_hasAdd _ _ hnode]
    simp [addElement, Simulator.processElements, length_withIds]

/-- The process of `main`: its eight children are those `main` inserted, in order, and the
gateway, constructed with the id 1 and inserted fifth, is at position 4 with the id 4. -/
theorem process_children_ids_witness :
    (∀ c ∈ [(InitStartEventElement : Simulator Unit), InitDefaultActivityElement "Activity 0-1",
        InitDefaultActivityElement "Activity 0-2", activeActivity01,
        AddSubProcessInclusiveGateway (AddSubProcessInclusiveGateway
          (InitInclusiveGateway 1 "Inclusive Gateway") ">;30" subProcess1) "<;25" subProcess2,
        InitDefaultActivityElement "Activity 0-3", InitDefaultActivityElement "Activity 0-4",
        InitEndEventElement], c.hasAdd = true) ∧
    ([(InitStartEventElement : Simulator Unit), InitDefaultActivityElement "Activity 0-1",
        InitDefaultActivityElement "Activity 0-2", activeActivity01,
        AddSubProcessInclusiveGateway (AddSubProcessInclusiveGateway
          (InitInclusiveGateway 1 "Inclusive Gateway") ">;30" subProcess1) "<;25" subProcess2,
        InitDefaultActivityElement "Activity 0-3", InitDefaultActivityElement "Activity 0-4",
        InitEndEventElement].foldl addNode (InitBusinessProcess 1 "Default") =
      businessProcess) ∧
    (businessProcess : Simulator Unit).processElements.length = 8 ∧
    (businessProcess : Simulator Unit).processElements[4]? = some inclusiveGateway1 ∧
    (inclusiveGateway1 : Simulator Unit).element.id = 4 := by
  have hall : ∀ c ∈ [(InitStartEventElement : Simulator Unit),
      InitDefaultActivityElement "Activity 0-1",
      InitDefaultActivityElement "Activity 0-2", activeActivity01,
      AddSubProcessInclusiveGateway (AddSubProcessInclusiveGateway
        (InitInclusiveGateway 1 "Inclusive Gateway") ">;30" subProcess1) "<;25" subProcess2,
      InitDefaultActivityElement "Activity 0-3", InitDefaultActivityElement "Activity 0-4",
      InitEndEventElement], c.hasAdd = true := by
    intro c hc
    simp only [List.mem_cons, List.mem_singleton, List.not_mem_nil, or_false] at hc
    rcases hc with rfl | rfl | rfl | rfl | rfl | rfl | rfl | rfl <;> rfl
  have h := process_children_ids 1 "Default" _ hall
  exact ⟨hall, rfl, h.1, rfl, rfl⟩

theorem addSubProcesses_eq (element : Element) (branches : List (String × Simulator σ)) :
    ∀ (conditions : List String) (subProcesses : List (Simulator σ)),
      addSubProcesses (Simulator.InclusiveGateway element conditions subProcesses) branches =
        Simulator.InclusiveGateway element (conditions ++ branches.map Prod.fst)
          (subProcesses ++ branches.map Prod.snd) := by
  induction branches with
  | nil => intro conditions subProcesses; simp [addSubProcesses]
  | cons b rest ih =>
    intro conditions subProcesses
    have := ih (conditions ++ [b.1]) (subProcesses ++ [b.2])
    simp only [addSubProcesses, List.foldl_cons, AddSubProcessInclusiveGateway] at this ⊢
    rw [this]
    simp

/-- C17. An inclusive gateway made by `InitInclusiveGateway` and then any sequence of calls
of `AddSubProcessInclusiveGateway` has as many conditions as sub-processes; after the call
number `k` (from 0) `conditions[k]` is the condition and `subProcesses[k]` the process of
that call; one more call appends to both lists and leaves the earlier entries as they are;
so every index of a condition is an index of a sub-process. -/
theorem inclusiveGateway_lists (id : Int) (description : String)
    (branches : List (String × Simulator σ)) :
    let g := addSubProcesses (InitInclusiveGateway id description) branches
    g.conditions.length = g.subProcesses.length ∧
      (∀ (k : Nat) (condition : String) (businessProcess : Simulator σ),
        branches[k]? = some (condition, businessProcess) →
          g.conditions[k]? = some condition ∧ g.subProcesses[k]? = some businessProcess) ∧
      (∀ (condition : String) (businessProcess : Simulator σ),
        (AddSubProcessInclusiveGateway g condition businessProcess).conditions =
            g.conditions ++ [condition] ∧
          (AddSubProcessInclusiveGateway g condition businessProcess).subProcesses =
            g.subProcesses ++ [businessProcess]) ∧
      (∀ i, i < g.conditions.length → ∃ p, g.subProcesses[i]? = some p) := by
  have hg := addSubProcesses_eq { id := id, description := description } branches [] []
  simp only [List.nil_append] at hg
  simp only [InitInclusiveGateway, hg, Simulator.conditions, Simulator.subProcesses,
    List.length_map, AddSubProcessInclusiveGateway]
  refine ⟨trivial, ?_, fun _ _ => ⟨trivial, trivial⟩, ?_⟩
  · intro k condition businessProcess hk
    simp [List.getElem?_map, hk]
  · intro i hi
    cases hb : branches[i]? with
    | none =>
      rw [List.getElem?_eq_none_iff] at hb
      omega
    | some b => exact ⟨b.2, by simp [List.getElem?_map, hb]⟩

/-- The gateway of `main`, made by `InitInclusiveGateway` and two calls of
`AddSubProcessInclusiveGateway`: two conditions, two sub-processes, each pair at its index. -/
theorem inclusiveGateway_lists_witness :
    (addSubProcesses (InitInclusiveGateway 1 "Inclusive Gateway")
        [(">;30", (subProcess1 : Simulator Unit)), ("<;25", subProcess2)]).conditions =
      [">;30", "<;25"] ∧
    (addSubProcesses (InitInclusiveGateway 1 "Inclusive Gateway")
        [(">;30", (subProcess1 : Simulator Unit)), ("<;25", subProcess2)]).subProcesses =
      [subProcess1, subProcess2] ∧
    (addSubProcesses (InitInclusiveGateway 1 "Inclusive Gateway")
        [(">;30", (subProcess1 : Simulator Unit)), ("<;25", subProcess2)]).conditions.length =
      (addSubProcesses (InitInclusiveGateway 1 "Inclusive Gateway")
        [(">;30", (subProcess1 : Simulator Unit)), ("<;25", subProcess2)]).subProcesses.length :=
  ⟨rfl, rfl, (inclusiveGateway_lists 1 "Inclusive Gateway"
    [(">;30", (subProcess1 : Simulator Unit)), ("<;25", subProcess2)]).1⟩

/-! ## What a gateway registers on its barrier -/

theorem registrations_launchActions (launched : List Nat) :
    registrations (launchActions launched : List (Action σ)) = launched.length := by
  induction launched with
  | nil => rfl
  | cons i rest ih =>
    simp only [launchActions, registrations, List.flatMap_cons, List.cons_append,
      List.nil_append, List.countP_cons, List.length_cons] at ih ⊢
    rw [ih]
    rfl

theorem registrations_runBranches (gateway : Simulator σ) (launched : List Nat)
    (subProcesses : List (Simulator σ)) :
    ∀ (i : Nat) (subWaitGroup : WaitGroup) (env : σ),
      registrations (runBranches gateway launched i subWaitGroup env subProcesses).actions =
        0 := by
  induction subProcesses with
  | nil => intro i subWaitGroup env; simp [runBranches, registrations]
  | cons subProcess rest ih =>
    intro i subWaitGroup env
    rw [runBranches]
    by_cases hi : i ∈ launched
    · rw [if_pos hi]
      simp only
      split
      · simp [registrations]
      · have := ih (i + 1) (subProcess.Simulate gateway subWaitGroup env).waitGroup
          (subProcess.Simulate gateway subWaitGroup env).env
        simpa [registrations] using this
    · rw [if_neg hi]
      exact ih _ _ _

theorem registrations_waitAndComplete (self : Simulator σ) (waitGroup : WaitGroup)
    (before : List (Action σ)) (r : Run σ) :
    registrations (waitAndComplete self waitGroup before r).actions =
      registrations before + registrations r.actions := by
  unfold waitAndComplete
  split
  · split
    · unfold complete
      cases waitGroup.Done <;> simp [registrations, List.countP_append]
    · simp [abort, registrations, List.countP_append]
  · simp [abort, registrations, List.countP_append]

theorem launchAll_eq (subProcesses : List (Simulator σ)) :
    ∀ (i : Nat) (l : Launch σ),
      launchAll i subProcesses l =
        { panic := l.panic,
          subWaitGroup := { counter := l.subWaitGroup.counter + subProcesses.length },
          actions := l.actions ++ launchActions (List.range' i subProcesses.length) } := by
  induction subProcesses with
  | nil => intro i l; simp [launchAll, launchActions]
  | cons subProcess rest ih =>
    intro i l
    rw [launchAll, ih]
    simp [WaitGroup.Add, launchActions, List.range', Nat.add_assoc, Nat.add_comm 1]

theorem registrations_inclusiveGateway (element : Element) (conditions : List String)
    (subProcesses : List (Simulator σ)) (previousElement : Simulator σ)
    (waitGroup : WaitGroup) (env : σ) (result : Value)
    (hprev : parsePrevious previousElement.Result.1 previousElement.Result.2 =
      (some result, none)) :
    registrations ((Simulator.InclusiveGateway element conditions subProcesses).Simulate
      previousElement waitGroup env).actions =
      registrations (evalConditions result subProcesses.length 0 conditions
        (Launch.start : Launch σ)).actions := by
  simp only [Simulator.Simulate, hprev]
  split
  · rfl
  · rw [registrations_waitAndComplete, registrations_runBranches, Nat.add_zero]

/-- C14, what the code does. For an inclusive gateway with a sub-process for each
condition, every condition having its separator, whose predecessor returns `(v, INT)` with
`v` the text of the 32-bit integer `n`: every branch whose condition holds for `n` is
started, and no other, so as many branches as conditions hold, and the gateway registered
exactly that many completions on its barrier, one per started branch. But a condition without
separator ends the loop: with the conditions `<;50`, `abc` and `<;60` after the value 10,
the conditions of branches 0 and 2 hold, yet only branch 0 is started and one completion
registered before the gateway dies of the run-time panic of an index out of range at the
second condition. -/
theorem inclusiveGateway_inclusive :
    (∀ (element : Element) (conditions : List String) (subProcesses : List (Simulator σ))
      (previousElement : Simulator σ) (waitGroup : WaitGroup) (env : σ) (v : String)
      (n : Int),
      previousElement.Result = (v, INT) → ParseInt v = (n, none) →
      (∀ c ∈ conditions, ';' ∈ c.data) →
      conditions.length = subProcesses.length →
      let o := (Simulator.InclusiveGateway element conditions subProcesses).Simulate
        previousElement waitGroup env
      (∀ i c, conditions[i]? = some c →
        (i ∈ launchedBranches o.actions ↔ conditionHolds n c = true)) ∧
        launchedBranches o.actions = matchingFrom n 0 conditions ∧
        registrations o.actions = (matchingFrom n 0 conditions).length ∧
        registrations o.actions = (launchedBranches o.actions).length) ∧
    (let o := (Simulator.InclusiveGateway ⟨4, "Inclusive Gateway"⟩ ["<;50", "abc", "<;60"]
        [subProcess1, subProcess2, subProcess1]).Simulate
        (executedActivity "10" INT : Simulator Unit) ⟨1⟩ ()
     (executedActivity "10" INT : Simulator Unit).Result = ("10", INT) ∧
      ParseInt "10" = (10, none) ∧
      conditionHolds 10 "<;50" = true ∧ conditionHolds 10 "<;60" = true ∧
      matchingFrom 10 0 ["<;50", "abc", "<;60"] = [0, 2] ∧
      launchedBranches o.actions = [0] ∧ 2 ∉ launchedBranches o.actions ∧
      registrations o.actions = 1 ∧
      o.status = Status.panic Panic.indexOutOfRange ∧ signals o.actions = 0) := by
  refine ⟨?_, ?_⟩
  · intro element conditions subProcesses previousElement waitGroup env v n hprev hv hsep
      hlen o
    have hpp : parsePrevious previousElement.Result.1 previousElement.Result.2 =
        (some (Value.int64 n), none) := by
      rw [hprev]
      exact parsePrevious_int v INT n (Or.inl rfl) hv
    have hloop := evalConditions_int64 (σ := σ) n subProcesses.length conditions 0
      Launch.start hsep (by omega)
    have hl : launchedBranches o.actions = matchingFrom n 0 conditions := by
      show launchedBranches ((Simulator.InclusiveGateway element conditions
        subProcesses).Simulate previousElement waitGroup env).actions = _
      rw [launchedBranches_inclusiveGateway element conditions subProcesses previousElement
        waitGroup env (Value.int64 n) hpp, hloop]
      have := launchedBranches_launchActions (σ := σ) (matchingFrom n 0 conditions)
      simp only [launchedBranches] at this
      simp [Launch.launched, Launch.start, launchedBranches, List.filterMap_append, this]
    have hr : registrations o.actions = (matchingFrom n 0 conditions).length := by
      show registrations ((Simulator.InclusiveGateway element conditions
        subProcesses).Simulate previousElement waitGroup env).actions = _
      rw [registrations_inclusiveGateway element conditions subProcesses previousElement
        waitGroup env (Value.int64 n) hpp, hloop]
      have := registrations_launchActions (σ := σ) (matchingFrom n 0 conditions)
      simp only [registrations] at this
      simp [Launch.start, registrations, List.countP_append, this]
    refine ⟨?_, hl, hr, by rw [hr, hl]⟩
    intro i c hc
    rw [hl, mem_matchingFrom_iff]
    constructor
    · rintro ⟨_, c', hc', hh⟩
      rw [Nat.sub_zero, hc, Option.some.injEq] at hc'
      subst hc'
      exact hh
    · intro hh
      exact ⟨Nat.zero_le _, c, by rw [Nat.sub_zero]; exact hc, hh⟩
  · exact ⟨rfl, by decide, by decide, by decide, by decide, by decide, by decide, by decide,
      by decide, by decide⟩

/-- The gateway with the conditions `>;30`, `>;10`, `<;5` after the value 40: the two
branches 0 and 1 are started, not only the first, and the barrier expects two completions,
fewer than the three branches. -/
theorem inclusiveGateway_inclusive_witness :
    (executedActivity "40" INT : Simulator Unit).Result = ("40", INT) ∧
      ParseInt "40" = (40, none) ∧
      (∀ c ∈ [">;30", ">;10", "<;5"], ';' ∈ c.data) ∧
      ([">;30", ">;10", "<;5"] : List String).length =
        ([subProcess1, subProcess2, subProcess1] : List (Simulator Unit)).length ∧
      launchedBranches ((Simulator.InclusiveGateway ⟨4, "Inclusive Gateway"⟩
        [">;30", ">;10", "<;5"] [subProcess1, subProcess2, subProcess1]).Simulate
        (executedActivity "40" INT : Simulator Unit) ⟨1⟩ ()).actions = [0, 1] ∧
      registrations ((Simulator.InclusiveGateway ⟨4, "Inclusive Gateway"⟩
        [">;30", ">;10", "<;5"] [subProcess1, subProcess2, subProcess1]).Simulate
        (executedActivity "40" INT : Simulator Unit) ⟨1⟩ ()).actions = 2 := by
  have h := (inclusiveGateway_inclusive (σ := Unit)).1 ⟨4, "Inclusive Gateway"⟩
    [">;30", ">;10", "<;5"] [subProcess1, subProcess2, subProcess1]
    (executedActivity "40" INT : Simulator Unit) ⟨1⟩ () "40" 40 rfl (by decide) (by decide)
    rfl
  exact ⟨rfl, by decide, by decide, rfl, h.2.1, h.2.2.1⟩

/-! ## The parallel gateway -/

theorem runBranches_all (gateway : Simulator σ) (launched : List Nat)
    (subProcesses : List (Simulator σ)) (hsub : ∀ p ∈ subProcesses, Completes p) :
    ∀ (i : Nat) (subWaitGroup : WaitGroup) (env : σ),
      (∀ j, i ≤ j → j < i + subProcesses.length → j ∈ launched) →
      subWaitGroup.counter = subProcesses.length →
      (runBranches gateway launched i subWaitGroup env subProcesses).status = Status.ok ∧
      (runBranches gateway launched i subWaitGroup env subProcesses).subWaitGroup.counter =
        0 ∧
      calls (runBranches gateway launched i subWaitGroup env subProcesses).actions =
        subProcesses.map fun p => (p, gateway) := by
  induction subProcesses with
  | nil =>
    intro i subWaitGroup env _ hc
    simpa [runBranches, calls] using hc
  | cons subProcess rest ih =>
    intro i subWaitGroup env hall hc
    simp only [List.length_cons] at hall hc
    have hs := hsub subProcess (List.mem_cons_self _ _) gateway subWaitGroup env (by omega)
    have ih' := ih (fun p hp => hsub p (List.mem_cons_of_mem _ hp)) (i + 1)
      (subProcess.Simulate gateway subWaitGroup env).waitGroup
      (subProcess.Simulate gateway subWaitGroup env).env
      (fun j h1 h2 => hall j (by omega) (by omega)) (by have := hs.2; omega)
    rw [runBranches, if_pos (hall i (Nat.le_refl _) (by omega))]
    simp only [hs.1]
    refine ⟨ih'.1, ih'.2.1, ?_⟩
    have := ih'.2.2
    simp only [calls, List.filterMap_cons, List.map_cons] at this ⊢
    rw [this]

/-- C12. Every execution of a parallel gateway with `N` branches, whatever its predecessor,
starts the branches `0, ..., N-1`, each once and with no condition read, and registers
exactly `N` completions on its barrier. When the branches run to completion and the gateway
is registered on the barrier of its caller, each branch is called once with the gateway as
its predecessor, and the gateway returns having reported exactly one completion, right after
the return of its wait on the barrier. -/
theorem parallelGateway_simulate (element : Element) (conditions : List String)
    (subProcesses : List (Simulator σ)) (previousElement : Simulator σ)
    (waitGroup : WaitGroup) (env : σ) :
    let o := (Simulator.ParallelGateway element conditions subProcesses).Simulate
      previousElement waitGroup env
    launchedBranches o.actions = List.range subProcesses.length ∧
      registrations o.actions = subProcesses.length ∧
      ((∀ p ∈ subProcesses, Completes p) → 0 < waitGroup.counter →
        o.status = Status.ok ∧ signals o.actions = 1 ∧
          o.waitGroup.counter + 1 = waitGroup.counter ∧
          calls o.actions = subProcesses.map (fun p =>
            (p, Simulator.ParallelGateway element conditions subProcesses)) ∧
          ∃ before, o.actions = before ++ [Action.wait, Action.done, Action.print "\n\n"] ∧
            signals before = 0) := by
  intro o
  have hl := launchAll_eq subProcesses 0 (Launch.start : Launch σ)
  have hla := launchedBranches_launchActions (σ := σ) (List.range' 0 subProcesses.length)
  have hra := registrations_launchActions (σ := σ) (List.range' 0 subProcesses.length)
  have hsa := signals_launchActions (σ := σ) (List.range' 0 subProcesses.length)
  simp only [launchedBranches] at hla
  simp only [registrations] at hra
  simp only [signals] at hsa
  have hlaunched : (launchAll 0 subProcesses (Launch.start : Launch σ)).launched =
      List.range subProcesses.length := by
    rw [hl, List.range_eq_range']
    simp [Launch.launched, Launch.start, launchedBranches, List.filterMap_append, hla]
  refine ⟨?_, ?_, ?_⟩
  · show launchedBranches ((Simulator.ParallelGateway element conditions
      subProcesses).Simulate previousElement waitGroup env).actions = _
    simp only [Simulator.Simulate]
    rw [launchedBranches_waitAndComplete, (actions_runBranches _ _ _ _ _ _).2,
      List.append_nil]
    exact hlaunched
  · show registrations ((Simulator.ParallelGateway element conditions
      subProcesses).Simulate previousElement waitGroup env).actions = _
    simp only [Simulator.Simulate]
    rw [registrations_waitAndComplete, registrations_runBranches, Nat.add_zero, hl]
    simp [Launch.start, registrations, List.countP_append, hra]
  · intro hsub hwg
    have hrun := runBranches_all (Simulator.ParallelGateway element conditions subProcesses)
      (List.range subProcesses.length) subProcesses hsub 0
      { counter := subProcesses.length } env
      (fun j _ hj => List.mem_range.mpr (by omega)) rfl
    have hact := actions_runBranches (Simulator.ParallelGateway element conditions
      subProcesses) (List.range subProcesses.length) subProcesses 0
      { counter := subProcesses.length } env
    have hsub : (launchAll 0 subProcesses (Launch.start : Launch σ)).subWaitGroup =
        { counter := subProcesses.length } := by
      rw [hl]; simp [Launch.start]
    have ho : o = Outcome.mk Status.ok ""
        (Simulator.ParallelGateway element conditions
          (runBranches (Simulator.ParallelGateway element conditions subProcesses)
            (List.range subProcesses.length) 0 { counter := subProcesses.length } env
            subProcesses).nodes)
        { counter := waitGroup.counter - 1 }
        (runBranches (Simulator.ParallelGateway element conditions subProcesses)
            (List.range subProcesses.length) 0 { counter := subProcesses.length } env
            subProcesses).env
        (((launchAll 0 subProcesses (Launch.start : Launch σ)).actions ++
          (runBranches (Simulator.ParallelGateway element conditions subProcesses)
            (List.range subProcesses.length) 0 { counter := subProcesses.length } env
            subProcesses).actions ++ [Action.wait]) ++
          Action.done :: [Action.print "\n\n"]) := by
      simp only [o, Simulator.Simulate, hlaunched, hsub, waitAndComplete, hrun.1, hrun.2.1,
        if_true, complete_of_pos _ _ _ _ _ _ hwg]
    have hsig : signals ((launchAll 0 subProcesses (Launch.start : Launch σ)).actions ++
        (runBranches (Simulator.ParallelGateway element conditions subProcesses)
          (List.range subProcesses.length) 0 { counter := subProcesses.length } env
          subProcesses).actions) = 0 := by
      rw [hl]
      simp only [signals, Launch.start, List.countP_append, List.countP_cons,
        List.countP_nil] at hact ⊢
      rw [hact.1, hsa]
      rfl
    rw [ho]
    refine ⟨rfl, ?_, ?_, ?_, ?_⟩
    · simp only [signals, List.countP_append, List.countP_cons, List.countP_nil] at hsig ⊢
      simp only [hsig]
      rfl
    · show waitGroup.counter - 1 + 1 = waitGroup.counter
      omega
    · have hc := hrun.2.2
      have hcl : calls (launchAll 0 subProcesses (Launch.start : Launch σ)).actions = [] := by
        rw [hl]
        generalize List.range' 0 subProcesses.length = xs
        induction xs with
        | nil => rfl
        | cons x xs ih =>
          simp only [launchActions, calls, List.flatMap_cons, List.cons_append,
            List.nil_append, List.filterMap_cons, List.filterMap_append, Launch.start,
            List.filterMap_nil] at ih ⊢
          exact ih
      simp only [calls, List.filterMap_append, List.filterMap_cons, List.filterMap_nil]
        at hc hcl ⊢
      rw [hc, hcl]
      simp
    · exact ⟨(launchAll 0 subProcesses (Launch.start : Launch σ)).actions ++
        (runBranches (Simulator.ParallelGateway element conditions subProcesses)
          (List.range subProcesses.length) 0 { counter := subProcesses.length } env
          subProcesses).actions, by simp, hsig⟩

/-- A parallel gateway made by `InitParallelGateway` and two calls of
`AddSubProcessParallelGateway` with the two processes of `main`, on a barrier that expects
one completion: both branches are started, two completions are registered, and the gateway
returns with one completion reported after its wait. With no branch it registers nothing
and reports its completion as well. -/
theorem parallelGateway_simulate_witness :
    (let o := (AddSubProcessParallelGateway (AddSubProcessParallelGateway
        (InitParallelGateway 1 "Parallel Gateway") subProcess1) subProcess2 :
        Simulator Unit).Simulate InitStartEventElement ⟨1⟩ ()
     launchedBranches o.actions = [0, 1] ∧ registrations o.actions = 2 ∧
      o.status = Status.ok ∧ signals o.actions = 1 ∧ o.waitGroup.counter + 1 = 1) ∧
    (let o := (InitParallelGateway 1 "Parallel Gateway" : Simulator Unit).Simulate
        InitStartEventElement ⟨1⟩ ()
     launchedBranches o.actions = [] ∧ registrations o.actions = 0 ∧
      o.status = Status.ok ∧ signals o.actions = 1) := by
  have h := parallelGateway_simulate ⟨1, "Parallel Gateway"⟩ []
    [(subProcess1 : Simulator Unit), subProcess2] InitStartEventElement ⟨1⟩ ()
  have h' := h.2.2
    (by
      intro p hp
      simp only [List.mem_cons, List.mem_singleton, List.not_mem_nil, or_false] at hp
      rcases hp with rfl | rfl
      · exact subProcess1_completes
      · exact subProcess2_completes)
    (by decide)
  exact ⟨⟨h.1, h.2.1, h'.1, h'.2.1, h'.2.2.1⟩, rfl, rfl, rfl, rfl⟩

/-! ## Decimal literals and the parser -/

theorem digit_toNat (c : Char) (h : '0' ≤ c ∧ c ≤ '9') :
    48 ≤ c.toNat ∧ c.toNat ≤ 57 := by
  obtain ⟨h1, h2⟩ := h
  rw [Char.le_def] at h1 h2
  exact ⟨by simpa [Char.toNat, UInt32.le_def] using h1,
    by simpa [Char.toNat, UInt32.le_def] using h2⟩

theorem zero_toNat : ('0' : Char).toNat = 48 := by decide

theorem le_digitsValue (cs : List Char) : ∀ acc, acc ≤ digitsValue cs acc := by
  induction cs with
  | nil => intro acc; rw [digitsValue]
  | cons c cs ih =>
    intro acc
    have := ih (acc * 10 + (c.toNat - 48))
    rw [digitsValue]
    omega

theorem parseUintLoop_value (cs : List Char) (hdig : ∀ c ∈ cs, '0' ≤ c ∧ c ≤ '9') :
    ∀ n, n ≤ 2 ^ 32 - 1 →
      parseUintLoop cs n =
        if digitsValue cs n ≤ 2 ^ 32 - 1 then (digitsValue cs n, none)
        else (2 ^ 32 - 1, some NumError.ErrRange) := by
  induction cs with
  | nil =>
    intro n hn
    simp only [parseUintLoop, digitsValue]
    rw [if_pos hn]
  | cons c cs ih =>
    intro n hn
    have hc := hdig c (List.mem_cons_self _ _)
    have hd := digit_toNat c hc
    have ih' := ih (fun d hd => hdig d (List.mem_cons_of_mem _ hd))
    have hn' : n ≤ 4294967295 := by norm_num at hn; exact hn
    rw [parseUintLoop, if_pos hc, if_neg (by norm_num; omega)]
    simp only [digitsValue, zero_toNat]
    have hmod : (n * 10 + (c.toNat - 48)) % 2 ^ 64 = n * 10 + (c.toNat - 48) :=
      Nat.mod_eq_of_lt (by norm_num; omega)
    rw [hmod]
    by_cases hbig : n * 10 + (c.toNat - 48) > 2 ^ 32 - 1
    · rw [if_pos (Or.inr hbig)]
      have := le_digitsValue cs (n * 10 + (c.toNat - 48))
      rw [if_neg (by omega)]
    · rw [if_neg (by omega)]
      exact ih' _ (by omega)

theorem isDigits_iff (cs : List Char) :
    isDigits cs = true ↔ cs ≠ [] ∧ ∀ c ∈ cs, '0' ≤ c ∧ c ≤ '9' := by
  simp [isDigits]

theorem ParseUint_value (cs : List Char) (h : isDigits cs = true) :
    ParseUint cs =
      if digitsValue cs 0 ≤ 2 ^ 32 - 1 then (digitsValue cs 0, none)
      else (2 ^ 32 - 1, some NumError.ErrRange) := by
  obtain ⟨hne, hdig⟩ := (isDigits_iff cs).mp h
  cases cs with
  | nil => exact absurd rfl hne
  | cons c cs => exact parseUintLoop_value _ hdig 0 (by norm_num)

theorem ParseInt_signed (t : String) (c : Char) (cs : List Char) (hs : t.data = c :: cs)
    (hd : isDigits (if c = '+' ∨ c = '-' then cs else c :: cs) = true) :
    ParseInt t =
      if decide (c = '-') = false ∧
          digitsValue (if c = '+' ∨ c = '-' then cs else c :: cs) 0 ≥ 2 ^ 31 then
        (2 ^ 31 - 1, some NumError.ErrRange)
      else if decide (c = '-') = true ∧
          digitsValue (if c = '+' ∨ c = '-' then cs else c :: cs) 0 > 2 ^ 31 then
        (-(2 ^ 31), some NumError.ErrRange)
      else
        (if decide (c = '-') then
            -((digitsValue (if c = '+' ∨ c = '-' then cs else c :: cs) 0 : Nat) : Int)
          else ((digitsValue (if c = '+' ∨ c = '-' then cs else c :: cs) 0 : Nat) : Int),
          none) := by
  rw [ParseInt_cons t c cs hs, ParseUint_value _ hd]
  generalize digitsValue (if c = '+' ∨ c = '-' then cs else c :: cs) 0 = v
  generalize decide (c = '-') = neg
  by_cases hv : v ≤ 2 ^ 32 - 1
  · rw [if_pos hv]
    simp
  · rw [if_neg hv]
    have h1 : 2147483648 ≤ v := by norm_num at hv; omega
    have h2 : 2147483648 < v := by norm_num at hv; omega
    cases neg <;> simp [h1, h2]

theorem literalValue_form (t : String) (z : Int) (h : literalValue t = some z) :
    ∃ c cs, t.data = c :: cs ∧
      isDigits (if c = '+' ∨ c = '-' then cs else c :: cs) = true ∧
      z = if decide (c = '-') then
          -((digitsValue (if c = '+' ∨ c = '-' then cs else c :: cs) 0 : Nat) : Int)
        else ((digitsValue (if c = '+' ∨ c = '-' then cs else c :: cs) 0 : Nat) : Int) := by
  unfold literalValue at h
  cases hs : t.data with
  | nil => rw [hs] at h; simp at h
  | cons c cs =>
    rw [hs] at h
    simp only at h
    refine ⟨c, cs, rfl, ?_⟩
    by_cases hneg : c = '-'
    · rw [if_pos hneg] at h
      by_cases hd : isDigits cs = true
      · rw [if_pos hd] at h
        simp only [Option.some.injEq] at h
        simp [hneg, hd, h.symm]
      · rw [if_neg hd] at h; simp at h
    · rw [if_neg hneg] at h
      by_cases hplus : c = '+'
      · rw [if_pos hplus] at h
        by_cases hd : isDigits cs = true
        · rw [if_pos hd] at h
          simp only [Option.some.injEq] at h
          simp [hplus, hd, h.symm]
        · rw [if_neg hd] at h; simp at h
      · rw [if_neg hplus] at h
        by_cases hd : isDigits (c :: cs) = true
        · rw [if_pos hd] at h
          simp only [Option.some.injEq] at h
          simp [hneg, hplus, hd, h.symm]
        · rw [if_neg hd] at h; simp at h

/-- The parser against the specification of decimal literals: a literal that denotes an
integer of the signed 32-bit range parses to that integer, and one that denotes an integer
outside the range is a range error. -/
theorem ParseInt_literal (t : String) (z : Int) (h : literalValue t = some z) :
    (-(2 ^ 31) ≤ z ∧ z ≤ 2 ^ 31 - 1 → ParseInt t = (z, none)) ∧
    (z < -(2 ^ 31) ∨ 2 ^ 31 - 1 < z → (ParseInt t).2 = some NumError.ErrRange) := by
  obtain ⟨c, cs, hs, hd, hz⟩ := literalValue_form t z h
  rw [ParseInt_signed t c cs hs hd, hz]
  generalize digitsValue (if c = '+' ∨ c = '-' then cs else c :: cs) 0 = v
  generalize decide (c = '-') = neg
  cases neg
  · simp only [Bool.false_eq_true, if_false, true_and, false_and, ge_iff_le, gt_iff_lt]
    constructor
    · intro h1
      rw [if_neg (by omega)]
    · intro h1
      rw [if_pos (by omega)]
  · simp only [if_true, true_and, false_and, if_false, Bool.true_eq_false, ge_iff_le, gt_iff_lt]
    constructor
    · intro h1
      rw [if_neg (by omega)]
    · intro h1
      rw [if_pos (by omega)]

theorem evalCondition_unparsable (result : Value) (condition operator threshold : String)
    (rest : List String) (hsplit : Split condition = operator :: threshold :: rest)
    (hbad : (ParseInt threshold).2 ≠ none) :
    evalCondition result condition = .ok false := by
  unfold evalCondition
  rw [hsplit]
  simp [hbad]

/-- A branch whose condition never evaluates to "start" is not started, whatever the
predecessor of the gateway returned. -/
theorem not_launched_of_eval (element : Element) (conditions : List String)
    (subProcesses : List (Simulator σ)) (previousElement : Simulator σ)
    (waitGroup : WaitGroup) (env : σ) (i : Nat) (condition : String)
    (hi : conditions[i]? = some condition)
    (hev : ∀ result, evalCondition result condition = .ok false) :
    i ∉ launchedBranches ((Simulator.InclusiveGateway element conditions
      subProcesses).Simulate previousElement waitGroup env).actions := by
  cases hpp : parsePrevious previousElement.Result.1 previousElement.Result.2 with
  | mk r e =>
    have hnone : ∀ (o : Outcome σ), o.actions = [] → i ∉ launchedBranches o.actions := by
      intro o ho
      rw [ho]
      simp [launchedBranches]
    cases r with
    | none =>
      apply hnone
      simp only [Simulator.Simulate, hpp]
    | some result =>
      cases e with
      | some err =>
        apply hnone
        simp only [Simulator.Simulate, hpp]
      | none =>
        rw [launchedBranches_inclusiveGateway element conditions subProcesses previousElement
          waitGroup env result hpp]
        intro hmem
        rcases mem_launched_evalConditions _ _ _ _ _ _ hmem with h | ⟨_, c, hc, hc'⟩
        · simp [Launch.start, Launch.launched, launchedBranches] at h
        · rw [Nat.sub_zero, hi, Option.some.injEq] at hc
          subst hc
          rw [hev result] at hc'
          simp at hc'

/-- The rule of one branch after an integer predecessor: when the conditions before it have
their separator and the gateway has a sub-process for each condition, the branch is started
exactly when its condition holds. -/
theorem launched_iff_holds (element : Element) (conditions : List String)
    (subProcesses : List (Simulator σ)) (previousElement : Simulator σ)
    (waitGroup : WaitGroup) (env : σ) (n : Int) (i : Nat)
    (condition operator threshold : String) (rest : List String)
    (hpp : parsePrevious previousElement.Result.1 previousElement.Result.2 =
      (some (Value.int64 n), none))
    (hlen : conditions.length = subProcesses.length)
    (hi : conditions[i]? = some condition)
    (hsplit : Split condition = operator :: threshold :: rest)
    (hreach : ∀ j c, j < i → conditions[j]? = some c → ';' ∈ c.data) :
    i ∈ launchedBranches ((Simulator.InclusiveGateway element conditions
        subProcesses).Simulate previousElement waitGroup env).actions ↔
      conditionHolds n condition = true := by
  rw [launchedBranches_inclusiveGateway element conditions subProcesses previousElement
    waitGroup env (Value.int64 n) hpp]
  have heval := evalCondition_int64_of_split n condition operator threshold rest hsplit
  constructor
  · intro hmem
    rcases mem_launched_evalConditions _ _ _ _ _ _ hmem with h | ⟨_, c, hc, hc'⟩
    · simp [Launch.start, Launch.launched, launchedBranches] at h
    · rw [Nat.sub_zero, hi, Option.some.injEq] at hc
      subst hc
      rw [heval] at hc'
      simpa using hc'
  · intro hholds
    obtain ⟨front, back, hl, hfl, hfront⟩ := split_at_index conditions i _ hi
    have hlt : i < subProcesses.length := by
      rw [← hlen, hl, List.length_append, List.length_cons]
      omega
    have hfrontsep : ∀ c ∈ front, ';' ∈ c.data := by
      intro c hc
      obtain ⟨j, hj, hjc⟩ := hfront c hc
      exact hreach j c hj hjc
    have hfrontloop := evalConditions_int64 (σ := σ) n subProcesses.length front 0
      Launch.start hfrontsep (by omega)
    rw [hl, evalConditions_append (Value.int64 n) subProcesses.length front _ 0
      Launch.start (by rw [hfrontloop]; rfl), hfrontloop,
      Nat.zero_add, hfl, evalConditions, heval, hholds]
    simp only
    rw [if_pos hlt]
    exact launched_subset_evalConditions _ _ _ _ _ _
      (by simp [Launch.launched, launchedBranches, List.filterMap_append])

theorem conditionHolds_of_split (n m : Int) (condition operator threshold : String)
    (rest : List String) (hsplit : Split condition = operator :: threshold :: rest)
    (ht : ParseInt threshold = (m, none)) :
    conditionHolds n condition = true ↔
      (operator = "<" ∧ n < m) ∨ (operator = ">" ∧ n > m) ∨ (operator = "=" ∧ n = m) := by
  unfold conditionHolds
  rw [hsplit]
  simp [ht]

/-! ## Thresholds are 32-bit integers -/

/-- C18. The threshold of a condition is parsed as a signed 32-bit integer. For every
inclusive gateway and every predecessor, a branch whose condition splits into an operator
and a threshold that is a decimal literal of an integer outside [-2147483648, 2147483647]
meets a range error of the parser: its condition evaluates to "not started", raising
nothing, and the branch is not among the started ones. A threshold that is a decimal literal
of an integer `z` inside the range parses to `z` exactly, and after a predecessor that
returned the text of the integer `n` with the tag `INT`, in a gateway with a sub-process for
each condition and the separator in every condition before this one, the branch is started
if and only if the operator is `<` and `n < z`, or `>` and `n > z`, or `=` and `n = z`. The
literals 2147483648 and -2147483649 are outside the range, the literals 2147483647 and
-2147483648 parse to themselves, and after the value 5 a gateway with the one condition
`<;2147483647` starts its branch and reports one completion while with `<;2147483648` or
`>;-2147483649` it starts none. -/
theorem inclusiveGateway_threshold_range :
    (∀ (element : Element) (conditions : List String) (subProcesses : List (Simulator σ))
      (previousElement : Simulator σ) (waitGroup : WaitGroup) (env : σ) (i : Nat)
      (condition operator threshold : String) (rest : List String) (z : Int),
      conditions[i]? = some condition → Split condition = operator :: threshold :: rest →
      literalValue threshold = some z → (z < -2147483648 ∨ 2147483647 < z) →
      (ParseInt threshold).2 = some NumError.ErrRange ∧
        (∀ result, evalCondition result condition = .ok false) ∧
        i ∉ launchedBranches ((Simulator.InclusiveGateway element conditions
          subProcesses).Simulate previousElement waitGroup env).actions) ∧
    (∀ (element : Element) (conditions : List String) (subProcesses : List (Simulator σ))
      (previousElement : Simulator σ) (waitGroup : WaitGroup) (env : σ) (v : String)
      (n : Int) (i : Nat) (condition operator threshold : String) (rest : List String)
      (z : Int),
      conditions[i]? = some condition → Split condition = operator :: threshold :: rest →
      literalValue threshold = some z → -2147483648 ≤ z → z ≤ 2147483647 →
      ParseInt threshold = (z, none) ∧
        (previousElement.Result = (v, INT) → ParseInt v = (n, none) →
          conditions.length = subProcesses.length →
          (∀ j c, j < i → conditions[j]? = some c → ';' ∈ c.data) →
          (i ∈ launchedBranches ((Simulator.InclusiveGateway element conditions
              subProcesses).Simulate previousElement waitGroup env).actions ↔
            (operator = "<" ∧ n < z) ∨ (operator = ">" ∧ n > z) ∨
              (operator = "=" ∧ n = z)))) ∧
    (literalValue "2147483648" = some 2147483648 ∧
      literalValue "-2147483649" = some (-2147483649) ∧
      literalValue "2147483647" = some 2147483647 ∧
      literalValue "-2147483648" = some (-2147483648) ∧
      ParseInt "2147483647" = (2147483647, none) ∧
      ParseInt "-2147483648" = (-2147483648, none)) ∧
    (∀ (waitGroup : WaitGroup) (env : σ), 0 < waitGroup.counter →
      (∀ condition branches, (condition, branches) ∈
          [("<;2147483647", [0]), ("<;2147483648", ([] : List Nat)), (">;-2147483649", []),
            (">;-2147483648", [0])] →
        ((Simulator.InclusiveGateway ⟨4, "Inclusive Gateway"⟩ [condition]
            [subProcess1]).Simulate (executedActivity "5" INT) waitGroup env).status =
              Status.ok ∧
          launchedBranches ((Simulator.InclusiveGateway ⟨4, "Inclusive Gateway"⟩ [condition]
            [subProcess1]).Simulate (executedActivity "5" INT) waitGroup env).actions =
              branches ∧
          signals ((Simulator.InclusiveGateway ⟨4, "Inclusive Gateway"⟩ [condition]
            [subProcess1]).Simulate (executedActivity "5" INT) waitGroup env).actions = 1)) := by
  refine ⟨?_, ?_, ?_, ?_⟩
  · intro element conditions subProcesses previousElement waitGroup env i condition operator
      threshold rest z hi hsplit hz hout
    have hrange : (ParseInt threshold).2 = some NumError.ErrRange :=
      (ParseInt_literal threshold z hz).2 (by
        rcases hout with h | h
        · left; norm_num; omega
        · right; norm_num; omega)
    have hev : ∀ result, evalCondition result condition = .ok false := fun result =>
      evalCondition_unparsable result condition operator threshold rest hsplit
        (by rw [hrange]; simp)
    exact ⟨hrange, hev, not_launched_of_eval element conditions subProcesses previousElement
      waitGroup env i condition hi hev⟩
  · intro element conditions subProcesses previousElement waitGroup env v n i condition
      operator threshold rest z hi hsplit hz hlo hhi
    have hparse : ParseInt threshold = (z, none) :=
      (ParseInt_literal threshold z hz).1 ⟨by norm_num; omega, by norm_num; omega⟩
    refine ⟨hparse, ?_⟩
    intro hprev hv hlen hreach
    have hpp : parsePrevious previousElement.Result.1 previousElement.Result.2 =
        (some (Value.int64 n), none) := by
      rw [hprev]
      exact parsePrevious_int v INT n (Or.inl rfl) hv
    rw [launched_iff_holds element conditions subProcesses previousElement waitGroup env n i
      condition operator threshold rest hpp hlen hi hsplit hreach]
    exact conditionHolds_of_split n z condition operator threshold rest hsplit hparse
  · exact ⟨by decide, by decide, by decide, by decide, by decide, by decide⟩
  · intro waitGroup env hwg condition branches hmem
    have hsub : ∀ p ∈ ([subProcess1] : List (Simulator σ)), Completes p := by
      intro p hp
      simp only [List.mem_singleton] at hp
      subst hp
      exact subProcess1_completes
    have hpp : parsePrevious (executedActivity "5" INT : Simulator σ).Result.1
        (executedActivity "5" INT : Simulator σ).Result.2 = (some (Value.int64 5), none) :=
      parsePrevious_int "5" INT 5 (Or.inl rfl) (by decide)
    have key : ∀ c : String, ';' ∈ c.data →
        ((Simulator.InclusiveGateway ⟨4, "Inclusive Gateway"⟩ [c]
            [subProcess1]).Simulate (executedActivity "5" INT) waitGroup env).status =
              Status.ok ∧
          launchedBranches ((Simulator.InclusiveGateway ⟨4, "Inclusive Gateway"⟩ [c]
            [subProcess1]).Simulate (executedActivity "5" INT) waitGroup env).actions =
              matchingFrom 5 0 [c] ∧
          signals ((Simulator.InclusiveGateway ⟨4, "Inclusive Gateway"⟩ [c]
            [subProcess1]).Simulate (executedActivity "5" INT) waitGroup env).actions = 1 := by
      intro c hc
      have h := inclusiveGateway_simulate_int ⟨4, "Inclusive Gateway"⟩ [c]
        [subProcess1] (executedActivity "5" INT : Simulator σ) waitGroup env 5 hpp
        (by intro c' hc'; simp only [List.mem_singleton] at hc'; subst hc'; exact hc) rfl
        hsub hwg
      exact ⟨h.1, h.2.1, h.2.2.1⟩
    simp only [List.mem_cons, List.mem_singleton, List.not_mem_nil, or_false,
      Prod.mk.injEq] at hmem
    rcases hmem with ⟨rfl, rfl⟩ | ⟨rfl, rfl⟩ | ⟨rfl, rfl⟩ | ⟨rfl, rfl⟩
    · have h := key "<;2147483647" (by decide)
      exact ⟨h.1, h.2.1.trans (by decide), h.2.2⟩
    · have h := key "<;2147483648" (by decide)
      exact ⟨h.1, h.2.1.trans (by decide), h.2.2⟩
    · have h := key ">;-2147483649" (by decide)
      exact ⟨h.1, h.2.1.trans (by decide), h.2.2⟩
    · have h := key ">;-2147483648" (by decide)
      exact ⟨h.1, h.2.1.trans (by decide), h.2.2⟩

/-- The gateway with the single condition `<;2147483648`, then `<;2147483647`, after the
value 5 on a barrier with one registration: the first threshold is a range error and the
branch is not started, the second parses to 2147483647 and the branch is started because
5 < 2147483647. -/
theorem inclusiveGateway_threshold_range_witness :
    ((ParseInt "2147483648").2 = some NumError.ErrRange ∧
      (∀ result, evalCondition result "<;2147483648" = .ok false) ∧
      0 ∉ launchedBranches ((Simulator.InclusiveGateway ⟨4, "Inclusive Gateway"⟩
        ["<;2147483648"] [subProcess1]).Simulate
        (executedActivity "5" INT : Simulator Unit) ⟨1⟩ ()).actions) ∧
    ParseInt "2147483647" = (2147483647, none) ∧
    0 ∈ launchedBranches ((Simulator.InclusiveGateway ⟨4, "Inclusive Gateway"⟩
      ["<;2147483647"] [subProcess1]).Simulate
      (executedActivity "5" INT : Simulator Unit) ⟨1⟩ ()).actions ∧
    launchedBranches ((Simulator.InclusiveGateway ⟨4, "Inclusive Gateway"⟩
      ["<;2147483647"] [subProcess1]).Simulate
      (executedActivity "5" INT : Simulator Unit) ⟨1⟩ ()).actions = [0] := by
  have h := inclusiveGateway_threshold_range (σ := Unit)
  have hout := h.1 ⟨4, "Inclusive Gateway"⟩ ["<;2147483648"] [subProcess1]
    (executedActivity "5" INT) ⟨1⟩ () 0 "<;2147483648" "<" "2147483648" [] 2147483648
    rfl (by decide) (by decide) (Or.inr (by decide))
  have hin := h.2.1 ⟨4, "Inclusive Gateway"⟩ ["<;2147483647"] [subProcess1]
    (executedActivity "5" INT) ⟨1⟩ () "5" 5 0 "<;2147483647" "<" "2147483647" []
    2147483647 rfl (by decide) (by decide) (by decide) (by decide)
  have hrun := h.2.2.2 ⟨1⟩ () (by decide) "<;2147483647" [0] (by simp)
  exact ⟨hout, hin.1,
    (hin.2 rfl (by decide) rfl (fun j c hj _ => absurd hj (Nat.not_lt_zero j))).mpr
      (Or.inl ⟨rfl, by decide⟩),
    hrun.2.1⟩

/-! ## The barrier of a process -/

theorem signals_evalConditions (result : Value) (k : Nat) (conditions : List String) :
    ∀ (i : Nat) (l : Launch σ),
      signals (evalConditions result k i conditions l).actions = signals l.actions := by
  induction conditions with
  | nil => intro i l; simp [evalConditions]
  | cons condition rest ih =>
    intro i l
    rw [evalConditions]
    cases he : evalCondition result condition with
    | error p => rfl
    | ok b =>
      cases b with
      | false => exact ih _ _
      | true =>
        simp only
        by_cases hk : i < k
        · rw [if_pos hk, ih]
          simp [signals, List.countP_append]
        · rw [if_neg hk]
          simp [signals, List.countP_append]

theorem signals_launchAll (subProcesses : List (Simulator σ)) :
    ∀ (i : Nat) (l : Launch σ),
      signals (launchAll i subProcesses l).actions = signals l.actions := by
  induction subProcesses with
  | nil => intro i l; simp [launchAll]
  | cons subProcess rest ih =>
    intro i l
    rw [launchAll, ih]
    simp [signals, List.countP_append]

theorem complete_accounting (self : Simulator σ) (waitGroup : WaitGroup) (env : σ)
    (before after : List (Action σ)) (text : String)
    (h : (complete self waitGroup env before after text).status = Status.ok) :
    (complete self waitGroup env before after text).waitGroup.counter + 1 =
        waitGroup.counter ∧
      signals (complete self waitGroup env before after text).actions =
        signals before + 1 + signals after := by
  by_cases hpos : 0 < waitGroup.counter
  · rw [complete_of_pos _ _ _ _ _ _ hpos]
    refine ⟨by show waitGroup.counter - 1 + 1 = waitGroup.counter; omega, ?_⟩
    simp only [signals, List.countP_append, List.countP_cons]
    simp only [if_true]
    omega
  · exfalso
    unfold complete WaitGroup.Done at h
    rw [if_pos (by omega)] at h
    simp at h

theorem waitAndComplete_accounting (self : Simulator σ) (waitGroup : WaitGroup)
    (before : List (Action σ)) (r : Run σ)
    (h : (waitAndComplete self waitGroup before r).status = Status.ok) :
    (waitAndComplete self waitGroup before r).waitGroup.counter + 1 = waitGroup.counter ∧
      signals (waitAndComplete self waitGroup before r).actions =
        signals before + signals r.actions + 1 := by
  cases hs : r.status with
  | ok =>
    by_cases hz : r.subWaitGroup.counter = 0
    · have e : waitAndComplete self waitGroup before r =
          complete self waitGroup r.env (before ++ r.actions ++ [Action.wait])
            [Action.print "\n\n"] "" := by
        simp only [waitAndComplete, hs, hz, if_true]
      rw [e] at h ⊢
      have := complete_accounting _ _ _ _ _ _ h
      refine ⟨this.1, ?_⟩
      rw [this.2]
      simp [signals, List.countP_append]
    · exfalso
      simp [waitAndComplete, hs, hz, abort] at h
  | panic p =>
    exfalso
    simp [waitAndComplete, hs, abort] at h
  | blocked =>
    exfalso
    simp [waitAndComplete, hs, abort] at h

/-- Every call of `Simulate` that returns has reported at most one completion, and the
barrier of its caller went down by what it reported. -/
theorem simulate_accounting (s previousElement : Simulator σ) (waitGroup : WaitGroup)
    (env : σ) (h : (s.Simulate previousElement waitGroup env).status = Status.ok) :
    (s.Simulate previousElement waitGroup env).waitGroup.counter +
        signals (s.Simulate previousElement waitGroup env).actions = waitGroup.counter ∧
      signals (s.Simulate previousElement waitGroup env).actions ≤ 1 := by
  cases s with
  | DefaultActivityElement e =>
    simp only [Simulator.Simulate] at h ⊢
    have := complete_accounting _ _ _ _ _ _ h
    rw [this.2]
    exact ⟨this.1, by simp [signals]⟩
  | ActiveActivityElement e result dataType function =>
    simp only [Simulator.Simulate] at h ⊢
    have := complete_accounting _ _ _ _ _ _ h
    rw [this.2]
    exact ⟨this.1, by simp [signals]⟩
  | StartEventElement e =>
    simp only [Simulator.Simulate] at h ⊢
    have := complete_accounting _ _ _ _ _ _ h
    rw [this.2]
    exact ⟨this.1, by simp [signals]⟩
  | EndEventElement e =>
    simp only [Simulator.Simulate] at h ⊢
    have := complete_accounting _ _ _ _ _ _ h
    rw [this.2]
    exact ⟨this.1, by simp [signals]⟩
  | BusinessProcess e processElements =>
    cases hs : (simulateElements none { counter := 0 } env processElements).status with
    | ok =>
      simp only [Simulator.Simulate, hs] at h ⊢
      have := complete_accounting _ _ _ _ _ _ h
      rw [this.2, signals_simulateElements]
      exact ⟨this.1, by simp [signals]⟩
    | panic p => simp [Simulator.Simulate, hs, abort] at h
    | blocked => simp [Simulator.Simulate, hs, abort] at h
  | ParallelGateway e conditions subProcesses =>
    simp only [Simulator.Simulate] at h ⊢
    obtain ⟨h1, h2⟩ := waitAndComplete_accounting _ _ _ _ h
    rw [h2, (actions_runBranches _ _ _ _ _ _).1, signals_launchAll]
    exact ⟨by simpa [signals, Launch.start] using h1, by simp [signals, Launch.start]⟩
  | InclusiveGateway e conditions subProcesses =>
    cases hpp : parsePrevious previousElement.Result.1 previousElement.Result.2 with
    | mk r err =>
      cases r with
      | none =>
        simp only [Simulator.Simulate, hpp]
        simp [signals]
      | some result =>
        cases err with
        | some err =>
          simp only [Simulator.Simulate, hpp]
          simp [signals]
        | none =>
          cases hp : (evalConditions result subProcesses.length 0 conditions
            (Launch.start : Launch σ)).panic with
          | some p => simp [Simulator.Simulate, hpp, hp, abort] at h
          | none =>
            simp only [Simulator.Simulate, hpp, hp] at h ⊢
            obtain ⟨h1, h2⟩ := waitAndComplete_accounting _ _ _ _ h
            rw [h2, (actions_runBranches _ _ _ _ _ _).1, signals_evalConditions]
            exact ⟨by simpa [signals, Launch.start] using h1,
              by simp [signals, Launch.start]⟩

/-- The loop of a process whose children all return: every child was called once, in
order, one completion was registered per child, no child reported more than one, and the
barrier of the loop ends above where it started by the number of children that reported
none. -/
theorem simulateElements_accounting (elements : List (Simulator σ)) :
    ∀ (previous : Option (Simulator σ)) (subWaitGroup : WaitGroup) (env : σ),
      (simulateElements previous subWaitGroup env elements).status = Status.ok →
      (simulateElements previous subWaitGroup env elements).subWaitGroup.counter =
          subWaitGroup.counter +
            unsignalled (simulateElements previous subWaitGroup env elements).actions ∧
        (calls (simulateElements previous subWaitGroup env elements).actions).map Prod.fst =
          elements ∧
        registrations (simulateElements previous subWaitGroup env elements).actions =
          elements.length ∧
        ∀ inner ∈ callTraces (simulateElements previous subWaitGroup env elements).actions,
          signals inner ≤ 1 := by
  induction elements with
  | nil =>
    intro previous subWaitGroup env _
    simp [simulateElements, unsignalled, callTraces, calls, registrations]
  | cons element rest ih =>
    intro previous subWaitGroup env h
    cases hs : (element.Simulate (previous.getD element) (subWaitGroup.Add 1) env).status with
    | ok =>
      simp only [simulateElements, hs] at h ⊢
      obtain ⟨h1, h2⟩ := simulate_accounting _ _ _ _ hs
      obtain ⟨i1, i2, i3, i4⟩ := ih _ _ _ h
      have hadd : (subWaitGroup.Add 1).counter = subWaitGroup.counter + 1 := rfl
      rw [hadd] at h1
      generalize element.Simulate (previous.getD element) (subWaitGroup.Add 1) env = o at *
      refine ⟨?_, ?_, ?_, ?_⟩
      · simp only [unsignalled, callTraces, List.filterMap_cons, List.countP_cons] at i1 ⊢
        rw [i1]
        by_cases hz : signals o.actions = 0
        · rw [hz] at h1
          simp only [hz, decide_True, if_true]
          omega
        · simp only [hz, decide_False, Bool.false_eq_true, if_false]
          omega
      · simp only [calls, List.filterMap_cons, List.map_cons] at i2 ⊢
        rw [i2]
      · simp only [registrations, List.countP_cons, List.length_cons] at i3 ⊢
        rw [i3]
        simp
      · intro inner hinner
        simp only [callTraces, List.filterMap_cons, List.mem_cons] at hinner
        rcases hinner with rfl | hinner
        · exact h2
        · exact i4 inner hinner
    | panic p => simp [simulateElements, hs] at h
    | blocked => simp [simulateElements, hs] at h

/-! ## The completion of a process -/

/-- C19. A process whose children, run in order, all return (no runtime error, none left
waiting), called on a barrier on which it is registered: the process returns, it has called
every child once and in order, it has registered one completion per child on its own
barrier, it has reported exactly one completion to its caller, whose barrier went down by
one, and it did so right after the loop over its children, without waiting. No child
reported more than one completion, and the counter of the process's own barrier at the end
of the loop is the number of children that reported none. -/
theorem process_completion_independent (element : Element)
    (processElements : List (Simulator σ)) (previousElement : Simulator σ)
    (waitGroup : WaitGroup) (env : σ)
    (hchildren : (simulateElements none { counter := 0 } env processElements).status =
      Status.ok)
    (hwg : 0 < waitGroup.counter) :
    let r := simulateElements none { counter := 0 } env processElements
    let o := (Simulator.BusinessProcess element processElements).Simulate previousElement
      waitGroup env
    o.status = Status.ok ∧
      (calls o.actions).map Prod.fst = processElements ∧
      registrations o.actions = processElements.length ∧
      signals o.actions = 1 ∧
      o.waitGroup.counter + 1 = waitGroup.counter ∧
      o.actions = r.actions ++ [Action.done] ∧
      (∀ inner ∈ callTraces o.actions, signals inner ≤ 1) ∧
      r.subWaitGroup.counter = unsignalled o.actions := by
  intro r o
  obtain ⟨i1, i2, i3, i4⟩ := simulateElements_accounting processElements none
    { counter := 0 } env hchildren
  have ho : o = Outcome.mk Status.ok "" (Simulator.BusinessProcess element r.nodes)
      { counter := waitGroup.counter - 1 } r.env (r.actions ++ [Action.done]) := by
    simp only [o, r, Simulator.Simulate, hchildren, complete_of_pos _ _ _ _ _ _ hwg]
  rw [ho]
  refine ⟨rfl, ?_, ?_, ?_, ?_, rfl, ?_, ?_⟩
  · simp only [calls, List.filterMap_append, List.filterMap_cons, List.filterMap_nil,
      List.append_nil] at i2 ⊢
    exact i2
  · simp only [registrations, List.countP_append, List.countP_cons, List.countP_nil] at i3 ⊢
    rw [i3]
    rfl
  · have := signals_simulateElements processElements none { counter := 0 } env
    simp only [signals, List.countP_append, List.countP_cons, List.countP_nil] at this ⊢
    rw [this]
    rfl
  · show waitGroup.counter - 1 + 1 = waitGroup.counter
    omega
  · intro inner hinner
    apply i4
    simpa [callTraces, List.filterMap_append] using hinner
  · rw [i1]
    simp [unsignalled, callTraces, List.filterMap_append, r]

/-- The process of three children, an activity that produces the text `abc` with the tag
`INT`, an inclusive gateway and a default activity, on a barrier with one registration: the
loop over the children returns, and so does the process, having called the three children
in order and reported one completion; the gateway reported none, the two others one each,
and the barrier of the process ends at 1. -/
theorem process_completion_independent_witness :
    (simulateElements none { counter := 0 } ()
        [InitActiveActivityElement "Active Activity 0-1" (fun env => (("abc", INT), env)),
          AddSubProcessInclusiveGateway (InitInclusiveGateway 1 "Inclusive Gateway") ">;30"
            subProcess1,
          InitDefaultActivityElement "Activity 0-3"]).status = Status.ok ∧
      0 < (WaitGroup.mk 1).counter ∧
      (let r := simulateElements none { counter := 0 } ()
          [InitActiveActivityElement "Active Activity 0-1" (fun env => (("abc", INT), env)),
            AddSubProcessInclusiveGateway (InitInclusiveGateway 1 "Inclusive Gateway") ">;30"
              subProcess1,
            InitDefaultActivityElement "Activity 0-3"]
       let o := (Simulator.BusinessProcess ⟨0, "Default"⟩
          [InitActiveActivityElement "Active Activity 0-1" (fun env => (("abc", INT), env)),
            AddSubProcessInclusiveGateway (InitInclusiveGateway 1 "Inclusive Gateway") ">;30"
              subProcess1,
            InitDefaultActivityElement "Activity 0-3"]).Simulate
          (InitStartEventElement : Simulator Unit) ⟨1⟩ ()
       o.status = Status.ok ∧ registrations o.actions = 3 ∧ signals o.actions = 1 ∧
        o.waitGroup.counter + 1 = 1 ∧ (callTraces o.actions).map signals = [1, 0, 1] ∧
        unsignalled o.actions = 1 ∧ r.subWaitGroup.counter = 1) := by
  have h := process_completion_independent ⟨0, "Default"⟩
    [InitActiveActivityElement "Active Activity 0-1" (fun env => (("abc", INT), env)),
      AddSubProcessInclusiveGateway (InitInclusiveGateway 1 "Inclusive Gateway") ">;30"
        subProcess1,
      InitDefaultActivityElement "Activity 0-3"]
    (InitStartEventElement : Simulator Unit) ⟨1⟩ () (by decide) (by decide)
  exact ⟨by decide, by decide, h.1, h.2.2.1, h.2.2.2.1, h.2.2.2.2.1, by decide, by decide,
    h.2.2.2.2.2.2.2.trans (by decide)⟩

/-! ## Sequencing in a process -/

/-- A call of `Simulate` that returns has reported exactly one completion, unless it is a
call of an inclusive gateway whose reading of its predecessor failed: that call did
nothing at all. -/
theorem simulate_signals (s previousElement : Simulator σ) (waitGroup : WaitGroup)
    (env : σ) (h : (s.Simulate previousElement waitGroup env).status = Status.ok) :
    signals (s.Simulate previousElement waitGroup env).actions = 1 ∨
      ((s.Simulate previousElement waitGroup env).actions = [] ∧
        ∃ e conditions subProcesses, s = Simulator.InclusiveGateway e conditions subProcesses ∧
          (parsePrevious previousElement.Result.1 previousElement.Result.2).2 ≠ none) := by
  rcases Nat.lt_or_ge 0 (signals (s.Simulate previousElement waitGroup env).actions) with
    hpos | hzero
  · left
    have := (simulate_accounting s previousElement waitGroup env h).2
    omega
  · right
    have hz : signals (s.Simulate previousElement waitGroup env).actions = 0 := by omega
    cases s with
    | DefaultActivityElement e =>
      simp only [Simulator.Simulate] at h hz
      rw [(complete_accounting _ _ _ _ _ _ h).2] at hz
      omega
    | ActiveActivityElement e result dataType function =>
      simp only [Simulator.Simulate] at h hz
      rw [(complete_accounting _ _ _ _ _ _ h).2] at hz
      omega
    | StartEventElement e =>
      simp only [Simulator.Simulate] at h hz
      rw [(complete_accounting _ _ _ _ _ _ h).2] at hz
      omega
    | EndEventElement e =>
      simp only [Simulator.Simulate] at h hz
      rw [(complete_accounting _ _ _ _ _ _ h).2] at hz
      omega
    | BusinessProcess e processElements =>
      cases hs : (simulateElements none { counter := 0 } env processElements).status with
      | ok =>
        simp only [Simulator.Simulate, hs] at h hz
        rw [(complete_accounting _ _ _ _ _ _ h).2] at hz
        omega
      | panic p => simp [Simulator.Simulate, hs, abort] at h
      | blocked => simp [Simulator.Simulate, hs, abort] at h
    | ParallelGateway e conditions subProcesses =>
      simp only [Simulator.Simulate] at h hz
      rw [(waitAndComplete_accounting _ _ _ _ h).2] at hz
      omega
    | InclusiveGateway e conditions subProcesses =>
      cases hpp : parsePrevious previousElement.Result.1 previousElement.Result.2 with
      | mk r err =>
        cases err with
        | some err =>
          refine ⟨?_, e, conditions, subProcesses, rfl, by simp⟩
          cases r <;> simp only [Simulator.Simulate, hpp]
        | none =>
          exfalso
          cases r with
          | none =>
            unfold parsePrevious at hpp
            split_ifs at hpp <;> simp at hpp
          | some result =>
            cases hp : (evalConditions result subProcesses.length 0 conditions
              (Launch.start : Launch σ)).panic with
            | some p => simp [Simulator.Simulate, hpp, hp, abort] at h
            | none =>
              simp only [Simulator.Simulate, hpp, hp] at h hz
              rw [(waitAndComplete_accounting _ _ _ _ h).2] at hz
              omega

/-- In the loop of a process that returns, every child called has reported exactly one
completion when the next one is called, unless it is an inclusive gateway whose reading of
its predecessor failed. -/
theorem simulateElements_signals (elements : List (Simulator σ)) :
    ∀ (previous : Option (Simulator σ)) (subWaitGroup : WaitGroup) (env : σ),
      (simulateElements previous subWaitGroup env elements).status = Status.ok →
      ∀ c p inner,
        Action.call c p inner ∈ (simulateElements previous subWaitGroup env elements).actions →
        signals inner = 1 ∨
          (inner = [] ∧ ∃ e conditions subProcesses,
            c = Simulator.InclusiveGateway e conditions subProcesses ∧
            (parsePrevious p.Result.1 p.Result.2).2 ≠ none) := by
  induction elements with
  | nil =>
    intro previous subWaitGroup env _ c p inner hmem
    simp [simulateElements] at hmem
  | cons element rest ih =>
    intro previous subWaitGroup env h c p inner hmem
    cases hs : (element.Simulate (previous.getD element) (subWaitGroup.Add 1) env).status with
    | ok =>
      simp only [simulateElements, hs] at h hmem
      simp only [List.mem_cons, Action.call.injEq, reduceCtorEq, false_or] at hmem
      rcases hmem with ⟨rfl, rfl, rfl⟩ | hmem
      · exact simulate_signals _ _ _ _ hs
      · exact ih _ _ _ h c p inner hmem
    | panic q => simp [simulateElements, hs] at h
    | blocked => simp [simulateElements, hs] at h

/-- C11, what the code does. A process calls its next child when the previous one has
returned, whether or not that one reported its completion. In the process of three
children, an activity that produces the text `abc` with the tag `INT`, an inclusive gateway
and a default activity, run on a barrier with one registration, the three children are
called in order and the process returns, yet the gateway has reported no completion when
the default activity after it is called: the numbers of completions the three calls
reported are 1, 0 and 1. This is the only way it happens: in every process that returns,
each child called has reported exactly one completion by the time it returned, except an
inclusive gateway whose reading of its predecessor failed, which did nothing. -/
theorem process_child_starts_without_signal :
    (let o := (Simulator.BusinessProcess ⟨0, "Default"⟩
        [InitActiveActivityElement "Active Activity 0-1" (fun env => (("abc", INT), env)),
          AddSubProcessInclusiveGateway (InitInclusiveGateway 1 "Inclusive Gateway") ">;30"
            subProcess1,
          InitDefaultActivityElement "Activity 0-3"]).Simulate
        (InitStartEventElement : Simulator Unit) ⟨1⟩ ()
     o.status = Status.ok ∧
      (calls o.actions).map Prod.fst =
        [InitActiveActivityElement "Active Activity 0-1" (fun env => (("abc", INT), env)),
          AddSubProcessInclusiveGateway (InitInclusiveGateway 1 "Inclusive Gateway") ">;30"
            subProcess1,
          InitDefaultActivityElement "Activity 0-3"] ∧
      (callTraces o.actions).map signals = [1, 0, 1] ∧
      (callTraces o.actions)[1]? = some []) ∧
    (∀ (element : Element) (processElements : List (Simulator σ))
      (previousElement : Simulator σ) (waitGroup : WaitGroup) (env : σ),
      ((Simulator.BusinessProcess element processElements).Simulate previousElement waitGroup
        env).status = Status.ok →
      ∀ c p inner, Action.call c p inner ∈ ((Simulator.BusinessProcess element
          processElements).Simulate previousElement waitGroup env).actions →
        signals inner = 1 ∨
          (inner = [] ∧ ∃ e conditions subProcesses,
            c = Simulator.InclusiveGateway e conditions subProcesses ∧
            (parsePrevious p.Result.1 p.Result.2).2 ≠ none)) := by
  refine ⟨⟨by decide, rfl, by decide, rfl⟩, ?_⟩
  intro element processElements previousElement waitGroup env h c p inner hmem
  cases hs : (simulateElements none { counter := 0 } env processElements).status with
  | ok =>
    simp only [Simulator.Simulate, hs] at h hmem
    have hin : Action.call c p inner ∈
        (simulateElements none { counter := 0 } env processElements).actions := by
      unfold complete at hmem
      cases hd : waitGroup.Done with
      | none => rw [hd] at hmem; exact hmem
      | some wg =>
        rw [hd] at hmem
        simp only [List.mem_append, List.mem_singleton, reduceCtorEq, or_false] at hmem
        exact hmem
    exact simulateElements_signals processElements none { counter := 0 } env hs c p inner hin
  | panic q => simp [Simulator.Simulate, hs, abort] at h
  | blocked => simp [Simulator.Simulate, hs, abort] at h

/-! ## The barrier of a parallel gateway -/

theorem runBranchesWith_eq (gateway : Simulator σ) (launched : List Nat)
    (subProcesses : List (Simulator σ)) :
    ∀ (i : Nat) (subWaitGroup : WaitGroup) (env : σ),
      runBranchesWith Simulator.Simulate gateway launched subProcesses i subWaitGroup env =
        runBranches gateway launched i subWaitGroup env subProcesses := by
  induction subProcesses with
  | nil => intro i subWaitGroup env; rw [runBranchesWith, runBranches]
  | cons subProcess rest ih =>
    intro i subWaitGroup env
    rw [runBranchesWith, runBranches]
    simp only [ih]

theorem parallelGateway_simulate_eq (e : Element) (conditions : List String)
    (subProcesses : List (Simulator σ)) (previousElement : Simulator σ)
    (waitGroup : WaitGroup) (env : σ) :
    ParallelGateway.Simulate Simulator.Simulate e conditions subProcesses previousElement
        waitGroup env =
      (Simulator.ParallelGateway e conditions subProcesses).Simulate previousElement
        waitGroup env := by
  simp only [ParallelGateway.Simulate, Simulator.Simulate, runBranchesWith_eq]

/-- The goroutines of a gateway that started all its branches, none of which panics or
reports more than once: every branch is called, the loop of calls ends, and the barrier
ends at the number it started from, less the branches, plus those that reported nothing. -/
theorem runBranchesWith_barrier
    (simulate : Simulator σ → Simulator σ → WaitGroup → σ → Outcome σ)
    (gateway : Simulator σ) (launched : List Nat) (subProcesses : List (Simulator σ)) :
    ∀ (i : Nat) (subWaitGroup : WaitGroup) (env : σ),
      (∀ j, i ≤ j → j < i + subProcesses.length → j ∈ launched) →
      subProcesses.length ≤ subWaitGroup.counter →
      (∀ p ∈ subProcesses, ∀ (w : WaitGroup) (env1 : σ), 0 < w.counter →
        SignalsOrNot (simulate p gateway w env1) w) →
      (runBranchesWith simulate gateway launched subProcesses i subWaitGroup env).status =
          Status.ok ∧
        (callTraces (runBranchesWith simulate gateway launched subProcesses i subWaitGroup
          env).actions).length = subProcesses.length ∧
        (∀ inner ∈ callTraces (runBranchesWith simulate gateway launched subProcesses i
            subWaitGroup env).actions, signals inner = 1 ∨ signals inner = 0) ∧
        (runBranchesWith simulate gateway launched subProcesses i subWaitGroup
            env).subWaitGroup.counter + subProcesses.length =
          subWaitGroup.counter + unsignalled (runBranchesWith simulate gateway launched
            subProcesses i subWaitGroup env).actions ∧
        signals (runBranchesWith simulate gateway launched subProcesses i subWaitGroup
          env).actions = 0 := by
  induction subProcesses with
  | nil =>
    intro i subWaitGroup env _ _ _
    simp [runBranchesWith, callTraces, unsignalled, signals]
  | cons subProcess rest ih =>
    intro i subWaitGroup env hall hc hb
    simp only [List.length_cons] at hall hc
    obtain ⟨hnp, hsig⟩ := hb subProcess (List.mem_cons_self _ _) subWaitGroup env (by omega)
    have ih' := ih (i + 1) (simulate subProcess gateway subWaitGroup env).waitGroup
      (simulate subProcess gateway subWaitGroup env).env
      (fun j h1 h2 => hall j (by omega) (by omega)) (by omega)
      (fun p hp => hb p (List.mem_cons_of_mem _ hp))
    have hrun : runBranchesWith simulate gateway launched (subProcess :: rest) i subWaitGroup
        env =
        Run.mk
          (runBranchesWith simulate gateway launched rest (i + 1)
            (simulate subProcess gateway subWaitGroup env).waitGroup
            (simulate subProcess gateway subWaitGroup env).env).status
          ((simulate subProcess gateway subWaitGroup env).self ::
            (runBranchesWith simulate gateway launched rest (i + 1)
              (simulate subProcess gateway subWaitGroup env).waitGroup
              (simulate subProcess gateway subWaitGroup env).env).nodes)
          (runBranchesWith simulate gateway launched rest (i + 1)
            (simulate subProcess gateway subWaitGroup env).waitGroup
            (simulate subProcess gateway subWaitGroup env).env).subWaitGroup
          (runBranchesWith simulate gateway launched rest (i + 1)
            (simulate subProcess gateway subWaitGroup env).waitGroup
            (simulate subProcess gateway subWaitGroup env).env).env
          (Action.call subProcess gateway (simulate subProcess gateway subWaitGroup env).actions ::
            (runBranchesWith simulate gateway launched rest (i + 1)
              (simulate subProcess gateway subWaitGroup env).waitGroup
              (simulate subProcess gateway subWaitGroup env).env).actions) := by
      rw [runBranchesWith, if_pos (hall i (Nat.le_refl _) (by omega))]
      cases hs : (simulate subProcess gateway subWaitGroup env).status with
      | panic p => exact absurd hs (hnp p)
      | ok => simp only [hs]
      | blocked => simp only [hs]
    rw [hrun]
    obtain ⟨i1, i2, i3, i4, i5⟩ := ih'
    generalize runBranchesWith simulate gateway launched rest (i + 1)
      (simulate subProcess gateway subWaitGroup env).waitGroup
      (simulate subProcess gateway subWaitGroup env).env = next at *
    generalize simulate subProcess gateway subWaitGroup env = o at *
    simp only [unsignalled, callTraces, List.filterMap_cons, List.countP_cons,
      List.length_cons, List.mem_cons, signals] at i2 i3 i4 i5 ⊢
    refine ⟨i1, by rw [i2], ?_, ?_, i5⟩
    · intro inner hinner
      rcases hinner with rfl | hinner
      · rcases hsig with h | h
        · exact Or.inl h.1
        · exact Or.inr h.1
      · exact i3 inner hinner
    · rcases hsig with h | h
      · simp only [signals] at h
        simp only [h.1]
        simp only [Nat.one_ne_zero, decide_False, Bool.false_eq_true, if_false]
        omega
      · simp only [signals] at h
        simp only [h.1, decide_True, if_true]
        omega

theorem waitAndComplete_of_zero (self : Simulator σ) (waitGroup : WaitGroup)
    (before : List (Action σ)) (r : Run σ) (hs : r.status = Status.ok)
    (hz : r.subWaitGroup.counter = 0) :
    waitAndComplete self waitGroup before r =
      complete self waitGroup r.env (before ++ r.actions ++ [Action.wait])
        [Action.print "\n\n"] "" := by
  simp only [waitAndComplete, hs, hz, if_true]

theorem waitAndComplete_of_ne_zero (self : Simulator σ) (waitGroup : WaitGroup)
    (before : List (Action σ)) (r : Run σ) (hs : r.status = Status.ok)
    (hz : r.subWaitGroup.counter ≠ 0) :
    waitAndComplete self waitGroup before r =
      abort Status.blocked self waitGroup r.env (before ++ r.actions) := by
  simp only [waitAndComplete, hs, hz, if_false]

theorem waitAndComplete_blocked (self : Simulator σ) (waitGroup : WaitGroup)
    (before : List (Action σ)) (r : Run σ)
    (h : (waitAndComplete self waitGroup before r).status = Status.blocked) :
    (waitAndComplete self waitGroup before r).waitGroup = waitGroup ∧
      signals (waitAndComplete self waitGroup before r).actions =
        signals before + signals r.actions := by
  cases hs : r.status with
  | ok =>
    by_cases hz : r.subWaitGroup.counter = 0
    · exfalso
      rw [waitAndComplete_of_zero _ _ _ _ hs hz] at h
      unfold complete at h
      cases hd : waitGroup.Done <;> rw [hd] at h <;> simp at h
    · rw [waitAndComplete_of_ne_zero _ _ _ _ hs hz]
      simp [abort, signals, List.countP_append]
  | panic p =>
    exfalso
    simp [waitAndComplete, hs, abort] at h
  | blocked =>
    simp [waitAndComplete, hs, abort, signals, List.countP_append]

theorem complete_not_blocked (self : Simulator σ) (waitGroup : WaitGroup) (env : σ)
    (before after : List (Action σ)) (text : String) :
    (complete self waitGroup env before after text).status ≠ Status.blocked := by
  unfold complete
  cases waitGroup.Done <;> simp

/-- A call of `Simulate` that is left waiting has not touched the barrier of its caller. -/
theorem simulate_blocked (s previousElement : Simulator σ) (waitGroup : WaitGroup)
    (env : σ) (h : (s.Simulate previousElement waitGroup env).status = Status.blocked) :
    (s.Simulate previousElement waitGroup env).waitGroup = waitGroup ∧
      signals (s.Simulate previousElement waitGroup env).actions = 0 := by
  cases s with
  | DefaultActivityElement e =>
    simp only [Simulator.Simulate] at h
    exact absurd h (complete_not_blocked _ _ _ _ _ _)
  | ActiveActivityElement e result dataType function =>
    simp only [Simulator.Simulate] at h
    exact absurd h (complete_not_blocked _ _ _ _ _ _)
  | StartEventElement e =>
    simp only [Simulator.Simulate] at h
    exact absurd h (complete_not_blocked _ _ _ _ _ _)
  | EndEventElement e =>
    simp only [Simulator.Simulate] at h
    exact absurd h (complete_not_blocked _ _ _ _ _ _)
  | BusinessProcess e processElements =>
    cases hs : (simulateElements none { counter := 0 } env processElements).status with
    | ok =>
      simp only [Simulator.Simulate, hs] at h
      exact absurd h (complete_not_blocked _ _ _ _ _ _)
    | panic p => simp [Simulator.Simulate, hs, abort] at h
    | blocked =>
      simp only [Simulator.Simulate, hs, abort]
      exact ⟨trivial, signals_simulateElements _ _ _ _⟩
  | ParallelGateway e conditions subProcesses =>
    simp only [Simulator.Simulate] at h ⊢
    obtain ⟨h1, h2⟩ := waitAndComplete_blocked _ _ _ _ h
    rw [h2, (actions_runBranches _ _ _ _ _ _).1, signals_launchAll]
    exact ⟨h1, by simp [signals, Launch.start]⟩
  | InclusiveGateway e conditions subProcesses =>
    cases hpp : parsePrevious previousElement.Result.1 previousElement.Result.2 with
    | mk r err =>
      cases r with
      | none => simp [Simulator.Simulate, hpp] at h
      | some result =>
        cases err with
        | some err => simp [Simulator.Simulate, hpp] at h
        | none =>
          cases hp : (evalConditions result subProcesses.length 0 conditions
            (Launch.start : Launch σ)).panic with
          | some p => simp [Simulator.Simulate, hpp, hp, abort] at h
          | none =>
            simp only [Simulator.Simulate, hpp, hp] at h ⊢
            obtain ⟨h1, h2⟩ := waitAndComplete_blocked _ _ _ _ h
            rw [h2, (actions_runBranches _ _ _ _ _ _).1, signals_evalConditions]
            exact ⟨h1, by simp [signals, Launch.start]⟩

/-- Every call of `Simulate` of the package that does not panic has reported one completion
on the barrier of its caller, or none. -/
theorem simulate_signalsOrNot (s previousElement : Simulator σ) (waitGroup : WaitGroup)
    (env : σ) (h : ∀ p, (s.Simulate previousElement waitGroup env).status ≠ Status.panic p) :
    SignalsOrNot (s.Simulate previousElement waitGroup env) waitGroup := by
  refine ⟨h, ?_⟩
  cases hs : (s.Simulate previousElement waitGroup env).status with
  | ok =>
    obtain ⟨h1, h2⟩ := simulate_accounting s previousElement waitGroup env hs
    rcases Nat.lt_or_ge 0 (signals (s.Simulate previousElement waitGroup env).actions) with
      hpos | hzero
    · left
      have : signals (s.Simulate previousElement waitGroup env).actions = 1 := by omega
      exact ⟨this, by omega⟩
    · right
      have : signals (s.Simulate previousElement waitGroup env).actions = 0 := by omega
      exact ⟨this, by omega⟩
  | panic p => exact absurd hs (h p)
  | blocked =>
    obtain ⟨h1, h2⟩ := simulate_blocked s previousElement waitGroup env hs
    right
    exact ⟨h2, by rw [h1]⟩

theorem callTraces_launchAll (subProcesses : List (Simulator σ)) :
    ∀ (i : Nat) (l : Launch σ),
      callTraces (launchAll i subProcesses l).actions = callTraces l.actions := by
  induction subProcesses with
  | nil => intro i l; simp [launchAll]
  | cons subProcess rest ih =>
    intro i l
    rw [launchAll, ih]
    simp [callTraces, List.filterMap_append]

theorem callTraces_waitAndComplete (self : Simulator σ) (waitGroup : WaitGroup)
    (before : List (Action σ)) (r : Run σ) :
    callTraces (waitAndComplete self waitGroup before r).actions =
      callTraces before ++ callTraces r.actions := by
  unfold waitAndComplete
  split
  · split
    · unfold complete
      cases waitGroup.Done <;> simp [callTraces, List.filterMap_append]
    · simp [abort, callTraces, List.filterMap_append]
  · simp [abort, callTraces, List.filterMap_append]

theorem launchAll_start (subProcesses : List (Simulator σ)) :
    (launchAll 0 subProcesses (Launch.start : Launch σ)).launched =
        List.range subProcesses.length ∧
      (launchAll 0 subProcesses (Launch.start : Launch σ)).subWaitGroup =
        { counter := subProcesses.length } := by
  have hla := launchedBranches_launchActions (σ := σ) (List.range' 0 subProcesses.length)
  simp only [launchedBranches] at hla
  rw [launchAll_eq, List.range_eq_range']
  constructor
  · simp [Launch.launched, Launch.start, launchedBranches, List.filterMap_append, hla]
  · simp [Launch.start]

/-- C13. A parallel gateway whose `N` branches are values of the interface type, of the
package or not, each of which, called on a barrier with a positive counter, does not panic
and reports one completion or none, and which is itself registered on the barrier of its
caller: every branch is called; the gateway returns having reported its one completion to
the caller if and only if every branch has reported its completion; and if some branch has
reported none, the gateway is left waiting at its barrier, has reported nothing, and the
barrier of its caller is as it was. With the method `Simulate` of the package for the
branches this is the parallel gateway of `Simulator.Simulate`, and every call of that method
that does not panic reports one completion or none. -/
theorem parallelGateway_barrier :
    (∀ (e : Element) (conditions : List String) (subProcesses : List (Simulator σ))
      (previousElement : Simulator σ) (waitGroup : WaitGroup) (env : σ),
      ParallelGateway.Simulate Simulator.Simulate e conditions subProcesses previousElement
          waitGroup env =
        (Simulator.ParallelGateway e conditions subProcesses).Simulate previousElement
          waitGroup env) ∧
    (∀ (s previousElement : Simulator σ) (waitGroup : WaitGroup) (env : σ),
      (∀ p, (s.Simulate previousElement waitGroup env).status ≠ Status.panic p) →
        SignalsOrNot (s.Simulate previousElement waitGroup env) waitGroup) ∧
    (∀ (simulate : Simulator σ → Simulator σ → WaitGroup → σ → Outcome σ) (e : Element)
      (conditions : List String) (subProcesses : List (Simulator σ))
      (previousElement : Simulator σ) (waitGroup : WaitGroup) (env : σ),
      0 < waitGroup.counter →
      (∀ p ∈ subProcesses, ∀ (w : WaitGroup) (env1 : σ), 0 < w.counter →
        SignalsOrNot (simulate p (Simulator.ParallelGateway e conditions subProcesses) w env1)
          w) →
      (callTraces (ParallelGateway.Simulate simulate e conditions subProcesses
          previousElement waitGroup env).actions).length = subProcesses.length ∧
        (((ParallelGateway.Simulate simulate e conditions subProcesses previousElement
              waitGroup env).status = Status.ok ∧
            signals (ParallelGateway.Simulate simulate e conditions subProcesses
              previousElement waitGroup env).actions = 1 ∧
            (ParallelGateway.Simulate simulate e conditions subProcesses previousElement
              waitGroup env).waitGroup.counter + 1 = waitGroup.counter) ↔
          ∀ inner ∈ callTraces (ParallelGateway.Simulate simulate e conditions subProcesses
            previousElement waitGroup env).actions, signals inner = 1) ∧
        ((∃ inner ∈ callTraces (ParallelGateway.Simulate simulate e conditions subProcesses
            previousElement waitGroup env).actions, signals inner = 0) →
          (ParallelGateway.Simulate simulate e conditions subProcesses previousElement
              waitGroup env).status = Status.blocked ∧
            signals (ParallelGateway.Simulate simulate e conditions subProcesses
              previousElement waitGroup env).actions = 0 ∧
            (ParallelGateway.Simulate simulate e conditions subProcesses previousElement
              waitGroup env).waitGroup = waitGroup)) := by
  refine ⟨parallelGateway_simulate_eq, simulate_signalsOrNot, ?_⟩
  intro simulate e conditions subProcesses previousElement waitGroup env hwg hb
  obtain ⟨hlaunched, hcnt⟩ := launchAll_start subProcesses
  have hrun := runBranchesWith_barrier simulate
    (Simulator.ParallelGateway e conditions subProcesses) (List.range subProcesses.length)
    subProcesses 0 { counter := subProcesses.length } env
    (fun j _ hj => List.mem_range.mpr (by omega)) (Nat.le_refl _) hb
  have hsl : signals (launchAll 0 subProcesses (Launch.start : Launch σ)).actions = 0 := by
    rw [signals_launchAll]
    simp [signals, Launch.start]
  have hct : callTraces (ParallelGateway.Simulate simulate e conditions subProcesses
      previousElement waitGroup env).actions =
      callTraces (runBranchesWith simulate (Simulator.ParallelGateway e conditions
        subProcesses) (List.range subProcesses.length) subProcesses 0
        { counter := subProcesses.length } env).actions := by
    simp only [ParallelGateway.Simulate, hlaunched, hcnt]
    rw [callTraces_waitAndComplete, callTraces_launchAll]
    simp [Launch.start, callTraces]
  rw [hct]
  simp only [ParallelGateway.Simulate, hlaunched, hcnt]
  generalize runBranchesWith simulate (Simulator.ParallelGateway e conditions
    subProcesses) (List.range subProcesses.length) subProcesses 0
    { counter := subProcesses.length } env = r at hrun ⊢
  generalize (launchAll 0 subProcesses (Launch.start : Launch σ)).actions = before at hsl ⊢
  obtain ⟨r1, r2, r3, r4, r5⟩ := hrun
  have hcount : r.subWaitGroup.counter = unsignalled r.actions := by
    simp only at r4
    omega
  refine ⟨r2, ?_⟩
  by_cases hz : r.subWaitGroup.counter = 0
  · have hall : ∀ inner ∈ callTraces r.actions, signals inner = 1 := by
      intro inner hinner
      rcases r3 inner hinner with h | h
      · exact h
      · exfalso
        have hpos : 0 < unsignalled r.actions := by
          unfold unsignalled
          exact List.countP_pos_iff.mpr ⟨inner, hinner, by simp [h]⟩
        omega
    rw [waitAndComplete_of_zero _ _ _ _ r1 hz, complete_of_pos _ _ _ _ _ _ hwg]
    refine ⟨⟨fun _ => hall, fun _ => ⟨rfl, ?_, ?_⟩⟩, ?_⟩
    · simp only [signals, List.countP_append, List.countP_cons, List.countP_nil] at hsl r5 ⊢
      simp only [hsl, r5]
      rfl
    · show waitGroup.counter - 1 + 1 = waitGroup.counter
      omega
    · rintro ⟨inner, hinner, h0⟩
      have := hall inner hinner
      omega
  · have hex : ∃ inner ∈ callTraces r.actions, signals inner = 0 := by
      have hpos : 0 < unsignalled r.actions := by omega
      unfold unsignalled at hpos
      obtain ⟨inner, hinner, h⟩ := List.countP_pos_iff.mp hpos
      exact ⟨inner, hinner, by simpa using h⟩
    rw [waitAndComplete_of_ne_zero _ _ _ _ r1 hz]
    simp only [abort]
    refine ⟨⟨fun h => ?_, fun hall => ?_⟩, fun _ => ⟨trivial, ?_, trivial⟩⟩
    · exact absurd h.1 (by simp)
    · exfalso
      obtain ⟨inner, hinner, h0⟩ := hex
      have := hall inner hinner
      omega
    · simp only [signals, List.countP_append] at hsl r5 ⊢
      rw [hsl, r5]

theorem simulateWithSilent_signalsOrNot (silent : Int) (s previousElement : Simulator σ)
    (waitGroup : WaitGroup) (env : σ) (hs : Completes s) (hwg : 0 < waitGroup.counter) :
    SignalsOrNot (simulateWithSilent silent s previousElement waitGroup env) waitGroup := by
  unfold simulateWithSilent
  split
  · exact ⟨by simp, Or.inr ⟨rfl, rfl⟩⟩
  · apply simulate_signalsOrNot
    intro p
    rw [(hs previousElement waitGroup env hwg).1]
    simp

/-- A parallel gateway on a barrier with one registration, its branches called through an
interface that has, under the id 99, a type whose `Simulate` returns without reporting. With
the process `subProcess1` and a value of that type as branches, both are called, the first
reports and the second does not, and the gateway is left waiting: it reports nothing and the
barrier of its caller keeps its count. With the two processes of `main` as branches, both
report and the gateway returns having reported its completion. -/
theorem parallelGateway_barrier_witness :
    (let o := ParallelGateway.Simulate (simulateWithSilent 99) ⟨1, "Parallel Gateway"⟩ []
        [subProcess1, Simulator.DefaultActivityElement ⟨99, "Silent"⟩]
        (InitStartEventElement : Simulator Unit) ⟨1⟩ ()
     (callTraces o.actions).map signals = [1, 0] ∧ o.status = Status.blocked ∧
      signals o.actions = 0 ∧ o.waitGroup = ⟨1⟩) ∧
    (let o := ParallelGateway.Simulate (simulateWithSilent 99) ⟨1, "Parallel Gateway"⟩ []
        [subProcess1, subProcess2] (InitStartEventElement : Simulator Unit) ⟨1⟩ ()
     (callTraces o.actions).map signals = [1, 1] ∧ o.status = Status.ok ∧
      signals o.actions = 1 ∧ o.waitGroup.counter + 1 = 1) := by
  have hsilent := (parallelGateway_barrier (σ := Unit)).2.2 (simulateWithSilent 99)
    ⟨1, "Parallel Gateway"⟩ [] [subProcess1, Simulator.DefaultActivityElement ⟨99, "Silent"⟩]
    InitStartEventElement ⟨1⟩ () (by decide)
    (by
      intro p hp w env1 hw
      simp only [List.mem_cons, List.mem_singleton, List.not_mem_nil, or_false] at hp
      rcases hp with rfl | rfl
      · exact simulateWithSilent_signalsOrNot 99 _ _ w env1 subProcess1_completes hw
      · exact simulateWithSilent_signalsOrNot 99 _ _ w env1 (leaf_completes _ rfl) hw)
  have hboth := (parallelGateway_barrier (σ := Unit)).2.2 (simulateWithSilent 99)
    ⟨1, "Parallel Gateway"⟩ [] [subProcess1, subProcess2]
    InitStartEventElement ⟨1⟩ () (by decide)
    (by
      intro p hp w env1 hw
      simp only [List.mem_cons, List.mem_singleton, List.not_mem_nil, or_false] at hp
      rcases hp with rfl | rfl
      · exact simulateWithSilent_signalsOrNot 99 _ _ w env1 subProcess1_completes hw
      · exact simulateWithSilent_signalsOrNot 99 _ _ w env1 subProcess2_completes hw)
  have hm0 : (callTraces (ParallelGateway.Simulate (simulateWithSilent 99)
      ⟨1, "Parallel Gateway"⟩ []
      [subProcess1, Simulator.DefaultActivityElement ⟨99, "Silent"⟩]
      (InitStartEventElement : Simulator Unit) ⟨1⟩ ()).actions).map signals = [1, 0] := by
    decide
  have hm1 : (callTraces (ParallelGateway.Simulate (simulateWithSilent 99)
      ⟨1, "Parallel Gateway"⟩ [] [subProcess1, subProcess2]
      (InitStartEventElement : Simulator Unit) ⟨1⟩ ()).actions).map signals = [1, 1] := by
    decide
  refine ⟨⟨hm0, hsilent.2.2 ?_⟩, ⟨hm1, hboth.2.1.mpr ?_⟩⟩
  · have h0 : 0 ∈ (callTraces (ParallelGateway.Simulate (simulateWithSilent 99)
        ⟨1, "Parallel Gateway"⟩ []
        [subProcess1, Simulator.DefaultActivityElement ⟨99, "Silent"⟩]
        (InitStartEventElement : Simulator Unit) ⟨1⟩ ()).actions).map signals := by
      rw [hm0]
      simp
    obtain ⟨inner, hinner, h⟩ := List.mem_map.mp h0
    exact ⟨inner, hinner, h⟩
  · intro inner hinner
    have h1 := List.mem_map_of_mem signals hinner
    rw [hm1] at h1
    simpa using h1

end Model
